import Mathlib

/-!
# Verification of the lexer-generator core

A shallow embedding, in Lean 4, of the core compilation pipeline of the
`filip1097/lexer` repository: the 64-bit bitset utility (`bitset.h`),
the regular-expression tokenizer and recursive-descent parser
(`reg_exp.c`), the Thompson NFA builder (`nfa.c`, index-based draft),
and the subset-construction DFA converter with equivalence merging
(`dfa.c`).  C arrays are modelled as Lean lists, machine integers as
`Nat`/`Int` with explicit truncation where overflow matters, and
`assert`/`exit` failures as explicit error values.  Recursive C
functions are modelled with an explicit fuel argument (structural
recursion) so that every definition is executable and kernel-reducible.
-/

namespace Lexer

/-! ## Bitset (`bitset.h`, `src/unnamed/part_002`)

`BitSetT` is `uint64_t`; modelled as `Nat` with truncation mod `2^64`
at the shift, exactly where the C code can overflow.  Note the C code
contains no assertion on `num`. -/

/-- `add_to_bitset` from `bitset.h`: `*bitset_p |= ((uint64_t) 1 << num);`.
There is no bounds check in the source. -/
def add_to_bitset (b : Nat) (num : Nat) : Nat :=
  b ||| ((1 <<< num) % 2 ^ 64)

/-- `is_in_bitset` from `bitset.h`:
`return ((*bitset_p) & ((uint64_t) 1 << num)) > 0;`. -/
def is_in_bitset (b : Nat) (num : Nat) : Bool :=
  (b &&& ((1 <<< num) % 2 ^ 64)) > 0

theorem shift_mod_eq_pow {k : Nat} (hk : k < 64) : (1 <<< k) % 2 ^ 64 = 2 ^ k := by
  rw [Nat.shiftLeft_eq, one_mul]
  exact Nat.mod_eq_of_lt (Nat.pow_lt_pow_right (by norm_num) hk)

theorem is_in_bitset_eq_testBit (b m : Nat) (hm : m < 64) :
    is_in_bitset b m = b.testBit m := by
  rw [is_in_bitset, shift_mod_eq_pow hm, Nat.and_two_pow]
  cases h : b.testBit m <;> simp [h]

/-- C9 (claim as stated is a code bug): the source's `add_to_bitset` and
`is_in_bitset` perform an unchecked shift and contain no assertion.  At
the out-of-range index 64 the truncated shift amount is 0, so insertion
silently leaves the bitset unchanged and membership silently reports
`false`; no failure of any kind is detected, contradicting the spec's
requirement that an assertion fire. -/
theorem c9_bitset_out_of_range_unchecked :
    add_to_bitset 5 64 = 5 ∧ is_in_bitset 5 64 = false ∧
    (∀ b : Nat, add_to_bitset b 64 = b) := by
  refine ⟨by decide, by decide, fun b => ?_⟩
  have h : (1 <<< 64) % 2 ^ 64 = 0 := by decide
  simp [add_to_bitset, h]

theorem add_to_bitset_membership (b n m : Nat) (hn : n < 64) (hm : m < 64) :
    is_in_bitset (add_to_bitset b n) m = true ↔
      m = n ∨ is_in_bitset b m = true := by
  rw [add_to_bitset, shift_mod_eq_pow hn, is_in_bitset_eq_testBit _ m hm,
    is_in_bitset_eq_testBit b m hm, Nat.testBit_or, Nat.testBit_two_pow]
  constructor
  · intro h
    rcases Bool.or_eq_true_iff.mp h with h | h
    · exact Or.inr h
    · exact Or.inl (by simpa using (of_decide_eq_true h).symm)
  · intro h
    rcases h with h | h
    · exact Bool.or_eq_true_iff.mpr (Or.inr (by simp [h]))
    · exact Bool.or_eq_true_iff.mpr (Or.inl h)

/-- C10: insertion adds exactly the requested element: after
`add_to_bitset b n`, the index `m` is a member iff `m = n` or `m` was
already a member, for all `n, m < 64`. -/
theorem c10_add_to_bitset_membership (b n m : Nat) (hn : n < 64) (hm : m < 64) :
    is_in_bitset (add_to_bitset b n) m = true ↔
      m = n ∨ is_in_bitset b m = true :=
  add_to_bitset_membership b n m hn hm

/-- Witness for C10 at a concrete input. -/
theorem c10_add_to_bitset_membership_witness :
    1 < 64 ∧ 2 < 64 ∧
      (is_in_bitset (add_to_bitset 4 1) 2 = true ↔
        2 = 1 ∨ is_in_bitset 4 2 = true) :=
  ⟨by decide, by decide, c10_add_to_bitset_membership 4 1 2 (by decide) (by decide)⟩

/-! ## Regular-expression tokenizer and recursive-descent parsing
(`reg_exp.c`)

Expression text is a `List Char`.  Assertion failures and
`PARSING_ERROR` (`exit(1)`) are modelled as explicit error values.
The mutually recursive parsing functions of the C source are modelled
as one fuel-indexed function dispatching on the nonterminal being
parsed, so that the definition is structurally recursive and
executable; the C functions have no fuel, so the fuel is chosen large
enough at the top level and running out of fuel is a distinguished
error. -/

def MAX_REGEXP_STRING_LENGTH : Nat := 100

def MAX_NUM_REGEXP_TOKENS : Nat := 100

def MAX_NUM_REGEXP_CHILDREN : Nat := 20

/-- `RegExpTokenTypeE` from `reg_exp.c`. -/
inductive RegExpTokenType where
  | leftPar
  | rightPar
  | star
  | plus
  | comma
  | dash
  | question
  | leftBracket
  | rightBracket
  | orOp
  | string
  | endTok
deriving DecidableEq, Repr

/-- `is_regexp_operator_char` from `reg_exp.c`. -/
def is_regexp_operator_char (ch : Char) : Bool :=
  ch = '(' || ch = ')' || ch = '*' || ch = '+' || ch = ',' ||
  ch = '-' || ch = '?' || ch = '[' || ch = ']' || ch = '|'

/-- The C code stores the operator character itself as the token type
(the enum values are the character codes); here the character is mapped
to the corresponding variant. -/
def operator_token_type (ch : Char) : RegExpTokenType :=
  if ch = '(' then .leftPar
  else if ch = ')' then .rightPar
  else if ch = '*' then .star
  else if ch = '+' then .plus
  else if ch = ',' then .comma
  else if ch = '-' then .dash
  else if ch = '?' then .question
  else if ch = '[' then .leftBracket
  else if ch = ']' then .rightBracket
  else .orOp

/-- `RegExpTokenS`: the `characters` payload is only meaningful for
string tokens. -/
structure RegExpToken where
  type : RegExpTokenType
  characters : List Char := []
deriving DecidableEq, Repr

/-- The token array together with the conjunction of all the
`assert(... <= MAX ...)` checks performed while building it (`ok`). -/
structure TokenizeState where
  tokens : List RegExpToken
  ok : Bool
deriving DecidableEq, Repr

/-- `add_regexp_token`: appends an operator/end token and checks
`numTokens <= MAX_NUM_REGEXP_TOKENS`. -/
def add_regexp_token (st : TokenizeState) (t : RegExpTokenType) : TokenizeState :=
  { tokens := st.tokens ++ [⟨t, []⟩],
    ok := st.ok && decide (st.tokens.length + 1 ≤ MAX_NUM_REGEXP_TOKENS) }

/-- `add_regexp_string_token`: appends a string token carrying the
character buffer. -/
def add_regexp_string_token (st : TokenizeState) (buf : List Char) : TokenizeState :=
  { tokens := st.tokens ++ [⟨.string, buf⟩],
    ok := st.ok && decide (st.tokens.length + 1 ≤ MAX_NUM_REGEXP_TOKENS) }

/-- The while loop of `tokenize_regexp`: remaining input, current
character buffer, `escapeNextChar` flag, accumulated tokens. -/
def tokenize_loop : List Char → List Char → Bool → TokenizeState → TokenizeState
  | [], buf, _, st =>
      let st := if buf.length > 0 then add_regexp_string_token st buf else st
      add_regexp_token st .endTok
  | c :: rest, buf, esc, st =>
      if is_regexp_operator_char c && !esc then
        let st := if buf.length > 0 then add_regexp_string_token st buf else st
        tokenize_loop rest [] false (add_regexp_token st (operator_token_type c))
      else if c = '\\' && !esc then
        tokenize_loop rest buf true st
      else
        let buf' := buf ++ [c]
        tokenize_loop rest buf' false
          { st with ok := st.ok && decide (buf'.length ≤ MAX_REGEXP_STRING_LENGTH) }

/-- `tokenize_regexp` from `reg_exp.c`. -/
def tokenize_regexp (s : List Char) : TokenizeState :=
  tokenize_loop s [] false ⟨[], true⟩

/-- `RegExpS` (`reg_exp.h`): the tagged AST.  The C union fields
`children`/`child_p`/`left_p`/`right_p`/`characters` become per-variant
payloads. -/
inductive RegExp where
  | sequence (children : List RegExp)
  | optional (child : RegExp)
  | oneOrMore (child : RegExp)
  | zeroOrMore (child : RegExp)
  | orExp (left right : RegExp)
  | string (characters : List Char)
  | oneOf (children : List RegExp)
  | range (left right : RegExp)

/-- Parse failures: `PARSING_ERROR` exits (modelled by the first two
variants, mirroring the two messages in `parse_term`/`parser_expect`),
`assert` failures abort, and running out of model fuel is its own
variant. -/
inductive ParseErr where
  | expectedTerm (got : RegExpTokenType)
  | expectedToken (expected got : RegExpTokenType)
  | tooManyChildren
  | tokenizeOverflow
  | formatCheckFailed
  | outOfFuel
deriving DecidableEq, Repr

/-- The nonterminal being parsed, together with the loop accumulators
of `parse_sequence`/`parse_list`. -/
inductive ParseNonterminal where
  | sequenceStart
  | sequenceRest (acc : List RegExp)
  | component
  | factor
  | term
  | listStart
  | listRest (acc : List RegExp)
  | listComponent

/-- The parser's current token (`parser_p->currToken_p`); reading past
the final `End` token is never observable, so a default `End` stands in
for the uninitialized C array slot. -/
def currTok (l : List RegExpToken) : RegExpToken :=
  l.headD ⟨.endTok, []⟩

/-- The mutually recursive `parse_sequence` / `parse_component` /
`parse_factor` / `parse_term` / `parse_list` / `parse_list_component`
from `reg_exp.c`, fused into one fuel-indexed function.  Accepting a
token (`parser_accept`/`parser_expect`) is dropping the list head. -/
def parseGo : Nat → ParseNonterminal → List RegExpToken →
    Except ParseErr (RegExp × List RegExpToken)
  | 0, _, _ => .error .outOfFuel
  | fuel+1, nt, l =>
    match nt with
    | .sequenceStart => parseGo fuel (.sequenceRest []) l
    | .sequenceRest acc => do
        let (c, l₁) ← parseGo fuel .component l
        let acc' := acc ++ [c]
        if acc'.length > MAX_NUM_REGEXP_CHILDREN then .error .tooManyChildren
        else
          let t := (currTok l₁).type
          if t = .endTok || t = .rightPar || t = .rightBracket then
            .ok (.sequence acc', l₁)
          else
            parseGo fuel (.sequenceRest acc') l₁
    | .component => do
        let (f, l₁) ← parseGo fuel .factor l
        if (currTok l₁).type = .orOp then do
          let (c, l₂) ← parseGo fuel .component l₁.tail
          .ok (.orExp f c, l₂)
        else
          .ok (f, l₁)
    | .factor => do
        let (t, l₁) ← parseGo fuel .term l
        match (currTok l₁).type with
        | .question => .ok (.optional t, l₁.tail)
        | .star => .ok (.zeroOrMore t, l₁.tail)
        | .plus => .ok (.oneOrMore t, l₁.tail)
        | _ => .ok (t, l₁)
    | .term =>
        let ct := currTok l
        if ct.type = .string then .ok (.string ct.characters, l.tail)
        else if ct.type = .leftPar then do
          let (s, l₁) ← parseGo fuel .sequenceStart l.tail
          if (currTok l₁).type = .rightPar then .ok (s, l₁.tail)
          else .error (.expectedToken .rightPar (currTok l₁).type)
        else if ct.type = .leftBracket then do
          let (lst, l₁) ← parseGo fuel .listStart l.tail
          if (currTok l₁).type = .rightBracket then .ok (lst, l₁.tail)
          else .error (.expectedToken .rightBracket (currTok l₁).type)
        else .error (.expectedTerm ct.type)
    | .listStart => do
        let (c, l₁) ← parseGo fuel .listComponent l
        parseGo fuel (.listRest [c]) l₁
    | .listRest acc =>
        if (currTok l).type = .comma then do
          let (c, l₁) ← parseGo fuel .listComponent l.tail
          let acc' := acc ++ [c]
          if acc'.length > MAX_NUM_REGEXP_CHILDREN then .error .tooManyChildren
          else parseGo fuel (.listRest acc') l₁
        else .ok (.oneOf acc, l)
    | .listComponent =>
        let ct := currTok l
        if ct.type = .string then
          let l₁ := l.tail
          if (currTok l₁).type = .dash then
            let ct₂ := currTok l₁.tail
            if ct₂.type = .string then
              .ok (.range (.string ct.characters) (.string ct₂.characters),
                   l₁.tail.tail)
            else .error (.expectedToken .string ct₂.type)
          else .ok (.string ct.characters, l₁)
        else .error (.expectedToken .string ct.type)

/-- `parse_start`: `Start -> Sequence END`. -/
def parse_start (fuel : Nat) (tokens : List RegExpToken) :
    Except ParseErr RegExp := do
  let (seqExp, l₁) ← parseGo fuel .sequenceStart tokens
  if (currTok l₁).type = .endTok then .ok seqExp
  else .error (.expectedToken .endTok (currTok l₁).type)

/-- Conjunction of children checks used by `check_regexp_format`. -/
def checkList (f : RegExp → Bool) : List RegExp → Bool
  | [] => true
  | c :: cs => f c && checkList f cs

/-- `check_regexp_format`: `Range` nodes must have single-character
`String` endpoints with `left <= right`; all other nodes just recurse
(`false` = assertion failure).  Fuel-indexed for executability. -/
def check_regexp_format : Nat → RegExp → Bool
  | 0, _ => false
  | fuel+1, e =>
    match e with
    | .range (.string ls) (.string rs) =>
        decide (ls.length = 1) && decide (rs.length = 1) &&
          decide (ls.headD 'a' ≤ rs.headD 'a')
    | .range _ _ => false
    | .sequence cs => checkList (check_regexp_format fuel) cs
    | .oneOf cs => checkList (check_regexp_format fuel) cs
    | .optional c => check_regexp_format fuel c
    | .oneOrMore c => check_regexp_format fuel c
    | .zeroOrMore c => check_regexp_format fuel c
    | .orExp a b => check_regexp_format fuel a && check_regexp_format fuel b
    | .string _ => true

/-- Fuel budget used when running the parser on a token array; ample
for any parse, since every level of recursion either consumes a token
or moves to a strictly lower nonterminal. -/
def regexpFuel (tokens : List RegExpToken) : Nat :=
  8 * (tokens.length + 1)

/-- `parse_regexp` from `reg_exp.c`: tokenize, parse from `Start`, then
run the `check_regexp_format` validation pass. -/
def parse_regexp (s : List Char) : Except ParseErr RegExp :=
  let st := tokenize_regexp s
  if st.ok then
    match parse_start (regexpFuel st.tokens) st.tokens with
    | .ok ast =>
        if check_regexp_format (regexpFuel st.tokens) ast then .ok ast
        else .error .formatCheckFailed
    | .error e => .error e
  else .error .tokenizeOverflow

/-- Tokenizing a nonempty run of non-operator, non-backslash characters
(at most 100 of them, so the buffer assertion holds) yields exactly one
string token followed by the end token. -/
theorem tokenize_loop_pure (r : List Char)
    (hop : ∀ c ∈ r, is_regexp_operator_char c = false)
    (hbs : ∀ c ∈ r, c ≠ '\\') :
    ∀ buf : List Char, buf.length + r.length ≤ 100 → 0 < buf.length + r.length →
      tokenize_loop r buf false ⟨[], true⟩ =
        ⟨[⟨.string, buf ++ r⟩, ⟨.endTok, []⟩], true⟩ := by
  induction r with
  | nil =>
      intro buf hlen hpos
      simp only [List.length_nil, Nat.add_zero] at hpos
      simp [tokenize_loop, hpos, add_regexp_string_token, add_regexp_token,
        MAX_NUM_REGEXP_TOKENS]
  | cons c rest ih =>
      intro buf hlen hpos
      have hc : is_regexp_operator_char c = false := hop c (by simp)
      have hcb : c ≠ '\\' := hbs c (by simp)
      have hbuf : buf.length + 1 ≤ 100 := by
        simp only [List.length_cons] at hlen
        omega
      have step :
          tokenize_loop (c :: rest) buf false ⟨[], true⟩ =
            tokenize_loop rest (buf ++ [c]) false ⟨[], true⟩ := by
        simp [tokenize_loop, hc, hcb, hbuf, MAX_REGEXP_STRING_LENGTH]
      rw [step, ih (fun x hx => hop x (by simp [hx]))
        (fun x hx => hbs x (by simp [hx])) (buf ++ [c])
        (by simp only [List.length_append, List.length_cons,
              List.length_nil] at hlen ⊢; omega)
        (by simp)]
      simp

/-- C2 (amended): parsing a nonempty operator-free text that contains
no backslash and has at most 100 characters yields a `Sequence` with
exactly one child, a `String` whose payload is the text itself. -/
theorem c2_parse_operator_free (s : List Char) (hne : s ≠ [])
    (hop : ∀ c ∈ s, is_regexp_operator_char c = false)
    (hbs : ∀ c ∈ s, c ≠ '\\') (hlen : s.length ≤ 100) :
    parse_regexp s = .ok (.sequence [.string s]) := by
  have htok : tokenize_regexp s = ⟨[⟨.string, s⟩, ⟨.endTok, []⟩], true⟩ := by
    have h := tokenize_loop_pure s hop hbs [] (by simpa using hlen)
      (by simpa using List.length_pos.mpr hne)
    simpa [tokenize_regexp] using h
  unfold parse_regexp
  rw [htok]
  rfl

/-- Witness for C2 at a concrete input. -/
theorem c2_parse_operator_free_witness :
    parse_regexp ['a', 'b'] = .ok (.sequence [.string ['a', 'b']]) :=
  c2_parse_operator_free ['a', 'b'] (by decide) (by decide) (by decide) (by decide)

/-- C2 counterexample to the claim as stated: the text `\a` contains
none of the ten operator characters, but the backslash is consumed as
an escape during tokenization, so the parsed `String` payload is `a`,
not the original text. -/
theorem c2_counterexample :
    parse_regexp ['\\', 'a'] = .ok (.sequence [.string ['a']]) ∧
      (['a'] : List Char) ≠ ['\\', 'a'] :=
  ⟨rfl, by decide⟩

theorem exceptBindOk {α β ε : Type} (a : α) (k : α → Except ε β) :
    (Except.ok a : Except ε α) >>= k = k a := rfl

theorem exceptBindErr {α β ε : Type} (e : ε) (k : α → Except ε β) :
    (Except.error e : Except ε α) >>= k = .error e := rfl

theorem parseGo_sequenceStart (n : Nat) (l : List RegExpToken) :
    parseGo (n+1) .sequenceStart l = parseGo n (.sequenceRest []) l := rfl

theorem parseGo_sequenceRest (n : Nat) (acc : List RegExp) (l : List RegExpToken) :
    parseGo (n+1) (.sequenceRest acc) l = (do
      let (c, l₁) ← parseGo n .component l
      let acc' := acc ++ [c]
      if acc'.length > MAX_NUM_REGEXP_CHILDREN then .error .tooManyChildren
      else
        let t := (currTok l₁).type
        if t = .endTok || t = .rightPar || t = .rightBracket then
          .ok (.sequence acc', l₁)
        else
          parseGo n (.sequenceRest acc') l₁) := rfl

theorem parseGo_component (n : Nat) (l : List RegExpToken) :
    parseGo (n+1) .component l = (do
      let (f, l₁) ← parseGo n .factor l
      if (currTok l₁).type = .orOp then do
        let (c, l₂) ← parseGo n .component l₁.tail
        .ok (.orExp f c, l₂)
      else
        .ok (f, l₁)) := rfl

theorem parseGo_factor (n : Nat) (l : List RegExpToken) :
    parseGo (n+1) .factor l = (do
      let (t, l₁) ← parseGo n .term l
      match (currTok l₁).type with
      | .question => .ok (.optional t, l₁.tail)
      | .star => .ok (.zeroOrMore t, l₁.tail)
      | .plus => .ok (.oneOrMore t, l₁.tail)
      | _ => .ok (t, l₁)) := rfl

/-- `parse_term` reports `PARSING_ERROR` when the current token cannot
start a term. -/
theorem parseGo_term_fail (n : Nat) (t : RegExpTokenType) (cs : List Char)
    (l : List RegExpToken) (h₁ : t ≠ .string) (h₂ : t ≠ .leftPar)
    (h₃ : t ≠ .leftBracket) :
    parseGo (n+1) .term (⟨t, cs⟩ :: l) = .error (.expectedTerm t) := by
  cases t <;> first
    | exact absurd rfl h₁
    | exact absurd rfl h₂
    | exact absurd rfl h₃
    | rfl

theorem parseGo_factor_fail (n : Nat) (t : RegExpTokenType) (cs : List Char)
    (l : List RegExpToken) (h₁ : t ≠ .string) (h₂ : t ≠ .leftPar)
    (h₃ : t ≠ .leftBracket) :
    parseGo (n+2) .factor (⟨t, cs⟩ :: l) = .error (.expectedTerm t) := by
  rw [show n + 2 = (n + 1) + 1 from rfl, parseGo_factor,
    parseGo_term_fail n t cs l h₁ h₂ h₃, exceptBindErr]

theorem parseGo_component_fail (n : Nat) (t : RegExpTokenType) (cs : List Char)
    (l : List RegExpToken) (h₁ : t ≠ .string) (h₂ : t ≠ .leftPar)
    (h₃ : t ≠ .leftBracket) :
    parseGo (n+3) .component (⟨t, cs⟩ :: l) = .error (.expectedTerm t) := by
  rw [show n + 3 = (n + 2) + 1 from rfl, parseGo_component,
    parseGo_factor_fail n t cs l h₁ h₂ h₃, exceptBindErr]

theorem parseGo_sequenceRest_fail (n : Nat) (acc : List RegExp)
    (t : RegExpTokenType) (cs : List Char) (l : List RegExpToken)
    (h₁ : t ≠ .string) (h₂ : t ≠ .leftPar) (h₃ : t ≠ .leftBracket) :
    parseGo (n+4) (.sequenceRest acc) (⟨t, cs⟩ :: l) =
      .error (.expectedTerm t) := by
  rw [show n + 4 = (n + 3) + 1 from rfl, parseGo_sequenceRest,
    parseGo_component_fail n t cs l h₁ h₂ h₃, exceptBindErr]

/-- C3: `|` is right-associative.  For a token stream consisting of
three factors separated by two `|` tokens, where each `taᵢ` parses as a
factor to `A`, `B`, `C` at the fuel the run hands it, the parse from
`Start` yields `A | (B | C)` (inside the top-level `Sequence` wrapper
that `parse_start` always produces). -/
theorem c3_or_right_assoc (ta tb tc : List RegExpToken) (A B C : RegExp) (f : Nat)
    (hA : parseGo (f + 2) .factor
        (ta ++ ⟨.orOp, []⟩ :: (tb ++ ⟨.orOp, []⟩ :: (tc ++ [⟨.endTok, []⟩]))) =
      .ok (A, ⟨.orOp, []⟩ :: (tb ++ ⟨.orOp, []⟩ :: (tc ++ [⟨.endTok, []⟩]))))
    (hB : parseGo (f + 1) .factor (tb ++ ⟨.orOp, []⟩ :: (tc ++ [⟨.endTok, []⟩])) =
      .ok (B, ⟨.orOp, []⟩ :: (tc ++ [⟨.endTok, []⟩])))
    (hC : parseGo f .factor (tc ++ [⟨.endTok, []⟩]) = .ok (C, [⟨.endTok, []⟩])) :
    parse_start (f + 5)
        (ta ++ ⟨.orOp, []⟩ :: (tb ++ ⟨.orOp, []⟩ :: (tc ++ [⟨.endTok, []⟩]))) =
      .ok (.sequence [.orExp A (.orExp B C)]) := by
  unfold parse_start
  rw [show f + 5 = (f + 4) + 1 from rfl, parseGo_sequenceStart]
  rw [show f + 4 = (f + 3) + 1 from rfl, parseGo_sequenceRest]
  rw [show f + 3 = (f + 2) + 1 from rfl, parseGo_component, hA, exceptBindOk]
  simp only [currTok, List.headD, List.tail_cons, if_true]
  rw [show f + 2 = (f + 1) + 1 from rfl, parseGo_component, hB, exceptBindOk]
  simp only [currTok, List.headD, List.tail_cons, if_true]
  rw [parseGo_component, hC, exceptBindOk]
  simp only [currTok, List.headD, List.tail_cons]
  rfl

/-- Witness for C3 at the concrete expression `a|b|c`. -/
theorem c3_or_right_assoc_witness :
    parse_start 7
        ([⟨.string, ['a']⟩] ++ ⟨.orOp, []⟩ ::
          ([⟨.string, ['b']⟩] ++ ⟨.orOp, []⟩ ::
            ([⟨.string, ['c']⟩] ++ [⟨.endTok, []⟩]))) =
      .ok (.sequence [.orExp (.string ['a'])
        (.orExp (.string ['b']) (.string ['c']))]) :=
  c3_or_right_assoc [⟨.string, ['a']⟩] [⟨.string, ['b']⟩] [⟨.string, ['c']⟩]
    (.string ['a']) (.string ['b']) (.string ['c']) 2 rfl rfl rfl

/-- C8: postfix operators do not stack.  If the term of the first
factor leaves `p₁ p₂ …` as the remaining input with `p₁, p₂` postfix
operators, then the factor consumes only `p₁`, the following `p₂`
starts the next factor, and its `parse_term` reports the parse error,
so the parse from `Start` fails. -/
theorem c8_stacked_suffix_op_rejected (ta rest : List RegExpToken) (A : RegExp)
    (p₁ p₂ : RegExpTokenType) (f : Nat)
    (hp₁ : p₁ = .question ∨ p₁ = .star ∨ p₁ = .plus)
    (hp₂ : p₂ = .question ∨ p₂ = .star ∨ p₂ = .plus)
    (hTerm : parseGo (f + 3) .term (ta ++ ⟨p₁, []⟩ :: ⟨p₂, []⟩ :: rest) =
      .ok (A, ⟨p₁, []⟩ :: ⟨p₂, []⟩ :: rest)) :
    parse_start (f + 7) (ta ++ ⟨p₁, []⟩ :: ⟨p₂, []⟩ :: rest) =
      .error (.expectedTerm p₂) := by
  unfold parse_start
  rw [show f + 7 = (f + 6) + 1 from rfl, parseGo_sequenceStart]
  rw [show f + 6 = (f + 5) + 1 from rfl, parseGo_sequenceRest]
  rw [show f + 5 = (f + 4) + 1 from rfl, parseGo_component]
  rw [show f + 4 = (f + 3) + 1 from rfl, parseGo_factor, hTerm, exceptBindOk]
  rcases hp₁ with h₁ | h₁ | h₁ <;> subst h₁ <;>
    rcases hp₂ with h₂ | h₂ | h₂ <;> subst h₂ <;>
    · simp only [currTok, List.headD, List.tail_cons, exceptBindOk,
        reduceCtorEq, if_false, decide_False, Bool.or_false, Bool.false_or,
        Bool.or_self, if_neg, ite_false, MAX_NUM_REGEXP_CHILDREN,
        List.nil_append, List.length_cons, List.length_nil]
      rw [show f + 5 = (f + 1) + 4 from rfl,
        parseGo_sequenceRest_fail (f + 1) _ _ _ _ (by decide) (by decide)
          (by decide)]
      rfl

/-- Witness for C8 at the concrete expression `a**`. -/
theorem c8_stacked_suffix_op_rejected_witness :
    parse_start 7
        ([⟨.string, ['a']⟩] ++ ⟨.star, []⟩ :: ⟨.star, []⟩ :: [⟨.endTok, []⟩]) =
      .error (.expectedTerm .star) :=
  c8_stacked_suffix_op_rejected [⟨.string, ['a']⟩] [⟨.endTok, []⟩]
    (.string ['a']) .star .star 0 (Or.inr (Or.inl rfl)) (Or.inr (Or.inl rfl)) rfl

/-! ## NFA builder: Thompson construction (`nfa.c`, index-based draft
`src/unnamed/part_000`)

States are addressed by `int` indices; `NO_STATE` is the sentinel `-1`
(the source `memset`s the map with `NO_STATE`, fixing an all-ones byte
pattern).  The `states` array has 64 slots and the whole `NfaS` is
zero-initialized by `generate_combined_nfa`'s `memset`.  The
`assert(numStates < MAX_NUM_NFA_STATES)` performed by `add_new_state`
*after* the increment is recorded in a sticky `bad` flag; `fuelOk`
records that the fuel of the model never ran out (the C recursion has
no fuel). -/

def NUM_CHARS : Nat := 256

def MAX_NUM_NFA_STATES : Nat := 64

def NO_STATE : Int := -1

/-- `NfaStateS` of the index-based draft: dense transition table,
ε-targets as a 64-bit bitset. -/
structure NfaState where
  isEndState : Bool
  outputValue : Nat
  transitions : List Int
  epsilonTransitions : Nat
deriving DecidableEq, Repr

/-- The all-zero state produced by `memset(nfa_p, 0, ...)`. -/
def NfaState.zero : NfaState :=
  ⟨false, 0, List.replicate NUM_CHARS 0, 0⟩

/-- `NfaS` plus the two bookkeeping flags described above. -/
structure Nfa where
  numStates : Nat
  states : List NfaState
  bad : Bool
  fuelOk : Bool
deriving DecidableEq, Repr

/-- The zeroed NFA allocated by `generate_combined_nfa`. -/
def emptyNfa : Nfa :=
  ⟨0, List.replicate MAX_NUM_NFA_STATES NfaState.zero, false, true⟩

/-- Write through a state pointer `&(nfa_p->states[i])`. -/
def updateState (nfa : Nfa) (i : Nat) (f : NfaState → NfaState) : Nfa :=
  { nfa with states := nfa.states.set i (f (nfa.states.getD i NfaState.zero)) }

/-- `add_new_state`: allocates the next slot, records the
post-increment `assert(numStates < MAX_NUM_NFA_STATES)` in `bad`, and
initializes the slot (`isEndState = false`, transitions all `NO_STATE`,
no ε-transitions). -/
def add_new_state (nfa : Nfa) : Nfa × Int :=
  let newStateIdx := nfa.numStates
  let nfa := { nfa with
    numStates := nfa.numStates + 1,
    bad := nfa.bad || decide (MAX_NUM_NFA_STATES ≤ nfa.numStates + 1) }
  let nfa := updateState nfa newStateIdx fun st =>
    { st with
      isEndState := false,
      epsilonTransitions := 0,
      transitions := List.replicate NUM_CHARS NO_STATE }
  (nfa, (newStateIdx : Int))

/-- `add_end_state`: a fresh state marked accepting with the given
output value. -/
def add_end_state (nfa : Nfa) (outputValue : Nat) : Nfa × Int :=
  let (nfa, newStateIdx) := add_new_state nfa
  (updateState nfa newStateIdx.toNat fun st =>
    { st with isEndState := true, outputValue := outputValue }, newStateIdx)

/-- `add_epsilon_transition`: inserts `endIdx` into the ε-bitset of
state `startIdx`.  A negative index would be undefined behavior in C;
the model leaves the NFA unchanged there (well-formed runs never do
this). -/
def add_epsilon_transition (nfa : Nfa) (startIdx endIdx : Int) : Nfa :=
  if startIdx < 0 then nfa
  else updateState nfa startIdx.toNat fun st =>
    { st with epsilonTransitions :=
        add_to_bitset st.epsilonTransitions endIdx.toNat }

/-- Write one character transition `states[stateIdx].transitions[c] = target`. -/
def setTransition (nfa : Nfa) (stateIdx : Int) (c : Nat) (target : Int) : Nfa :=
  if stateIdx < 0 then nfa
  else updateState nfa stateIdx.toNat fun st =>
    { st with transitions := st.transitions.set c target }

/-- The loop of `convert_string`: chains fresh states by the string's
character transitions; the first iteration writes to the entry state,
later ones to the previous exit. -/
def convert_string_loop (nfa : Nfa) (startIdx : Int) (endIdx : Int)
    (first : Bool) : List Char → Nfa × Int
  | [] => (nfa, endIdx)
  | c :: cs =>
      let (nfa, newStateIdx) := add_new_state nfa
      let nfa := if first then setTransition nfa startIdx c.toNat newStateIdx
                 else setTransition nfa endIdx c.toNat newStateIdx
      convert_string_loop nfa startIdx newStateIdx false cs

/-- The loop of `convert_range`: `count` transitions on consecutive
characters starting at `lo`, all from the entry to the exit state. -/
def convert_range_loop (startIdx endIdx : Int) :
    Nfa → Nat → Nat → Nfa
  | nfa, _, 0 => nfa
  | nfa, lo, n+1 =>
      convert_range_loop startIdx endIdx
        (setTransition nfa startIdx lo endIdx) (lo + 1) n

/-- The loop of `convert_sequence` after the first child: ε-chain each
next child's entry to the previous exit. -/
def seqLoop (rec : Nfa → RegExp → Nfa × Int × Int) :
    Nfa → Int → Int → List RegExp → Nfa × Int × Int
  | nfa, sIdx, eIdx, [] => (nfa, sIdx, eIdx)
  | nfa, sIdx, eIdx, c :: cs =>
      let r := rec nfa c
      seqLoop rec (add_epsilon_transition r.1 eIdx r.2.1) sIdx r.2.2 cs

/-- The loop of `convert_one_of`: ε-edges entry→childᵢ.entry and
childᵢ.exit→exit for every child. -/
def oneOfLoop (rec : Nfa → RegExp → Nfa × Int × Int) :
    Nfa → Int → Int → List RegExp → Nfa
  | nfa, _, _, [] => nfa
  | nfa, sIdx, eIdx, c :: cs =>
      let r := rec nfa c
      oneOfLoop rec
        (add_epsilon_transition
          (add_epsilon_transition r.1 sIdx r.2.1) r.2.2 eIdx)
        sIdx eIdx cs

/-- `convert` from `nfa.c`: Thompson's construction, one case per AST
variant, fuel-indexed.  Exhausted fuel clears `fuelOk` and returns
`NO_STATE` indices (the C recursion is unbounded; adequate fuel makes
the model agree with it). -/
def convert : Nat → Nfa → RegExp → Nfa × Int × Int
  | 0, nfa, _ => ({ nfa with fuelOk := false }, NO_STATE, NO_STATE)
  | fuel+1, nfa, e =>
    match e with
    | .sequence cs =>
        match cs with
        | [] => (nfa, NO_STATE, NO_STATE)
        | c :: rest =>
            let r := convert fuel nfa c
            seqLoop (fun n x => convert fuel n x) r.1 r.2.1 r.2.2 rest
    | .optional c =>
        let p := add_new_state nfa
        let q := add_new_state p.1
        let r := convert fuel (add_epsilon_transition q.1 p.2 q.2) c
        (add_epsilon_transition
          (add_epsilon_transition r.1 p.2 r.2.1) r.2.2 q.2, p.2, q.2)
    | .zeroOrMore c =>
        let p := add_new_state nfa
        let q := add_new_state p.1
        let r := convert fuel (add_epsilon_transition q.1 p.2 q.2) c
        (add_epsilon_transition
          (add_epsilon_transition
            (add_epsilon_transition r.1 p.2 r.2.1) r.2.2 q.2) r.2.2 r.2.1,
         p.2, q.2)
    | .oneOrMore c =>
        let p := add_new_state nfa
        let q := add_new_state p.1
        let r := convert fuel q.1 c
        (add_epsilon_transition
          (add_epsilon_transition
            (add_epsilon_transition r.1 p.2 r.2.1) r.2.2 q.2) r.2.2 r.2.1,
         p.2, q.2)
    | .orExp l rt =>
        let p := add_new_state nfa
        let q := add_new_state p.1
        let rl := convert fuel q.1 l
        let rr := convert fuel rl.1 rt
        (add_epsilon_transition
          (add_epsilon_transition
            (add_epsilon_transition
              (add_epsilon_transition rr.1 p.2 rl.2.1) rl.2.2 q.2)
            p.2 rr.2.1) rr.2.2 q.2,
         p.2, q.2)
    | .string cs =>
        let p := add_new_state nfa
        let r := convert_string_loop p.1 p.2 NO_STATE true cs
        (r.1, p.2, r.2)
    | .oneOf cs =>
        let p := add_new_state nfa
        let q := add_new_state p.1
        (oneOfLoop (fun n x => convert fuel n x) q.1 p.2 q.2 cs, p.2, q.2)
    | .range l r =>
        let p := add_new_state nfa
        let q := add_new_state p.1
        match l, r with
        | .string lc, .string rc =>
            let leftChar := (lc.headD 'a').toNat
            let rightChar := (rc.headD 'a').toNat
            (convert_range_loop p.2 q.2 q.1 leftChar
              (rightChar + 1 - leftChar), p.2, q.2)
        | _, _ => (q.1, p.2, q.2)

/-- The loop of `generate_combined_nfa`: for branch `i`, the dispatch
state, the accepting state with output value `i`, the body, and the
three ε-edges, in source order. -/
def combinedLoop (rec : Nfa → RegExp → Nfa × Int × Int) (startIdx : Int) :
    Nfa → Nat → List RegExp → Nfa
  | nfa, _, [] => nfa
  | nfa, i, e :: es =>
      let p := add_new_state nfa
      let q := add_end_state p.1 i
      let r := rec q.1 e
      combinedLoop rec startIdx
        (add_epsilon_transition
          (add_epsilon_transition
            (add_epsilon_transition r.1 startIdx p.2) p.2 r.2.1)
          r.2.2 q.2)
        (i + 1) es

/-- `generate_combined_nfa` from `nfa.c` (index-based draft): zeroed
NFA, one shared start state, then one branch per expression. -/
def generate_combined_nfa (fuel : Nat) (es : List RegExp) : Nfa :=
  let nfa := emptyNfa
  let (nfa, startIdx) := add_new_state nfa
  combinedLoop (fun n e => convert fuel n e) startIdx nfa 0 es

/-! ### Capacity bookkeeping (claim C7)

`add_new_state` checks `assert(numStates < 64)` after the increment, so
the sticky `bad` flag ends up true exactly when the final state count
reaches 64 — allocation is one at a time, so the running maximum is the
final count. -/

/-- The `bad` flag tracks exactly whether the state count has reached
the capacity. -/
def capInv (nfa : Nfa) : Prop :=
  nfa.bad = decide (MAX_NUM_NFA_STATES ≤ nfa.numStates)

theorem capInv_updateState {nfa : Nfa} (i : Nat) (f : NfaState → NfaState)
    (h : capInv nfa) : capInv (updateState nfa i f) := h

theorem capInv_add_new_state {nfa : Nfa} (h : capInv nfa) :
    capInv (add_new_state nfa).1 := by
  simp only [capInv, add_new_state, updateState] at *
  rw [h]
  by_cases h64 : MAX_NUM_NFA_STATES ≤ nfa.numStates
  · have h64' : MAX_NUM_NFA_STATES ≤ nfa.numStates + 1 := by omega
    simp [h64, h64']
  · simp [h64]

theorem capInv_add_end_state {nfa : Nfa} (v : Nat) (h : capInv nfa) :
    capInv (add_end_state nfa v).1 :=
  capInv_updateState _ _ (capInv_add_new_state h)

theorem capInv_add_epsilon_transition {nfa : Nfa} (s t : Int) (h : capInv nfa) :
    capInv (add_epsilon_transition nfa s t) := by
  unfold add_epsilon_transition
  split
  · exact h
  · exact capInv_updateState _ _ h

theorem capInv_setTransition {nfa : Nfa} (s : Int) (c : Nat) (t : Int)
    (h : capInv nfa) : capInv (setTransition nfa s c t) := by
  unfold setTransition
  split
  · exact h
  · exact capInv_updateState _ _ h

theorem capInv_convert_string_loop (cs : List Char) :
    ∀ (nfa : Nfa) (s t : Int) (first : Bool), capInv nfa →
      capInv (convert_string_loop nfa s t first cs).1 := by
  induction cs with
  | nil => intro nfa s t first h; exact h
  | cons c rest ih =>
      intro nfa s t first h
      unfold convert_string_loop
      cases first <;>
        simp only [Bool.false_eq_true, if_false, if_true, reduceIte] <;>
        exact ih _ _ _ _ (capInv_setTransition _ _ _ (capInv_add_new_state h))

theorem capInv_convert_range_loop (n : Nat) :
    ∀ (nfa : Nfa) (s t : Int) (lo : Nat), capInv nfa →
      capInv (convert_range_loop s t nfa lo n) := by
  induction n with
  | zero => intro nfa s t lo h; exact h
  | succ m ih =>
      intro nfa s t lo h
      exact ih _ _ _ _ (capInv_setTransition _ _ _ h)

theorem capInv_seqLoop (rec : Nfa → RegExp → Nfa × Int × Int)
    (hrec : ∀ n x, capInv n → capInv (rec n x).1) (cs : List RegExp) :
    ∀ (nfa : Nfa) (s t : Int), capInv nfa →
      capInv (seqLoop rec nfa s t cs).1 := by
  induction cs with
  | nil => intro nfa s t h; exact h
  | cons c rest ih =>
      intro nfa s t h
      exact ih _ _ _ (capInv_add_epsilon_transition _ _ (hrec _ _ h))

theorem capInv_oneOfLoop (rec : Nfa → RegExp → Nfa × Int × Int)
    (hrec : ∀ n x, capInv n → capInv (rec n x).1) (cs : List RegExp) :
    ∀ (nfa : Nfa) (s t : Int), capInv nfa →
      capInv (oneOfLoop rec nfa s t cs) := by
  induction cs with
  | nil => intro nfa s t h; exact h
  | cons c rest ih =>
      intro nfa s t h
      exact ih _ _ _ (capInv_add_epsilon_transition _ _
        (capInv_add_epsilon_transition _ _ (hrec _ _ h)))

theorem capInv_convert (fuel : Nat) :
    ∀ (nfa : Nfa) (e : RegExp), capInv nfa →
      capInv (convert fuel nfa e).1 := by
  induction fuel with
  | zero => intro nfa e h; exact h
  | succ fuel ih =>
      intro nfa e h
      cases e with
      | sequence cs =>
          cases cs with
          | nil => exact h
          | cons c rest =>
              exact capInv_seqLoop _ (fun n x => ih n x) rest _ _ _ (ih _ _ h)
      | optional c =>
          exact capInv_add_epsilon_transition _ _
            (capInv_add_epsilon_transition _ _
              (ih _ _ (capInv_add_epsilon_transition _ _
                (capInv_add_new_state (capInv_add_new_state h)))))
      | zeroOrMore c =>
          exact capInv_add_epsilon_transition _ _
            (capInv_add_epsilon_transition _ _
              (capInv_add_epsilon_transition _ _
                (ih _ _ (capInv_add_epsilon_transition _ _
                  (capInv_add_new_state (capInv_add_new_state h))))))
      | oneOrMore c =>
          exact capInv_add_epsilon_transition _ _
            (capInv_add_epsilon_transition _ _
              (capInv_add_epsilon_transition _ _
                (ih _ _ (capInv_add_new_state (capInv_add_new_state h)))))
      | orExp l r =>
          exact capInv_add_epsilon_transition _ _
            (capInv_add_epsilon_transition _ _
              (capInv_add_epsilon_transition _ _
                (capInv_add_epsilon_transition _ _
                  (ih _ _ (ih _ _ (capInv_add_new_state
                    (capInv_add_new_state h)))))))
      | string cs =>
          exact capInv_convert_string_loop cs _ _ _ _ (capInv_add_new_state h)
      | oneOf cs =>
          exact capInv_oneOfLoop _ (fun n x => ih n x) cs _ _ _
            (capInv_add_new_state (capInv_add_new_state h))
      | range l r =>
          cases l <;> cases r <;>
            first
              | exact capInv_convert_range_loop _ _ _ _ _
                  (capInv_add_new_state (capInv_add_new_state h))
              | exact capInv_add_new_state (capInv_add_new_state h)

theorem capInv_combinedLoop (rec : Nfa → RegExp → Nfa × Int × Int)
    (hrec : ∀ n x, capInv n → capInv (rec n x).1) (startIdx : Int)
    (es : List RegExp) :
    ∀ (nfa : Nfa) (i : Nat), capInv nfa →
      capInv (combinedLoop rec startIdx nfa i es) := by
  induction es with
  | nil => intro nfa i h; exact h
  | cons e rest ih =>
      intro nfa i h
      exact ih _ _ (capInv_add_epsilon_transition _ _
        (capInv_add_epsilon_transition _ _
          (capInv_add_epsilon_transition _ _
            (hrec _ _ (capInv_add_end_state _ (capInv_add_new_state h))))))

/-- C7 (amended): the capacity check succeeds exactly when at most 63
states are allocated — the post-increment `assert(numStates < 64)`
already rejects a construction that allocates the 64th state. -/
theorem c7_capacity (fuel : Nat) (es : List RegExp)
    (hok : (generate_combined_nfa fuel es).fuelOk = true) :
    (generate_combined_nfa fuel es).bad = false ↔
      (generate_combined_nfa fuel es).numStates ≤ 63 := by
  have hinv : capInv (generate_combined_nfa fuel es) := by
    unfold generate_combined_nfa
    exact capInv_combinedLoop _ (fun n x => capInv_convert fuel n x) _ es _ 0
      (capInv_add_new_state (show capInv emptyNfa from rfl))
  rw [capInv] at hinv
  rw [hinv]
  rcases Nat.lt_or_ge (generate_combined_nfa fuel es).numStates 64 with h | h
  · simp [MAX_NUM_NFA_STATES]
    omega
  · simp [MAX_NUM_NFA_STATES]
    omega

/-- Witness for C7 at a concrete input: `["ab"]` allocates seven states
and the capacity check passes. -/
theorem c7_capacity_witness :
    (generate_combined_nfa 10 [.string ['a', 'b']]).fuelOk = true ∧
      ((generate_combined_nfa 10 [.string ['a', 'b']]).bad = false ↔
        (generate_combined_nfa 10 [.string ['a', 'b']]).numStates ≤ 63) :=
  ⟨by decide, c7_capacity 10 [.string ['a', 'b']] (by decide)⟩

set_option maxRecDepth 100000 in
/-- C7 counterexample to the claim as stated: one expression whose
Thompson construction allocates exactly 64 states (a 60-character
string: 1 shared start + dispatch + accepting + 61 body states) is
rejected by the capacity assertion, although the claim says
constructions of at most 64 states succeed. -/
theorem c7_counterexample :
    (generate_combined_nfa 10 [.string (List.replicate 60 'a')]).numStates = 64 ∧
      (generate_combined_nfa 10 [.string (List.replicate 60 'a')]).fuelOk = true ∧
      (generate_combined_nfa 10 [.string (List.replicate 60 'a')]).bad = true := by
  refine ⟨by decide, by decide, by decide⟩

/-! ### Branch wiring of the combined NFA (claim C4) -/

/-- Read a state record (`nfa_p->states[k]`). -/
def getSt (nfa : Nfa) (k : Nat) : NfaState :=
  nfa.states.getD k NfaState.zero

/-- State `k` has an ε-transition to state `m`. -/
def epsIn (nfa : Nfa) (k m : Nat) : Prop :=
  is_in_bitset (getSt nfa k).epsilonTransitions m = true

/-- The record written by `add_new_state` into a fresh slot. -/
def NfaState.fresh : NfaState :=
  ⟨false, 0, List.replicate NUM_CHARS NO_STATE, 0⟩

/-- Well-formed ASTs: child lists and string payloads are nonempty (as
the grammar guarantees for every parsed AST). -/
inductive WfRegExp : RegExp → Prop where
  | sequence (cs : List RegExp) (hne : cs ≠ []) (h : ∀ c ∈ cs, WfRegExp c) :
      WfRegExp (.sequence cs)
  | optional (c : RegExp) (h : WfRegExp c) : WfRegExp (.optional c)
  | oneOrMore (c : RegExp) (h : WfRegExp c) : WfRegExp (.oneOrMore c)
  | zeroOrMore (c : RegExp) (h : WfRegExp c) : WfRegExp (.zeroOrMore c)
  | orExp (l r : RegExp) (hl : WfRegExp l) (hr : WfRegExp r) :
      WfRegExp (.orExp l r)
  | string (cs : List Char) (hne : cs ≠ []) : WfRegExp (.string cs)
  | oneOf (cs : List RegExp) (hne : cs ≠ []) (h : ∀ c ∈ cs, WfRegExp c) :
      WfRegExp (.oneOf cs)
  | range (l r : RegExp) : WfRegExp (.range l r)

/-! Bitset membership beyond the claims of C9/C10. -/

theorem shift_mod_eq_zero {m : Nat} (hm : 64 ≤ m) : (1 <<< m) % 2 ^ 64 = 0 := by
  rw [Nat.shiftLeft_eq, one_mul]
  exact Nat.mod_eq_zero_of_dvd (pow_dvd_pow 2 hm)

theorem is_in_bitset_of_ge (b m : Nat) (hm : 64 ≤ m) :
    is_in_bitset b m = false := by
  rw [is_in_bitset, shift_mod_eq_zero hm]
  simp

theorem mem_add_to_bitset_elim {b n m : Nat}
    (h : is_in_bitset (add_to_bitset b n) m = true) :
    m = n ∨ is_in_bitset b m = true := by
  rcases Nat.lt_or_ge m 64 with hm | hm
  · rcases Nat.lt_or_ge n 64 with hn | hn
    · exact (add_to_bitset_membership b n m hn hm).mp h
    · right
      rw [add_to_bitset, shift_mod_eq_zero hn, Nat.or_zero] at h
      exact h
  · rw [is_in_bitset_of_ge _ m hm] at h
    exact absurd h (by simp)

theorem mem_add_to_bitset_self (b : Nat) {n : Nat} (hn : n < 64) :
    is_in_bitset (add_to_bitset b n) n = true :=
  (add_to_bitset_membership b n n hn hn).mpr (Or.inl rfl)

theorem mem_add_to_bitset_of_mem {b m : Nat} (n : Nat)
    (h : is_in_bitset b m = true) :
    is_in_bitset (add_to_bitset b n) m = true := by
  rcases Nat.lt_or_ge m 64 with hm | hm
  · rw [is_in_bitset_eq_testBit _ _ hm] at h ⊢
    rw [add_to_bitset, Nat.testBit_or, h, Bool.true_or]
  · rw [is_in_bitset_of_ge _ m hm] at h
    exact absurd h (by simp)

/-! Field-level laws of the primitive NFA operations. -/

theorem getSt_updateState_self {nfa : Nfa} {i : Nat} (f : NfaState → NfaState)
    (h : i < nfa.states.length) :
    getSt (updateState nfa i f) i = f (getSt nfa i) := by
  simp [getSt, updateState, List.getD_eq_getElem?_getD, List.getElem?_set_self', h]

theorem getSt_updateState_ne {nfa : Nfa} {i k : Nat} (f : NfaState → NfaState)
    (h : i ≠ k) :
    getSt (updateState nfa i f) k = getSt nfa k := by
  simp [getSt, updateState, List.getD_eq_getElem?_getD, List.getElem?_set_ne h]

theorem updateState_length (nfa : Nfa) (i : Nat) (f : NfaState → NfaState) :
    (updateState nfa i f).states.length = nfa.states.length :=
  List.length_set ..

theorem getSt_updateState_oob {nfa : Nfa} {i : Nat} (f : NfaState → NfaState)
    (h : nfa.states.length ≤ i) :
    getSt (updateState nfa i f) i = getSt nfa i := by
  have h1 : nfa.states[i]? = none := List.getElem?_eq_none h
  unfold updateState getSt
  simp [List.getD_eq_getElem?_getD, List.getElem?_set_self', h1]

theorem add_new_state_fst_numStates (nfa : Nfa) :
    (add_new_state nfa).1.numStates = nfa.numStates + 1 := rfl

theorem add_new_state_snd (nfa : Nfa) :
    (add_new_state nfa).2 = (nfa.numStates : Int) := rfl

theorem add_new_state_fuelOk (nfa : Nfa) :
    (add_new_state nfa).1.fuelOk = nfa.fuelOk := rfl

theorem add_new_state_length (nfa : Nfa) :
    (add_new_state nfa).1.states.length = nfa.states.length :=
  List.length_set ..

theorem getSt_add_new_state_ne {nfa : Nfa} {k : Nat} (h : k ≠ nfa.numStates) :
    getSt (add_new_state nfa).1 k = getSt nfa k :=
  getSt_updateState_ne _ (Ne.symm h)

theorem getSt_add_new_state_self {nfa : Nfa}
    (hlen : nfa.numStates < nfa.states.length) :
    getSt (add_new_state nfa).1 nfa.numStates =
      { getSt nfa nfa.numStates with
        isEndState := false,
        epsilonTransitions := 0,
        transitions := List.replicate NUM_CHARS NO_STATE } :=
  getSt_updateState_self _ hlen

theorem add_end_state_fst_numStates (nfa : Nfa) (v : Nat) :
    (add_end_state nfa v).1.numStates = nfa.numStates + 1 := rfl

theorem add_end_state_snd (nfa : Nfa) (v : Nat) :
    (add_end_state nfa v).2 = (nfa.numStates : Int) := rfl

theorem add_end_state_fuelOk (nfa : Nfa) (v : Nat) :
    (add_end_state nfa v).1.fuelOk = nfa.fuelOk := rfl

theorem add_end_state_length (nfa : Nfa) (v : Nat) :
    (add_end_state nfa v).1.states.length = nfa.states.length := by
  show (updateState (add_new_state nfa).1 _ _).states.length = _
  rw [updateState_length, add_new_state_length]

theorem getSt_add_end_state_ne {nfa : Nfa} {k : Nat} (v : Nat)
    (h : k ≠ nfa.numStates) :
    getSt (add_end_state nfa v).1 k = getSt nfa k := by
  show getSt (updateState (add_new_state nfa).1 (nfa.numStates : Int).toNat _) k = _
  rw [Int.toNat_natCast, getSt_updateState_ne _ (Ne.symm h),
    getSt_add_new_state_ne h]

theorem getSt_add_end_state_self {nfa : Nfa} (v : Nat)
    (hlen : nfa.numStates < nfa.states.length) :
    getSt (add_end_state nfa v).1 nfa.numStates =
      { getSt nfa nfa.numStates with
        isEndState := true,
        outputValue := v,
        epsilonTransitions := 0,
        transitions := List.replicate NUM_CHARS NO_STATE } := by
  show getSt (updateState (add_new_state nfa).1 (nfa.numStates : Int).toNat _)
    nfa.numStates = _
  rw [Int.toNat_natCast,
    getSt_updateState_self _ (by rw [add_new_state_length]; exact hlen),
    getSt_add_new_state_self hlen]

theorem add_epsilon_transition_numStates (nfa : Nfa) (s t : Int) :
    (add_epsilon_transition nfa s t).numStates = nfa.numStates := by
  unfold add_epsilon_transition
  split <;> rfl

theorem add_epsilon_transition_bad (nfa : Nfa) (s t : Int) :
    (add_epsilon_transition nfa s t).bad = nfa.bad := by
  unfold add_epsilon_transition
  split <;> rfl

theorem add_epsilon_transition_fuelOk (nfa : Nfa) (s t : Int) :
    (add_epsilon_transition nfa s t).fuelOk = nfa.fuelOk := by
  unfold add_epsilon_transition
  split <;> rfl

theorem add_epsilon_transition_length (nfa : Nfa) (s t : Int) :
    (add_epsilon_transition nfa s t).states.length = nfa.states.length := by
  unfold add_epsilon_transition
  split
  · rfl
  · exact updateState_length ..

theorem getSt_add_epsilon_transition_ne {nfa : Nfa} {sn k : Nat} (t : Int)
    (h : k ≠ sn) :
    getSt (add_epsilon_transition nfa (sn : Int) t) k = getSt nfa k := by
  unfold add_epsilon_transition
  rw [if_neg (by omega), Int.toNat_natCast]
  exact getSt_updateState_ne _ (Ne.symm h)

theorem getSt_add_epsilon_transition_self {nfa : Nfa} (sn : Nat) (t : Int)
    (hlen : sn < nfa.states.length) :
    getSt (add_epsilon_transition nfa (sn : Int) t) sn =
      { getSt nfa sn with
        epsilonTransitions :=
          add_to_bitset (getSt nfa sn).epsilonTransitions t.toNat } := by
  unfold add_epsilon_transition
  rw [if_neg (by omega), Int.toNat_natCast]
  exact getSt_updateState_self _ hlen

theorem epsIn_add_epsilon_transition_elim {nfa : Nfa} {sn tn : Nat} {k m : Nat}
    (h : epsIn (add_epsilon_transition nfa (sn : Int) (tn : Int)) k m) :
    (k = sn ∧ m = tn) ∨ epsIn nfa k m := by
  by_cases hk : k = sn
  · subst hk
    rcases Nat.lt_or_ge k nfa.states.length with hlen | hlen
    · rw [epsIn, getSt_add_epsilon_transition_self k (tn : Int) hlen] at h
      rcases mem_add_to_bitset_elim h with h | h
      · exact Or.inl ⟨rfl, by simpa using h⟩
      · exact Or.inr h
    · right
      rw [epsIn] at h ⊢
      have hsame : getSt (add_epsilon_transition nfa (k : Int) (tn : Int)) k =
          getSt nfa k := by
        unfold add_epsilon_transition
        rw [if_neg (by omega), Int.toNat_natCast]
        exact getSt_updateState_oob _ hlen
      rwa [hsame] at h
  · right
    rwa [epsIn, getSt_add_epsilon_transition_ne _ hk] at h

theorem epsIn_add_epsilon_transition_self {nfa : Nfa} (sn tn : Nat)
    (hlen : sn < nfa.states.length) (htn : tn < 64) :
    epsIn (add_epsilon_transition nfa (sn : Int) (tn : Int)) sn tn := by
  rw [epsIn, getSt_add_epsilon_transition_self sn _ hlen]
  simpa using mem_add_to_bitset_self _ htn

theorem epsIn_add_epsilon_transition_of {nfa : Nfa} {k m : Nat} (sn : Nat)
    (t : Int) (h : epsIn nfa k m) :
    epsIn (add_epsilon_transition nfa (sn : Int) t) k m := by
  by_cases hk : k = sn
  · subst hk
    rcases Nat.lt_or_ge k nfa.states.length with hlen | hlen
    · rw [epsIn, getSt_add_epsilon_transition_self k t hlen]
      exact mem_add_to_bitset_of_mem _ h
    · rw [epsIn] at h ⊢
      have hsame : getSt (add_epsilon_transition nfa (k : Int) t) k =
          getSt nfa k := by
        unfold add_epsilon_transition
        rw [if_neg (by omega), Int.toNat_natCast]
        exact getSt_updateState_oob _ hlen
      rwa [hsame]
  · rwa [epsIn, getSt_add_epsilon_transition_ne _ hk]

theorem setTransition_numStates (nfa : Nfa) (s : Int) (c : Nat) (t : Int) :
    (setTransition nfa s c t).numStates = nfa.numStates := by
  unfold setTransition
  split <;> rfl

theorem setTransition_fuelOk (nfa : Nfa) (s : Int) (c : Nat) (t : Int) :
    (setTransition nfa s c t).fuelOk = nfa.fuelOk := by
  unfold setTransition
  split <;> rfl

theorem setTransition_length (nfa : Nfa) (s : Int) (c : Nat) (t : Int) :
    (setTransition nfa s c t).states.length = nfa.states.length := by
  unfold setTransition
  split
  · rfl
  · exact updateState_length ..

theorem getSt_setTransition_ne {nfa : Nfa} {s : Int} {k : Nat} (c : Nat)
    (t : Int) (h : (k : Int) ≠ s.toNat ∨ s < 0) :
    getSt (setTransition nfa s c t) k = getSt nfa k := by
  unfold setTransition
  split
  · rfl
  · rcases h with h | h
    · exact getSt_updateState_ne _ (by omega)
    · omega

theorem is_in_bitset_zero (m : Nat) : is_in_bitset 0 m = false := by
  simp [is_in_bitset]

/-- `setTransition` never changes the ε-sets, accepting flags or output
values of any state. -/
theorem getSt_setTransition_frame (nfa : Nfa) (s : Int) (c : Nat) (t : Int)
    (k : Nat) :
    (getSt (setTransition nfa s c t) k).epsilonTransitions =
        (getSt nfa k).epsilonTransitions ∧
      (getSt (setTransition nfa s c t) k).isEndState =
        (getSt nfa k).isEndState ∧
      (getSt (setTransition nfa s c t) k).outputValue =
        (getSt nfa k).outputValue := by
  unfold setTransition
  split
  · exact ⟨rfl, rfl, rfl⟩
  · by_cases hk : k = s.toNat
    · rw [hk]
      rcases Nat.lt_or_ge s.toNat nfa.states.length with hlen | hlen
      · rw [getSt_updateState_self _ hlen]
        exact ⟨rfl, rfl, rfl⟩
      · rw [getSt_updateState_oob _ hlen]
        exact ⟨rfl, rfl, rfl⟩
    · rw [getSt_updateState_ne _ (Ne.symm hk)]
      exact ⟨rfl, rfl, rfl⟩

/-! One-step unfolding equations for `convert`, in projection form. -/

/-- The NFA just before the body of an `Optional`/`ZeroOrMore` is
converted: two fresh states and the skip ε-edge between them. -/
def optBase (nfa : Nfa) : Nfa :=
  add_epsilon_transition (add_new_state (add_new_state nfa).1).1
    (nfa.numStates : Int) ((nfa.numStates + 1 : Nat) : Int)

/-- The NFA just before the body of a `OneOrMore`/`Or`/`OneOf`/`Range`
is converted: two fresh states. -/
def pairAlloc (nfa : Nfa) : Nfa :=
  (add_new_state (add_new_state nfa).1).1

theorem convert_zero_eq (nfa : Nfa) (e : RegExp) :
    convert 0 nfa e = ({ nfa with fuelOk := false }, NO_STATE, NO_STATE) := rfl

theorem convert_seq_nil_eq (fuel : Nat) (nfa : Nfa) :
    convert (fuel+1) nfa (.sequence []) = (nfa, NO_STATE, NO_STATE) := rfl

theorem convert_seq_cons_eq (fuel : Nat) (nfa : Nfa) (c : RegExp)
    (rest : List RegExp) :
    convert (fuel+1) nfa (.sequence (c :: rest)) =
      seqLoop (fun n x => convert fuel n x) (convert fuel nfa c).1
        (convert fuel nfa c).2.1 (convert fuel nfa c).2.2 rest := rfl

theorem convert_optional_eq (fuel : Nat) (nfa : Nfa) (c : RegExp) :
    convert (fuel+1) nfa (.optional c) =
      (add_epsilon_transition
        (add_epsilon_transition (convert fuel (optBase nfa) c).1
          (nfa.numStates : Int) (convert fuel (optBase nfa) c).2.1)
        (convert fuel (optBase nfa) c).2.2 ((nfa.numStates + 1 : Nat) : Int),
       (nfa.numStates : Int), ((nfa.numStates + 1 : Nat) : Int)) := rfl

theorem convert_zeroOrMore_eq (fuel : Nat) (nfa : Nfa) (c : RegExp) :
    convert (fuel+1) nfa (.zeroOrMore c) =
      (add_epsilon_transition
        (add_epsilon_transition
          (add_epsilon_transition (convert fuel (optBase nfa) c).1
            (nfa.numStates : Int) (convert fuel (optBase nfa) c).2.1)
          (convert fuel (optBase nfa) c).2.2 ((nfa.numStates + 1 : Nat) : Int))
        (convert fuel (optBase nfa) c).2.2 (convert fuel (optBase nfa) c).2.1,
       (nfa.numStates : Int), ((nfa.numStates + 1 : Nat) : Int)) := rfl

theorem convert_oneOrMore_eq (fuel : Nat) (nfa : Nfa) (c : RegExp) :
    convert (fuel+1) nfa (.oneOrMore c) =
      (add_epsilon_transition
        (add_epsilon_transition
          (add_epsilon_transition (convert fuel (pairAlloc nfa) c).1
            (nfa.numStates : Int) (convert fuel (pairAlloc nfa) c).2.1)
          (convert fuel (pairAlloc nfa) c).2.2 ((nfa.numStates + 1 : Nat) : Int))
        (convert fuel (pairAlloc nfa) c).2.2 (convert fuel (pairAlloc nfa) c).2.1,
       (nfa.numStates : Int), ((nfa.numStates + 1 : Nat) : Int)) := rfl

theorem convert_orExp_eq (fuel : Nat) (nfa : Nfa) (l r : RegExp) :
    convert (fuel+1) nfa (.orExp l r) =
      (add_epsilon_transition
        (add_epsilon_transition
          (add_epsilon_transition
            (add_epsilon_transition
              (convert fuel (convert fuel (pairAlloc nfa) l).1 r).1
              (nfa.numStates : Int) (convert fuel (pairAlloc nfa) l).2.1)
            (convert fuel (pairAlloc nfa) l).2.2 ((nfa.numStates + 1 : Nat) : Int))
          (nfa.numStates : Int)
          (convert fuel (convert fuel (pairAlloc nfa) l).1 r).2.1)
        (convert fuel (convert fuel (pairAlloc nfa) l).1 r).2.2
        ((nfa.numStates + 1 : Nat) : Int),
       (nfa.numStates : Int), ((nfa.numStates + 1 : Nat) : Int)) := rfl

theorem convert_string_eq (fuel : Nat) (nfa : Nfa) (cs : List Char) :
    convert (fuel+1) nfa (.string cs) =
      ((convert_string_loop (add_new_state nfa).1 (nfa.numStates : Int)
          NO_STATE true cs).1,
       (nfa.numStates : Int),
       (convert_string_loop (add_new_state nfa).1 (nfa.numStates : Int)
          NO_STATE true cs).2) := rfl

theorem convert_oneOf_eq (fuel : Nat) (nfa : Nfa) (cs : List RegExp) :
    convert (fuel+1) nfa (.oneOf cs) =
      (oneOfLoop (fun n x => convert fuel n x) (pairAlloc nfa)
        (nfa.numStates : Int) ((nfa.numStates + 1 : Nat) : Int) cs,
       (nfa.numStates : Int), ((nfa.numStates + 1 : Nat) : Int)) := rfl

theorem convert_range_str_eq (fuel : Nat) (nfa : Nfa) (lc rc : List Char) :
    convert (fuel+1) nfa (.range (.string lc) (.string rc)) =
      (convert_range_loop (nfa.numStates : Int) ((nfa.numStates + 1 : Nat) : Int)
        (pairAlloc nfa) (lc.headD 'a').toNat
        ((rc.headD 'a').toNat + 1 - (lc.headD 'a').toNat),
       (nfa.numStates : Int), ((nfa.numStates + 1 : Nat) : Int)) := rfl

/-! `fuelOk` is sticky: nothing ever sets it back to `true`, so a run
that ends with `fuelOk = true` never ran out of fuel anywhere. -/

theorem convert_string_loop_fuelOk (cs : List Char) :
    ∀ (nfa : Nfa) (s t : Int) (first : Bool),
      (convert_string_loop nfa s t first cs).1.fuelOk = nfa.fuelOk := by
  induction cs with
  | nil => intro nfa s t first; rfl
  | cons c rest ih =>
      intro nfa s t first
      unfold convert_string_loop
      cases first <;>
        simp only [Bool.false_eq_true, if_false, if_true, reduceIte] <;>
        rw [ih] <;>
        rw [setTransition_fuelOk, add_new_state_fuelOk]

theorem convert_range_loop_fuelOk (n : Nat) :
    ∀ (nfa : Nfa) (s t : Int) (lo : Nat),
      (convert_range_loop s t nfa lo n).fuelOk = nfa.fuelOk := by
  induction n with
  | zero => intro nfa s t lo; rfl
  | succ m ih =>
      intro nfa s t lo
      unfold convert_range_loop
      rw [ih, setTransition_fuelOk]

theorem seqLoop_fuelOk_sticky (rec : Nfa → RegExp → Nfa × Int × Int)
    (hrec : ∀ n x, (rec n x).1.fuelOk = true → n.fuelOk = true)
    (cs : List RegExp) :
    ∀ (nfa : Nfa) (s t : Int),
      (seqLoop rec nfa s t cs).1.fuelOk = true → nfa.fuelOk = true := by
  induction cs with
  | nil => intro nfa s t h; exact h
  | cons c rest ih =>
      intro nfa s t h
      have h1 := ih _ _ _ h
      rw [add_epsilon_transition_fuelOk] at h1
      exact hrec _ _ h1

theorem oneOfLoop_fuelOk_sticky (rec : Nfa → RegExp → Nfa × Int × Int)
    (hrec : ∀ n x, (rec n x).1.fuelOk = true → n.fuelOk = true)
    (cs : List RegExp) :
    ∀ (nfa : Nfa) (s t : Int),
      (oneOfLoop rec nfa s t cs).fuelOk = true → nfa.fuelOk = true := by
  induction cs with
  | nil => intro nfa s t h; exact h
  | cons c rest ih =>
      intro nfa s t h
      have h1 := ih _ _ _ h
      rw [add_epsilon_transition_fuelOk, add_epsilon_transition_fuelOk] at h1
      exact hrec _ _ h1

theorem optBase_fuelOk (nfa : Nfa) : (optBase nfa).fuelOk = nfa.fuelOk := by
  unfold optBase
  rw [add_epsilon_transition_fuelOk, add_new_state_fuelOk, add_new_state_fuelOk]

theorem optBase_numStates (nfa : Nfa) :
    (optBase nfa).numStates = nfa.numStates + 2 := by
  unfold optBase
  rw [add_epsilon_transition_numStates, add_new_state_fst_numStates,
    add_new_state_fst_numStates]

theorem optBase_length (nfa : Nfa) :
    (optBase nfa).states.length = nfa.states.length := by
  unfold optBase
  rw [add_epsilon_transition_length, add_new_state_length, add_new_state_length]

theorem pairAlloc_fuelOk (nfa : Nfa) : (pairAlloc nfa).fuelOk = nfa.fuelOk := by
  unfold pairAlloc
  rw [add_new_state_fuelOk, add_new_state_fuelOk]

theorem pairAlloc_numStates (nfa : Nfa) :
    (pairAlloc nfa).numStates = nfa.numStates + 2 := by
  unfold pairAlloc
  rw [add_new_state_fst_numStates, add_new_state_fst_numStates]

theorem pairAlloc_length (nfa : Nfa) :
    (pairAlloc nfa).states.length = nfa.states.length := by
  unfold pairAlloc
  rw [add_new_state_length, add_new_state_length]

theorem convert_fuelOk_sticky (fuel : Nat) :
    ∀ (e : RegExp) (nfa : Nfa),
      (convert fuel nfa e).1.fuelOk = true → nfa.fuelOk = true := by
  induction fuel with
  | zero =>
      intro e nfa h
      exact absurd h (by simp [convert])
  | succ fuel ih =>
      intro e nfa h
      cases e with
      | sequence cs =>
          cases cs with
          | nil => exact h
          | cons c rest =>
              rw [convert_seq_cons_eq] at h
              have h1 := seqLoop_fuelOk_sticky _ (fun n x => ih x n) rest _ _ _ h
              exact ih c nfa h1
      | optional c =>
          rw [convert_optional_eq, add_epsilon_transition_fuelOk,
            add_epsilon_transition_fuelOk] at h
          have h1 := ih _ _ h
          rwa [optBase_fuelOk] at h1
      | zeroOrMore c =>
          rw [convert_zeroOrMore_eq, add_epsilon_transition_fuelOk,
            add_epsilon_transition_fuelOk, add_epsilon_transition_fuelOk] at h
          have h1 := ih _ _ h
          rwa [optBase_fuelOk] at h1
      | oneOrMore c =>
          rw [convert_oneOrMore_eq, add_epsilon_transition_fuelOk,
            add_epsilon_transition_fuelOk, add_epsilon_transition_fuelOk] at h
          have h1 := ih _ _ h
          rwa [pairAlloc_fuelOk] at h1
      | orExp l r =>
          rw [convert_orExp_eq, add_epsilon_transition_fuelOk,
            add_epsilon_transition_fuelOk, add_epsilon_transition_fuelOk,
            add_epsilon_transition_fuelOk] at h
          have h1 := ih _ _ (ih _ _ h)
          rwa [pairAlloc_fuelOk] at h1
      | string cs =>
          rw [convert_string_eq] at h
          simp only at h
          rw [convert_string_loop_fuelOk, add_new_state_fuelOk] at h
          exact h
      | oneOf cs =>
          rw [convert_oneOf_eq] at h
          simp only at h
          have h1 := oneOfLoop_fuelOk_sticky _ (fun n x => ih x n) cs _ _ _ h
          rwa [pairAlloc_fuelOk] at h1
      | range l r =>
          cases l <;> cases r <;>
            first
              | (rw [convert_range_str_eq] at h
                 simp only at h
                 rw [convert_range_loop_fuelOk, pairAlloc_fuelOk] at h
                 exact h)
              | (replace h : (pairAlloc nfa).fuelOk = true := h
                 rwa [pairAlloc_fuelOk] at h)

/-! ### The evolution relation

`Evolves n₀ a b` captures how every step of the Thompson construction
transforms the NFA: the array length is kept, the state count only
grows, states below the base `n₀` are untouched, unallocated slots stay
zero, and every ε-edge out of a state at or above the base either
already existed or targets a state in `[n₀, numStates)`. -/

def ZeroBeyond (nfa : Nfa) : Prop :=
  ∀ k, nfa.numStates ≤ k → getSt nfa k = NfaState.zero

def Evolves (n₀ : Nat) (a b : Nfa) : Prop :=
  b.states.length = a.states.length ∧
  a.numStates ≤ b.numStates ∧
  (∀ k, k < n₀ → getSt b k = getSt a k) ∧
  (ZeroBeyond a → ZeroBeyond b) ∧
  (∀ k m, n₀ ≤ k → epsIn b k m → epsIn a k m ∨ (n₀ ≤ m ∧ m < b.numStates))

theorem evolves_refl (n₀ : Nat) (a : Nfa) : Evolves n₀ a a :=
  ⟨rfl, Nat.le_refl _, fun _ _ => rfl, fun h => h, fun _ _ _ h => Or.inl h⟩

theorem evolves_trans {n₀ : Nat} {a b c : Nfa} (h₁ : Evolves n₀ a b)
    (h₂ : Evolves n₀ b c) : Evolves n₀ a c := by
  obtain ⟨l₁, m₁, f₁, z₁, e₁⟩ := h₁
  obtain ⟨l₂, m₂, f₂, z₂, e₂⟩ := h₂
  refine ⟨l₂.trans l₁, m₁.trans m₂, fun k hk => (f₂ k hk).trans (f₁ k hk),
    fun h => z₂ (z₁ h), fun k m hk hm => ?_⟩
  rcases e₂ k m hk hm with h | h
  · rcases e₁ k m hk h with h' | h'
    · exact Or.inl h'
    · exact Or.inr ⟨h'.1, Nat.lt_of_lt_of_le h'.2 m₂⟩
  · exact Or.inr h

theorem evolves_mono_base {n₀ n₁ : Nat} {a b : Nfa} (hn : n₀ ≤ n₁)
    (h : Evolves n₁ a b) : Evolves n₀ a b := by
  obtain ⟨l, m, f, z, e⟩ := h
  refine ⟨l, m, fun k hk => f k (Nat.lt_of_lt_of_le hk hn), z,
    fun k mm hk hm => ?_⟩
  rcases Nat.lt_or_ge k n₁ with hk1 | hk1
  · left
    rw [epsIn, f k hk1] at hm
    exact hm
  · rcases e k mm hk1 hm with h' | h'
    · exact Or.inl h'
    · exact Or.inr ⟨Nat.le_trans hn h'.1, h'.2⟩

theorem getSt_add_new_state_oob {nfa : Nfa}
    (h : nfa.states.length ≤ nfa.numStates) :
    getSt (add_new_state nfa).1 nfa.numStates = getSt nfa nfa.numStates :=
  getSt_updateState_oob _ h

theorem evolves_add_new_state {n₀ : Nat} {nfa : Nfa}
    (hn : n₀ ≤ nfa.numStates) : Evolves n₀ nfa (add_new_state nfa).1 := by
  refine ⟨add_new_state_length nfa, by rw [add_new_state_fst_numStates]; omega,
    fun k hk => getSt_add_new_state_ne (by omega), fun hz k hk => ?_,
    fun k m hk hm => ?_⟩
  · rw [add_new_state_fst_numStates] at hk
    rw [getSt_add_new_state_ne (by omega)]
    exact hz k (by omega)
  · by_cases hkn : k = nfa.numStates
    · rcases Nat.lt_or_ge nfa.numStates nfa.states.length with hlen | hlen
      · rw [epsIn, hkn, getSt_add_new_state_self hlen] at hm
        exact absurd hm (by simp [is_in_bitset_zero])
      · rw [epsIn, hkn, getSt_add_new_state_oob hlen] at hm
        exact Or.inl (by rw [epsIn, hkn]; exact hm)
    · rw [epsIn, getSt_add_new_state_ne hkn] at hm
      exact Or.inl hm

theorem getSt_add_end_state_oob {nfa : Nfa} (v : Nat)
    (h : nfa.states.length ≤ nfa.numStates) :
    getSt (add_end_state nfa v).1 nfa.numStates = getSt nfa nfa.numStates := by
  show getSt (updateState (add_new_state nfa).1 (nfa.numStates : Int).toNat _)
    nfa.numStates = _
  rw [Int.toNat_natCast, getSt_updateState_oob _
    (by rw [add_new_state_length]; exact h), getSt_add_new_state_oob h]

theorem evolves_add_end_state {n₀ : Nat} {nfa : Nfa} (v : Nat)
    (hn : n₀ ≤ nfa.numStates) : Evolves n₀ nfa (add_end_state nfa v).1 := by
  refine ⟨add_end_state_length nfa v,
    by rw [add_end_state_fst_numStates]; omega,
    fun k hk => getSt_add_end_state_ne v (by omega), fun hz k hk => ?_,
    fun k m hk hm => ?_⟩
  · rw [add_end_state_fst_numStates] at hk
    rw [getSt_add_end_state_ne v (by omega)]
    exact hz k (by omega)
  · by_cases hkn : k = nfa.numStates
    · rcases Nat.lt_or_ge nfa.numStates nfa.states.length with hlen | hlen
      · rw [epsIn, hkn, getSt_add_end_state_self v hlen] at hm
        exact absurd hm (by simp [is_in_bitset_zero])
      · rw [epsIn, hkn, getSt_add_end_state_oob v hlen] at hm
        exact Or.inl (by rw [epsIn, hkn]; exact hm)
    · rw [epsIn, getSt_add_end_state_ne v hkn] at hm
      exact Or.inl hm

theorem evolves_add_epsilon_transition {n₀ sn tn : Nat} {nfa : Nfa}
    (hs : n₀ ≤ sn) (hs2 : sn < nfa.numStates) (ht : n₀ ≤ tn)
    (ht2 : tn < nfa.numStates) :
    Evolves n₀ nfa (add_epsilon_transition nfa (sn : Int) (tn : Int)) := by
  refine ⟨add_epsilon_transition_length .., by rw [add_epsilon_transition_numStates],
    fun k hk => getSt_add_epsilon_transition_ne _ (by omega), fun hz k hk => ?_,
    fun k m hk hm => ?_⟩
  · rw [add_epsilon_transition_numStates] at hk
    rw [getSt_add_epsilon_transition_ne _ (by omega)]
    exact hz k hk
  · rcases epsIn_add_epsilon_transition_elim hm with ⟨hks, hmt⟩ | h
    · subst hmt
      rw [add_epsilon_transition_numStates]
      exact Or.inr ⟨ht, ht2⟩
    · exact Or.inl h

theorem getSt_setTransition_nat_ne {nfa : Nfa} {sn k : Nat} (c : Nat) (t : Int)
    (h : k ≠ sn) :
    getSt (setTransition nfa (sn : Int) c t) k = getSt nfa k := by
  unfold setTransition
  rw [if_neg (by omega), Int.toNat_natCast]
  exact getSt_updateState_ne _ (Ne.symm h)

theorem evolves_setTransition {n₀ sn : Nat} {nfa : Nfa} (c : Nat) (t : Int)
    (hs : n₀ ≤ sn) (hs2 : sn < nfa.numStates) :
    Evolves n₀ nfa (setTransition nfa (sn : Int) c t) := by
  refine ⟨setTransition_length .., by rw [setTransition_numStates],
    fun k hk => getSt_setTransition_nat_ne c t (by omega), fun hz k hk => ?_,
    fun k m hk hm => ?_⟩
  · rw [setTransition_numStates] at hk
    rw [getSt_setTransition_nat_ne c t (by omega)]
    exact hz k hk
  · left
    rw [epsIn, (getSt_setTransition_frame nfa (sn : Int) c t k).1] at hm
    exact hm

/-- Entry and exit indices returned by a conversion step: natural
numbers in `[n₀, numStates)`. -/
def OutIdx (n₀ : Nat) (R : Nfa) (s t : Int) : Prop :=
  ∃ sn tn : Nat, s = (sn : Int) ∧ t = (tn : Int) ∧
    n₀ ≤ sn ∧ sn < R.numStates ∧ n₀ ≤ tn ∧ tn < R.numStates

theorem convert_string_loop_spec (n₀ : Nat) (cs : List Char) :
    ∀ (nfa : Nfa) (sn : Nat) (endIdx : Int) (first : Bool),
      n₀ ≤ nfa.numStates → n₀ ≤ sn → sn < nfa.numStates →
      (first = false → ∃ en : Nat, endIdx = (en : Int) ∧ n₀ ≤ en ∧
        en < nfa.numStates) →
      Evolves n₀ nfa (convert_string_loop nfa (sn : Int) endIdx first cs).1 ∧
      (cs = [] → (convert_string_loop nfa (sn : Int) endIdx first cs).2 = endIdx) ∧
      (cs ≠ [] → ∃ en : Nat,
        (convert_string_loop nfa (sn : Int) endIdx first cs).2 = (en : Int) ∧
        nfa.numStates ≤ en ∧
        en < (convert_string_loop nfa (sn : Int) endIdx first cs).1.numStates) := by
  induction cs with
  | nil =>
      intro nfa sn endIdx first hn hs hs2 hmode
      exact ⟨evolves_refl _ _, fun _ => rfl, fun h => absurd rfl h⟩
  | cons c rest ih =>
      intro nfa sn endIdx first hn hs hs2 hmode
      have hnum0 : ((add_new_state nfa).1).numStates = nfa.numStates + 1 :=
        add_new_state_fst_numStates nfa
      cases first with
      | true =>
          have hstep :
              convert_string_loop nfa (sn : Int) endIdx true (c :: rest) =
                convert_string_loop
                  (setTransition (add_new_state nfa).1 (sn : Int) c.toNat
                    (nfa.numStates : Int))
                  (sn : Int) (nfa.numStates : Int) false rest := rfl
          set nfa₁ := setTransition (add_new_state nfa).1 (sn : Int) c.toNat
            (nfa.numStates : Int) with hnfa₁
          have hnum₁ : nfa₁.numStates = nfa.numStates + 1 := by
            rw [hnfa₁, setTransition_numStates, hnum0]
          have hev₁ : Evolves n₀ nfa nfa₁ :=
            evolves_trans (evolves_add_new_state (by omega))
              (evolves_setTransition c.toNat _ hs (by omega))
          obtain ⟨ihEv, ihNil, ihNe⟩ := ih nfa₁ sn (nfa.numStates : Int) false
            (by omega) hs (by omega)
            (fun _ => ⟨nfa.numStates, rfl, by omega, by omega⟩)
          have hevFull :
              Evolves n₀ nfa
                (convert_string_loop nfa (sn : Int) endIdx true (c :: rest)).1 := by
            rw [hstep]
            exact evolves_trans hev₁ ihEv
          refine ⟨hevFull, fun h => absurd h (by simp), fun _ => ?_⟩
          rcases eq_or_ne rest [] with hrest | hrest
          · refine ⟨nfa.numStates, ?_, Nat.le_refl _, ?_⟩
            · rw [hstep]
              exact ihNil hrest
            · rw [hstep]
              have := ihEv.2.1
              omega
          · obtain ⟨en, he1, he2, he3⟩ := ihNe hrest
            refine ⟨en, ?_, by omega, ?_⟩
            · rw [hstep]; exact he1
            · rw [hstep]; exact he3
      | false =>
          obtain ⟨en, hen, hen1, hen2⟩ := hmode rfl
          subst hen
          have hstep :
              convert_string_loop nfa (sn : Int) (en : Int) false (c :: rest) =
                convert_string_loop
                  (setTransition (add_new_state nfa).1 (en : Int) c.toNat
                    (nfa.numStates : Int))
                  (sn : Int) (nfa.numStates : Int) false rest := rfl
          set nfa₁ := setTransition (add_new_state nfa).1 (en : Int) c.toNat
            (nfa.numStates : Int) with hnfa₁
          have hnum₁ : nfa₁.numStates = nfa.numStates + 1 := by
            rw [hnfa₁, setTransition_numStates, hnum0]
          have hev₁ : Evolves n₀ nfa nfa₁ :=
            evolves_trans (evolves_add_new_state (by omega))
              (evolves_setTransition c.toNat _ hen1 (by omega))
          obtain ⟨ihEv, ihNil, ihNe⟩ := ih nfa₁ sn (nfa.numStates : Int) false
            (by omega) hs (by omega)
            (fun _ => ⟨nfa.numStates, rfl, by omega, by omega⟩)
          have hevFull :
              Evolves n₀ nfa
                (convert_string_loop nfa (sn : Int) (en : Int) false
                  (c :: rest)).1 := by
            rw [hstep]
            exact evolves_trans hev₁ ihEv
          refine ⟨hevFull, fun h => absurd h (by simp), fun _ => ?_⟩
          rcases eq_or_ne rest [] with hrest | hrest
          · refine ⟨nfa.numStates, ?_, Nat.le_refl _, ?_⟩
            · rw [hstep]
              exact ihNil hrest
            · rw [hstep]
              have := ihEv.2.1
              omega
          · obtain ⟨en', he1, he2, he3⟩ := ihNe hrest
            refine ⟨en', ?_, by omega, ?_⟩
            · rw [hstep]; exact he1
            · rw [hstep]; exact he3

theorem convert_range_loop_spec (n₀ : Nat) (cnt : Nat) :
    ∀ (nfa : Nfa) (sn : Nat) (t : Int) (lo : Nat),
      n₀ ≤ sn → sn < nfa.numStates →
      Evolves n₀ nfa (convert_range_loop (sn : Int) t nfa lo cnt) := by
  induction cnt with
  | zero => intro nfa sn t lo hs hs2; exact evolves_refl _ _
  | succ m ih =>
      intro nfa sn t lo hs hs2
      have hstep : convert_range_loop (sn : Int) t nfa lo (m + 1) =
          convert_range_loop (sn : Int) t
            (setTransition nfa (sn : Int) lo t) (lo + 1) m := rfl
      rw [hstep]
      exact evolves_trans (evolves_setTransition lo t hs hs2)
        (ih _ sn t (lo + 1) hs (by rw [setTransition_numStates]; omega))

theorem seqLoop_spec (rec : Nfa → RegExp → Nfa × Int × Int)
    (hrec_spec : ∀ x n, WfRegExp x → (rec n x).1.fuelOk = true →
      Evolves n.numStates n (rec n x).1 ∧
      OutIdx n.numStates (rec n x).1 (rec n x).2.1 (rec n x).2.2)
    (hrec_sticky : ∀ n x, (rec n x).1.fuelOk = true → n.fuelOk = true)
    (n₀ : Nat) (cs : List RegExp) :
    ∀ (nfa : Nfa) (sn tn : Nat),
      (∀ c ∈ cs, WfRegExp c) →
      n₀ ≤ nfa.numStates → n₀ ≤ sn → sn < nfa.numStates →
      n₀ ≤ tn → tn < nfa.numStates →
      (seqLoop rec nfa (sn : Int) (tn : Int) cs).1.fuelOk = true →
      Evolves n₀ nfa (seqLoop rec nfa (sn : Int) (tn : Int) cs).1 ∧
      (seqLoop rec nfa (sn : Int) (tn : Int) cs).2.1 = (sn : Int) ∧
      ∃ tn' : Nat, (seqLoop rec nfa (sn : Int) (tn : Int) cs).2.2 = (tn' : Int) ∧
        n₀ ≤ tn' ∧ tn' < (seqLoop rec nfa (sn : Int) (tn : Int) cs).1.numStates := by
  induction cs with
  | nil =>
      intro nfa sn tn hwf hn hs hs2 ht ht2 hok
      exact ⟨evolves_refl _ _, rfl, tn, rfl, ht, ht2⟩
  | cons c rest ih =>
      intro nfa sn tn hwf hn hs hs2 ht ht2 hok
      have hstep : seqLoop rec nfa (sn : Int) (tn : Int) (c :: rest) =
          seqLoop rec (add_epsilon_transition (rec nfa c).1 (tn : Int)
            (rec nfa c).2.1) (sn : Int) (rec nfa c).2.2 rest := rfl
      rw [hstep] at hok ⊢
      have hcok : (rec nfa c).1.fuelOk = true := by
        have h1 := seqLoop_fuelOk_sticky rec hrec_sticky rest _ _ _ hok
        rwa [add_epsilon_transition_fuelOk] at h1
      obtain ⟨hevc, hout⟩ := hrec_spec c nfa (hwf c (by simp)) hcok
      obtain ⟨csn, ctn, hcs, hct, hcs1, hcs2, hct1, hct2⟩ := hout
      rw [hcs, hct] at hstep hok ⊢
      have hev₁ : Evolves n₀ nfa
          (add_epsilon_transition (rec nfa c).1 (tn : Int) (csn : Int)) := by
        refine evolves_trans (evolves_mono_base hn hevc) ?_
        exact evolves_add_epsilon_transition ht
          (by have := hevc.2.1; omega) (by omega) hcs2
      have hnum₁ : nfa.numStates ≤
          (add_epsilon_transition (rec nfa c).1 (tn : Int) (csn : Int)).numStates := by
        rw [add_epsilon_transition_numStates]
        exact hevc.2.1
      obtain ⟨ihEv, ihS, tn', ihT, ihT1, ihT2⟩ := ih
        (add_epsilon_transition (rec nfa c).1 (tn : Int) (csn : Int)) sn ctn
        (fun x hx => hwf x (by simp [hx]))
        (by omega) hs (by omega)
        (by omega) (by rw [add_epsilon_transition_numStates]; omega) hok
      exact ⟨evolves_trans hev₁ ihEv, ihS, tn', ihT, ihT1, ihT2⟩

theorem oneOfLoop_spec (rec : Nfa → RegExp → Nfa × Int × Int)
    (hrec_spec : ∀ x n, WfRegExp x → (rec n x).1.fuelOk = true →
      Evolves n.numStates n (rec n x).1 ∧
      OutIdx n.numStates (rec n x).1 (rec n x).2.1 (rec n x).2.2)
    (hrec_sticky : ∀ n x, (rec n x).1.fuelOk = true → n.fuelOk = true)
    (n₀ : Nat) (cs : List RegExp) :
    ∀ (nfa : Nfa) (sn tn : Nat),
      (∀ c ∈ cs, WfRegExp c) →
      n₀ ≤ nfa.numStates → n₀ ≤ sn → sn < nfa.numStates →
      n₀ ≤ tn → tn < nfa.numStates →
      (oneOfLoop rec nfa (sn : Int) (tn : Int) cs).fuelOk = true →
      Evolves n₀ nfa (oneOfLoop rec nfa (sn : Int) (tn : Int) cs) := by
  induction cs with
  | nil =>
      intro nfa sn tn hwf hn hs hs2 ht ht2 hok
      exact evolves_refl _ _
  | cons c rest ih =>
      intro nfa sn tn hwf hn hs hs2 ht ht2 hok
      have hstep : oneOfLoop rec nfa (sn : Int) (tn : Int) (c :: rest) =
          oneOfLoop rec
            (add_epsilon_transition
              (add_epsilon_transition (rec nfa c).1 (sn : Int) (rec nfa c).2.1)
              (rec nfa c).2.2 (tn : Int))
            (sn : Int) (tn : Int) rest := rfl
      rw [hstep] at hok ⊢
      have hcok : (rec nfa c).1.fuelOk = true := by
        have h1 := oneOfLoop_fuelOk_sticky rec hrec_sticky rest _ _ _ hok
        rwa [add_epsilon_transition_fuelOk, add_epsilon_transition_fuelOk] at h1
      obtain ⟨hevc, hout⟩ := hrec_spec c nfa (hwf c (by simp)) hcok
      obtain ⟨csn, ctn, hcs, hct, hcs1, hcs2, hct1, hct2⟩ := hout
      rw [hcs, hct] at hstep hok ⊢
      have hev₁ : Evolves n₀ nfa
          (add_epsilon_transition
            (add_epsilon_transition (rec nfa c).1 (sn : Int) (csn : Int))
            (ctn : Int) (tn : Int)) := by
        refine evolves_trans (evolves_mono_base hn hevc)
          (evolves_trans
            (evolves_add_epsilon_transition hs (by have := hevc.2.1; omega)
              (by omega) hcs2) ?_)
        exact @evolves_add_epsilon_transition n₀ _ _ _
          (by omega) (by rw [add_epsilon_transition_numStates]; omega)
          ht (by rw [add_epsilon_transition_numStates]; have := hevc.2.1; omega)
      refine evolves_trans hev₁ (ih _ sn tn (fun x hx => hwf x (by simp [hx]))
        ?_ hs ?_ ht ?_ hok)
      · rw [add_epsilon_transition_numStates, add_epsilon_transition_numStates]
        have := hevc.2.1
        omega
      · rw [add_epsilon_transition_numStates, add_epsilon_transition_numStates]
        have := hevc.2.1
        omega
      · rw [add_epsilon_transition_numStates, add_epsilon_transition_numStates]
        have := hevc.2.1
        omega

theorem evolves_pairAlloc (nfa : Nfa) :
    Evolves nfa.numStates nfa (pairAlloc nfa) :=
  evolves_trans (evolves_add_new_state (Nat.le_refl _))
    (evolves_add_new_state (by rw [add_new_state_fst_numStates]; omega))

theorem evolves_optBase (nfa : Nfa) :
    Evolves nfa.numStates nfa (optBase nfa) := by
  refine evolves_trans (evolves_pairAlloc nfa)
    (evolves_add_epsilon_transition (Nat.le_refl _) ?_ ?_ ?_)
  · rw [pairAlloc_numStates]; omega
  · omega
  · rw [pairAlloc_numStates]; omega

/-- Entry/exit and evolution facts for a `Range` conversion with
single-`String` children. -/
theorem convert_range_shape_strings (fuel : Nat) (nfa : Nfa) (lc rc : List Char) :
    (convert (fuel+1) nfa (.range (.string lc) (.string rc))).2.1 =
      (nfa.numStates : Int) ∧
    (convert (fuel+1) nfa (.range (.string lc) (.string rc))).2.2 =
      ((nfa.numStates + 1 : Nat) : Int) ∧
    Evolves nfa.numStates nfa
      (convert (fuel+1) nfa (.range (.string lc) (.string rc))).1 ∧
    nfa.numStates + 2 ≤
      (convert (fuel+1) nfa (.range (.string lc) (.string rc))).1.numStates := by
  rw [convert_range_str_eq]
  have hev2 : Evolves nfa.numStates (pairAlloc nfa)
      (convert_range_loop (nfa.numStates : Int) ((nfa.numStates + 1 : Nat) : Int)
        (pairAlloc nfa) (lc.headD 'a').toNat
        ((rc.headD 'a').toNat + 1 - (lc.headD 'a').toNat)) :=
    convert_range_loop_spec nfa.numStates _ (pairAlloc nfa) nfa.numStates _ _
      (Nat.le_refl _) (by rw [pairAlloc_numStates]; omega)
  refine ⟨rfl, rfl, evolves_trans (evolves_pairAlloc nfa) hev2, ?_⟩
  have h1 := hev2.2.1
  rw [pairAlloc_numStates] at h1
  exact h1

/-- Entry/exit and evolution facts for a `Range` conversion, whatever
the shapes of its children. -/
theorem convert_range_shape (fuel : Nat) (nfa : Nfa) (l r : RegExp) :
    (convert (fuel+1) nfa (.range l r)).2.1 = (nfa.numStates : Int) ∧
    (convert (fuel+1) nfa (.range l r)).2.2 = ((nfa.numStates + 1 : Nat) : Int) ∧
    Evolves nfa.numStates nfa (convert (fuel+1) nfa (.range l r)).1 ∧
    nfa.numStates + 2 ≤ (convert (fuel+1) nfa (.range l r)).1.numStates := by
  cases l <;> cases r
  case string.string lc rc => exact convert_range_shape_strings fuel nfa lc rc
  all_goals
    (refine ⟨rfl, rfl, ?_, ?_⟩
     · show Evolves nfa.numStates nfa (pairAlloc nfa)
       exact evolves_pairAlloc nfa
     · show nfa.numStates + 2 ≤ (pairAlloc nfa).numStates
       rw [pairAlloc_numStates])

/-- The conversion of a well-formed AST evolves the NFA (locality of
all its writes) and returns entry/exit indices among the states it
allocated. -/
theorem convert_spec (fuel : Nat) :
    ∀ (e : RegExp) (nfa : Nfa), WfRegExp e →
      (convert fuel nfa e).1.fuelOk = true →
      Evolves nfa.numStates nfa (convert fuel nfa e).1 ∧
      OutIdx nfa.numStates (convert fuel nfa e).1
        (convert fuel nfa e).2.1 (convert fuel nfa e).2.2 := by
  induction fuel with
  | zero =>
      intro e nfa hwf hok
      rw [convert_zero_eq] at hok
      exact absurd hok (by simp)
  | succ fuel ih =>
      intro e nfa hwf hok
      cases hwf with
      | sequence cs hne hall =>
          cases cs with
          | nil => exact absurd rfl hne
          | cons c rest =>
              rw [convert_seq_cons_eq] at hok ⊢
              have hcok : (convert fuel nfa c).1.fuelOk = true :=
                seqLoop_fuelOk_sticky _
                  (fun n x => convert_fuelOk_sticky fuel x n) rest _ _ _ hok
              obtain ⟨hevc, hout⟩ := ih c nfa (hall c (by simp)) hcok
              obtain ⟨csn, ctn, hcs, hct, hcs1, hcs2, hct1, hct2⟩ := hout
              rw [hcs, hct] at hok ⊢
              obtain ⟨lEv, lS, tn', lT, lT1, lT2⟩ :=
                seqLoop_spec (fun n x => convert fuel n x)
                (fun x n hx hk => ih x n hx hk)
                (fun n x => convert_fuelOk_sticky fuel x n)
                nfa.numStates rest (convert fuel nfa c).1 csn ctn
                (fun x hx => hall x (by simp [hx]))
                (by have := hevc.2.1; omega) hcs1 hcs2 hct1 hct2 hok
              refine ⟨evolves_trans (evolves_mono_base (Nat.le_refl _) hevc) lEv,
                csn, tn', lS, lT, hcs1, ?_, lT1, lT2⟩
              have h1 := lEv.2.1
              omega
      | optional c hc =>
          rw [convert_optional_eq] at hok ⊢
          rw [add_epsilon_transition_fuelOk, add_epsilon_transition_fuelOk] at hok
          obtain ⟨hevc, hout⟩ := ih c (optBase nfa) hc hok
          obtain ⟨csn, ctn, hcs, hct, hcs1, hcs2, hct1, hct2⟩ := hout
          rw [optBase_numStates] at hcs1 hct1
          rw [hcs, hct]
          have hbase : Evolves nfa.numStates nfa
              (convert fuel (optBase nfa) c).1 :=
            evolves_trans (evolves_optBase nfa)
              (evolves_mono_base (by rw [optBase_numStates]; omega) hevc)
          have hrnum : nfa.numStates + 2 ≤
              (convert fuel (optBase nfa) c).1.numStates := by
            have h1 := hevc.2.1
            rw [optBase_numStates] at h1
            omega
          refine ⟨evolves_trans hbase (evolves_trans
            (evolves_add_epsilon_transition (Nat.le_refl _) (by omega)
              (by omega) hcs2)
            (evolves_add_epsilon_transition (by omega)
              (by rw [add_epsilon_transition_numStates]; omega)
              (by omega)
              (by rw [add_epsilon_transition_numStates]; omega))), ?_⟩
          refine ⟨nfa.numStates, nfa.numStates + 1, rfl, by norm_num, Nat.le_refl _,
            ?_, by omega, ?_⟩ <;>
            rw [add_epsilon_transition_numStates,
              add_epsilon_transition_numStates] <;> omega
      | zeroOrMore c hc =>
          rw [convert_zeroOrMore_eq] at hok ⊢
          rw [add_epsilon_transition_fuelOk, add_epsilon_transition_fuelOk,
            add_epsilon_transition_fuelOk] at hok
          obtain ⟨hevc, hout⟩ := ih c (optBase nfa) hc hok
          obtain ⟨csn, ctn, hcs, hct, hcs1, hcs2, hct1, hct2⟩ := hout
          rw [optBase_numStates] at hcs1 hct1
          rw [hcs, hct]
          have hbase : Evolves nfa.numStates nfa
              (convert fuel (optBase nfa) c).1 :=
            evolves_trans (evolves_optBase nfa)
              (evolves_mono_base (by rw [optBase_numStates]; omega) hevc)
          have hrnum : nfa.numStates + 2 ≤
              (convert fuel (optBase nfa) c).1.numStates := by
            have h1 := hevc.2.1
            rw [optBase_numStates] at h1
            omega
          refine ⟨evolves_trans hbase (evolves_trans
            (evolves_add_epsilon_transition (Nat.le_refl _) (by omega)
              (by omega) hcs2)
            (evolves_trans
              (evolves_add_epsilon_transition (by omega)
                (by rw [add_epsilon_transition_numStates]; omega)
                (by omega)
                (by rw [add_epsilon_transition_numStates]; omega))
              (evolves_add_epsilon_transition (by omega)
                (by rw [add_epsilon_transition_numStates,
                     add_epsilon_transition_numStates]; omega)
                (by omega)
                (by rw [add_epsilon_transition_numStates,
                     add_epsilon_transition_numStates]; omega)))), ?_⟩
          refine ⟨nfa.numStates, nfa.numStates + 1, rfl, by norm_num, Nat.le_refl _,
            ?_, by omega, ?_⟩ <;>
            rw [add_epsilon_transition_numStates, add_epsilon_transition_numStates,
              add_epsilon_transition_numStates] <;> omega
      | oneOrMore c hc =>
          rw [convert_oneOrMore_eq] at hok ⊢
          rw [add_epsilon_transition_fuelOk, add_epsilon_transition_fuelOk,
            add_epsilon_transition_fuelOk] at hok
          obtain ⟨hevc, hout⟩ := ih c (pairAlloc nfa) hc hok
          obtain ⟨csn, ctn, hcs, hct, hcs1, hcs2, hct1, hct2⟩ := hout
          rw [pairAlloc_numStates] at hcs1 hct1
          rw [hcs, hct]
          have hbase : Evolves nfa.numStates nfa
              (convert fuel (pairAlloc nfa) c).1 :=
            evolves_trans (evolves_pairAlloc nfa)
              (evolves_mono_base (by rw [pairAlloc_numStates]; omega) hevc)
          have hrnum : nfa.numStates + 2 ≤
              (convert fuel (pairAlloc nfa) c).1.numStates := by
            have h1 := hevc.2.1
            rw [pairAlloc_numStates] at h1
            omega
          refine ⟨evolves_trans hbase (evolves_trans
            (evolves_add_epsilon_transition (Nat.le_refl _) (by omega)
              (by omega) hcs2)
            (evolves_trans
              (evolves_add_epsilon_transition (by omega)
                (by rw [add_epsilon_transition_numStates]; omega)
                (by omega)
                (by rw [add_epsilon_transition_numStates]; omega))
              (evolves_add_epsilon_transition (by omega)
                (by rw [add_epsilon_transition_numStates,
                     add_epsilon_transition_numStates]; omega)
                (by omega)
                (by rw [add_epsilon_transition_numStates,
                     add_epsilon_transition_numStates]; omega)))), ?_⟩
          refine ⟨nfa.numStates, nfa.numStates + 1, rfl, by norm_num, Nat.le_refl _,
            ?_, by omega, ?_⟩ <;>
            rw [add_epsilon_transition_numStates, add_epsilon_transition_numStates,
              add_epsilon_transition_numStates] <;> omega
      | orExp l r hl hr =>
          rw [convert_orExp_eq] at hok ⊢
          rw [add_epsilon_transition_fuelOk, add_epsilon_transition_fuelOk,
            add_epsilon_transition_fuelOk, add_epsilon_transition_fuelOk] at hok
          have hlok : (convert fuel (pairAlloc nfa) l).1.fuelOk = true :=
            convert_fuelOk_sticky fuel r _ hok
          obtain ⟨hevl, houtl⟩ := ih l (pairAlloc nfa) hl hlok
          obtain ⟨lsn, ltn, hls, hlt, hls1, hls2, hlt1, hlt2⟩ := houtl
          obtain ⟨hevr, houtr⟩ := ih r (convert fuel (pairAlloc nfa) l).1 hr hok
          obtain ⟨rsn, rtn, hrs, hrt, hrs1, hrs2, hrt1, hrt2⟩ := houtr
          rw [pairAlloc_numStates] at hls1 hlt1
          have hlnum : nfa.numStates + 2 ≤
              (convert fuel (pairAlloc nfa) l).1.numStates := by
            have := hevl.2.1
            rw [pairAlloc_numStates] at this
            omega
          have hrnum : (convert fuel (pairAlloc nfa) l).1.numStates ≤
              (convert fuel (convert fuel (pairAlloc nfa) l).1 r).1.numStates :=
            hevr.2.1
          rw [hls, hlt, hrs, hrt]
          have hbase : Evolves nfa.numStates nfa
              (convert fuel (convert fuel (pairAlloc nfa) l).1 r).1 :=
            evolves_trans (evolves_pairAlloc nfa)
              (evolves_trans
                (evolves_mono_base (by rw [pairAlloc_numStates]; omega) hevl)
                (evolves_mono_base (by omega) hevr))
          refine ⟨evolves_trans hbase (evolves_trans
            (evolves_add_epsilon_transition (Nat.le_refl _) (by omega)
              (by omega) (by omega))
            (evolves_trans
              (evolves_add_epsilon_transition (by omega)
                (by rw [add_epsilon_transition_numStates]; omega)
                (by omega)
                (by rw [add_epsilon_transition_numStates]; omega))
              (evolves_trans
                (evolves_add_epsilon_transition (Nat.le_refl _)
                  (by rw [add_epsilon_transition_numStates,
                       add_epsilon_transition_numStates]; omega)
                  (by omega)
                  (by rw [add_epsilon_transition_numStates,
                       add_epsilon_transition_numStates]; omega))
                (evolves_add_epsilon_transition (by omega)
                  (by rw [add_epsilon_transition_numStates,
                       add_epsilon_transition_numStates,
                       add_epsilon_transition_numStates]; omega)
                  (by omega)
                  (by rw [add_epsilon_transition_numStates,
                       add_epsilon_transition_numStates,
                       add_epsilon_transition_numStates]; omega))))), ?_⟩
          refine ⟨nfa.numStates, nfa.numStates + 1, rfl, by norm_num, Nat.le_refl _,
            ?_, by omega, ?_⟩ <;>
            rw [add_epsilon_transition_numStates, add_epsilon_transition_numStates,
              add_epsilon_transition_numStates, add_epsilon_transition_numStates] <;>
            omega
      | string cs hne =>
          rw [convert_string_eq] at hok ⊢
          simp only at hok ⊢
          obtain ⟨sEv, _, sNe⟩ := convert_string_loop_spec nfa.numStates cs
            (add_new_state nfa).1 nfa.numStates NO_STATE true
            (by rw [add_new_state_fst_numStates]; omega) (Nat.le_refl _)
            (by rw [add_new_state_fst_numStates]; omega)
            (fun h => absurd h (by simp))
          obtain ⟨en, he1, he2, he3⟩ := sNe hne
          rw [he1]
          have hev : Evolves nfa.numStates nfa
              (convert_string_loop (add_new_state nfa).1 (nfa.numStates : Int)
                NO_STATE true cs).1 :=
            evolves_trans (evolves_add_new_state (Nat.le_refl _)) sEv
          refine ⟨hev, nfa.numStates, en, rfl, rfl, Nat.le_refl _, ?_,
            ?_, he3⟩
          · have h1 := hev.2.1
            rw [add_new_state_fst_numStates] at he2
            omega
          · rw [add_new_state_fst_numStates] at he2
            omega
      | oneOf cs hne hall =>
          rw [convert_oneOf_eq] at hok ⊢
          simp only at hok ⊢
          have hev := oneOfLoop_spec (fun n x => convert fuel n x)
            (fun x n hx hk => ih x n hx hk)
            (fun n x => convert_fuelOk_sticky fuel x n)
            nfa.numStates cs (pairAlloc nfa) nfa.numStates (nfa.numStates + 1)
            hall (by rw [pairAlloc_numStates]; omega) (Nat.le_refl _)
            (by rw [pairAlloc_numStates]; omega) (by omega)
            (by rw [pairAlloc_numStates]; omega) (by exact hok)
          have hfull : Evolves nfa.numStates nfa
              (oneOfLoop (fun n x => convert fuel n x) (pairAlloc nfa)
                (nfa.numStates : Int) ((nfa.numStates + 1 : Nat) : Int) cs) :=
            evolves_trans (evolves_pairAlloc nfa) hev
          refine ⟨hfull, nfa.numStates, nfa.numStates + 1, rfl, by norm_num,
            Nat.le_refl _, ?_, by omega, ?_⟩ <;>
          · have h1 := hev.2.1
            rw [pairAlloc_numStates] at h1
            omega
      | range l r =>
          obtain ⟨h1, h2, hev, hnum⟩ := convert_range_shape fuel nfa l r
          rw [h1, h2]
          exact ⟨hev, nfa.numStates, nfa.numStates + 1, rfl, rfl, Nat.le_refl _,
            by omega, by omega, by omega⟩

/-! ### Monotone growth of the state counter

`numStates` never decreases: every primitive either increments it or
leaves it unchanged. -/

theorem convert_string_loop_numStates_mono (cs : List Char) :
    ∀ (nfa : Nfa) (s t : Int) (first : Bool),
      nfa.numStates ≤ (convert_string_loop nfa s t first cs).1.numStates := by
  induction cs with
  | nil => intro nfa s t first; exact Nat.le_refl _
  | cons c rest ih =>
      intro nfa s t first
      unfold convert_string_loop
      cases first <;>
        simp only [Bool.false_eq_true, if_false, if_true, reduceIte] <;>
        refine Nat.le_trans ?_ (ih _ _ _ _) <;>
        rw [setTransition_numStates, add_new_state_fst_numStates] <;>
        omega

theorem convert_range_loop_numStates_mono (n : Nat) :
    ∀ (nfa : Nfa) (s t : Int) (lo : Nat),
      nfa.numStates ≤ (convert_range_loop s t nfa lo n).numStates := by
  induction n with
  | zero => intro nfa s t lo; exact Nat.le_refl _
  | succ m ih =>
      intro nfa s t lo
      unfold convert_range_loop
      refine Nat.le_trans ?_ (ih _ _ _ _)
      rw [setTransition_numStates]

theorem seqLoop_numStates_mono (rec : Nfa → RegExp → Nfa × Int × Int)
    (hrec : ∀ n x, n.numStates ≤ (rec n x).1.numStates) (cs : List RegExp) :
    ∀ (nfa : Nfa) (s t : Int),
      nfa.numStates ≤ (seqLoop rec nfa s t cs).1.numStates := by
  induction cs with
  | nil => intro nfa s t; exact Nat.le_refl _
  | cons c rest ih =>
      intro nfa s t
      show nfa.numStates ≤
        (seqLoop rec (add_epsilon_transition (rec nfa c).1 t (rec nfa c).2.1)
          s (rec nfa c).2.2 rest).1.numStates
      refine Nat.le_trans (hrec nfa c) (Nat.le_trans ?_ (ih _ _ _))
      rw [add_epsilon_transition_numStates]

theorem oneOfLoop_numStates_mono (rec : Nfa → RegExp → Nfa × Int × Int)
    (hrec : ∀ n x, n.numStates ≤ (rec n x).1.numStates) (cs : List RegExp) :
    ∀ (nfa : Nfa) (s t : Int),
      nfa.numStates ≤ (oneOfLoop rec nfa s t cs).numStates := by
  induction cs with
  | nil => intro nfa s t; exact Nat.le_refl _
  | cons c rest ih =>
      intro nfa s t
      show nfa.numStates ≤
        (oneOfLoop rec
          (add_epsilon_transition
            (add_epsilon_transition (rec nfa c).1 s (rec nfa c).2.1)
            (rec nfa c).2.2 t) s t rest).numStates
      refine Nat.le_trans (hrec nfa c) (Nat.le_trans ?_ (ih _ _ _))
      rw [add_epsilon_transition_numStates, add_epsilon_transition_numStates]

theorem convert_numStates_mono (fuel : Nat) :
    ∀ (e : RegExp) (nfa : Nfa),
      nfa.numStates ≤ (convert fuel nfa e).1.numStates := by
  induction fuel with
  | zero => intro e nfa; exact Nat.le_refl _
  | succ fuel ih =>
      intro e nfa
      cases e with
      | sequence cs =>
          cases cs with
          | nil => exact Nat.le_refl _
          | cons c rest =>
              rw [convert_seq_cons_eq]
              exact Nat.le_trans (ih c nfa)
                (seqLoop_numStates_mono _ (fun n x => ih x n) rest _ _ _)
      | optional c =>
          rw [convert_optional_eq]
          show nfa.numStates ≤ (add_epsilon_transition
            (add_epsilon_transition (convert fuel (optBase nfa) c).1
              (nfa.numStates : Int) (convert fuel (optBase nfa) c).2.1)
            (convert fuel (optBase nfa) c).2.2
            ((nfa.numStates + 1 : Nat) : Int)).numStates
          rw [add_epsilon_transition_numStates, add_epsilon_transition_numStates]
          refine Nat.le_trans ?_ (ih c (optBase nfa))
          rw [optBase_numStates]
          omega
      | zeroOrMore c =>
          rw [convert_zeroOrMore_eq]
          show nfa.numStates ≤ (add_epsilon_transition
            (add_epsilon_transition
              (add_epsilon_transition (convert fuel (optBase nfa) c).1
                (nfa.numStates : Int) (convert fuel (optBase nfa) c).2.1)
              (convert fuel (optBase nfa) c).2.2
              ((nfa.numStates + 1 : Nat) : Int))
            (convert fuel (optBase nfa) c).2.2
            (convert fuel (optBase nfa) c).2.1).numStates
          rw [add_epsilon_transition_numStates, add_epsilon_transition_numStates,
            add_epsilon_transition_numStates]
          refine Nat.le_trans ?_ (ih c (optBase nfa))
          rw [optBase_numStates]
          omega
      | oneOrMore c =>
          rw [convert_oneOrMore_eq]
          show nfa.numStates ≤ (add_epsilon_transition
            (add_epsilon_transition
              (add_epsilon_transition (convert fuel (pairAlloc nfa) c).1
                (nfa.numStates : Int) (convert fuel (pairAlloc nfa) c).2.1)
              (convert fuel (pairAlloc nfa) c).2.2
              ((nfa.numStates + 1 : Nat) : Int))
            (convert fuel (pairAlloc nfa) c).2.2
            (convert fuel (pairAlloc nfa) c).2.1).numStates
          rw [add_epsilon_transition_numStates, add_epsilon_transition_numStates,
            add_epsilon_transition_numStates]
          refine Nat.le_trans ?_ (ih c (pairAlloc nfa))
          rw [pairAlloc_numStates]
          omega
      | orExp l r =>
          rw [convert_orExp_eq]
          show nfa.numStates ≤ (add_epsilon_transition
            (add_epsilon_transition
              (add_epsilon_transition
                (add_epsilon_transition
                  (convert fuel (convert fuel (pairAlloc nfa) l).1 r).1
                  (nfa.numStates : Int) (convert fuel (pairAlloc nfa) l).2.1)
                (convert fuel (pairAlloc nfa) l).2.2
                ((nfa.numStates + 1 : Nat) : Int))
              (nfa.numStates : Int)
              (convert fuel (convert fuel (pairAlloc nfa) l).1 r).2.1)
            (convert fuel (convert fuel (pairAlloc nfa) l).1 r).2.2
            ((nfa.numStates + 1 : Nat) : Int)).numStates
          rw [add_epsilon_transition_numStates, add_epsilon_transition_numStates,
            add_epsilon_transition_numStates, add_epsilon_transition_numStates]
          calc nfa.numStates ≤ (pairAlloc nfa).numStates := by
                rw [pairAlloc_numStates]; omega
            _ ≤ (convert fuel (pairAlloc nfa) l).1.numStates := ih l _
            _ ≤ _ := ih r _
      | string cs =>
          rw [convert_string_eq]
          show nfa.numStates ≤ (convert_string_loop (add_new_state nfa).1
            (nfa.numStates : Int) NO_STATE true cs).1.numStates
          refine Nat.le_trans ?_ (convert_string_loop_numStates_mono cs _ _ _ _)
          rw [add_new_state_fst_numStates]
          omega
      | oneOf cs =>
          rw [convert_oneOf_eq]
          show nfa.numStates ≤ (oneOfLoop (fun n x => convert fuel n x)
            (pairAlloc nfa) (nfa.numStates : Int)
            ((nfa.numStates + 1 : Nat) : Int) cs).numStates
          refine Nat.le_trans ?_
            (oneOfLoop_numStates_mono _ (fun n x => ih x n) cs _ _ _)
          rw [pairAlloc_numStates]
          omega
      | range l r =>
          cases l <;> cases r <;>
            first
              | (rw [convert_range_str_eq]
                 refine Nat.le_trans ?_
                   (convert_range_loop_numStates_mono _ _ _ _ _)
                 rw [pairAlloc_numStates]
                 omega)
              | (show nfa.numStates ≤ (pairAlloc nfa).numStates
                 rw [pairAlloc_numStates]
                 omega)

/-- One-step unfolding of `combinedLoop` on a cons cell. -/
theorem combinedLoop_cons_eq (rec : Nfa → RegExp → Nfa × Int × Int)
    (s : Int) (nfa : Nfa) (i : Nat) (e : RegExp) (es : List RegExp) :
    combinedLoop rec s nfa i (e :: es) =
      combinedLoop rec s
        (add_epsilon_transition
          (add_epsilon_transition
            (add_epsilon_transition
              (rec (add_end_state (add_new_state nfa).1 i).1 e).1
              s (add_new_state nfa).2)
            (add_new_state nfa).2
            (rec (add_end_state (add_new_state nfa).1 i).1 e).2.1)
          (rec (add_end_state (add_new_state nfa).1 i).1 e).2.2
          (add_end_state (add_new_state nfa).1 i).2)
        (i+1) es := rfl

/-- One-step unfolding of `combinedLoop` when the body converter is
`convert` (the β-reduced form used by `generate_combined_nfa`). -/
theorem combinedLoop_convert_cons_eq (fuel : Nat) (s : Int) (nfa : Nfa)
    (i : Nat) (e : RegExp) (es : List RegExp) :
    combinedLoop (fun n x => convert fuel n x) s nfa i (e :: es) =
      combinedLoop (fun n x => convert fuel n x) s
        (add_epsilon_transition
          (add_epsilon_transition
            (add_epsilon_transition
              (convert fuel (add_end_state (add_new_state nfa).1 i).1 e).1
              s (add_new_state nfa).2)
            (add_new_state nfa).2
            (convert fuel (add_end_state (add_new_state nfa).1 i).1 e).2.1)
          (convert fuel (add_end_state (add_new_state nfa).1 i).1 e).2.2
          (add_end_state (add_new_state nfa).1 i).2)
        (i+1) es := rfl

theorem combinedLoop_numStates_mono (rec : Nfa → RegExp → Nfa × Int × Int)
    (hrec : ∀ n x, n.numStates ≤ (rec n x).1.numStates) (s : Int)
    (es : List RegExp) :
    ∀ (nfa : Nfa) (i : Nat),
      nfa.numStates ≤ (combinedLoop rec s nfa i es).numStates := by
  induction es with
  | nil => intro nfa i; exact Nat.le_refl _
  | cons e rest ih =>
      intro nfa i
      rw [combinedLoop_cons_eq]
      refine Nat.le_trans ?_ (ih _ _)
      rw [add_epsilon_transition_numStates, add_epsilon_transition_numStates,
        add_epsilon_transition_numStates]
      refine Nat.le_trans ?_ (hrec _ e)
      rw [add_end_state_fst_numStates, add_new_state_fst_numStates]
      omega

theorem combinedLoop_fuelOk_sticky (rec : Nfa → RegExp → Nfa × Int × Int)
    (hrec : ∀ n x, (rec n x).1.fuelOk = true → n.fuelOk = true) (s : Int)
    (es : List RegExp) :
    ∀ (nfa : Nfa) (i : Nat),
      (combinedLoop rec s nfa i es).fuelOk = true → nfa.fuelOk = true := by
  induction es with
  | nil => intro nfa i h; exact h
  | cons e rest ih =>
      intro nfa i h
      rw [combinedLoop_cons_eq] at h
      have h1 := ih _ _ h
      rw [add_epsilon_transition_fuelOk, add_epsilon_transition_fuelOk,
        add_epsilon_transition_fuelOk] at h1
      have h2 := hrec _ _ h1
      rw [add_end_state_fuelOk, add_new_state_fuelOk] at h2
      exact h2

/-! ### The combined NFA: start state and branch wiring (claim C4) -/

/-- The NFA of `generate_combined_nfa` just after the shared start
state (index 0) is allocated. -/
def startNfa : Nfa := (add_new_state emptyNfa).1

theorem generate_combined_nfa_eq (fuel : Nat) (es : List RegExp) :
    generate_combined_nfa fuel es =
      combinedLoop (fun n x => convert fuel n x) ((0 : Nat) : Int)
        startNfa 0 es := rfl

theorem startNfa_numStates : startNfa.numStates = 1 := rfl

theorem startNfa_length : startNfa.states.length = 64 := by
  show (add_new_state emptyNfa).1.states.length = 64
  rw [add_new_state_length]
  simp [emptyNfa, MAX_NUM_NFA_STATES]

theorem capInv_startNfa : capInv startNfa := rfl

theorem getSt_emptyNfa (k : Nat) : getSt emptyNfa k = NfaState.zero := by
  rw [getSt]
  show (List.replicate MAX_NUM_NFA_STATES NfaState.zero).getD k NfaState.zero = _
  rw [List.getD_eq_getElem?_getD, List.getElem?_replicate]
  split <;> rfl

theorem zeroBeyond_startNfa : ZeroBeyond startNfa := by
  have hev : Evolves 0 emptyNfa startNfa :=
    evolves_add_new_state (Nat.zero_le _)
  exact hev.2.2.2.1 (fun k _ => getSt_emptyNfa k)

theorem startNfa_no_eps (k m : Nat) : ¬ epsIn startNfa k m := by
  intro h
  rcases eq_or_ne k 0 with hk | hk
  · subst hk
    rw [epsIn] at h
    have hs : getSt startNfa 0 =
        { getSt emptyNfa 0 with
          isEndState := false,
          epsilonTransitions := 0,
          transitions := List.replicate NUM_CHARS NO_STATE } :=
      getSt_add_new_state_self (by simp [emptyNfa, MAX_NUM_NFA_STATES])
    rw [hs] at h
    have h2 : is_in_bitset 0 m = true := h
    rw [is_in_bitset_zero] at h2
    exact absurd h2 (by simp)
  · rw [epsIn, show getSt startNfa k = getSt emptyNfa k from
      getSt_add_new_state_ne hk, getSt_emptyNfa] at h
    have h2 : is_in_bitset 0 m = true := h
    rw [is_in_bitset_zero] at h2
    exact absurd h2 (by simp)

/-- Invariant of the `generate_combined_nfa` loop after the first `i`
branches: branch `j` owns the disjoint slice `[D j, endB j)` of states,
with dispatch `D j`, accepting state `A j = D j + 1` carrying output
value `j`, body entry/exit `entry j`/`exB j` inside the slice, ε-edges
`0 → D j → entry j` and `exB j → A j`, and every ε-edge of the NFA is
either one of these wiring edges or internal to one branch body. -/
def CombinedInv (i : Nat) (nfa : Nfa)
    (D A entry exB endB : Nat → Nat) : Prop :=
  nfa.states.length = 64 ∧
  ZeroBeyond nfa ∧
  capInv nfa ∧
  1 ≤ nfa.numStates ∧
  (∀ j, j < i →
    1 ≤ D j ∧ A j = D j + 1 ∧
    D j + 2 ≤ entry j ∧ entry j < endB j ∧
    D j + 2 ≤ exB j ∧ exB j < endB j ∧
    endB j ≤ nfa.numStates) ∧
  (∀ j₁ j₂, j₁ < j₂ → j₂ < i → endB j₁ ≤ D j₂) ∧
  (∀ j, j < i →
    (getSt nfa (A j)).isEndState = true ∧
    (getSt nfa (A j)).outputValue = j ∧
    (getSt nfa (A j)).epsilonTransitions = 0 ∧
    (getSt nfa (D j)).isEndState = false ∧
    (getSt nfa (D j)).epsilonTransitions = add_to_bitset 0 (entry j)) ∧
  (∀ j, j < i → epsIn nfa 0 (D j) ∧ epsIn nfa (D j) (entry j) ∧
    epsIn nfa (exB j) (A j)) ∧
  (∀ k m, epsIn nfa k m →
    (k = 0 ∧ ∃ j, j < i ∧ m = D j) ∨
    (∃ j, j < i ∧ k = D j ∧ m = entry j) ∨
    (∃ j, j < i ∧ k = exB j ∧ m = A j) ∨
    (∃ j, j < i ∧ D j + 2 ≤ k ∧ k < endB j ∧ D j + 2 ≤ m ∧ m < endB j))

theorem combinedInv_startNfa (f : Nat → Nat) :
    CombinedInv 0 startNfa f f f f f := by
  refine ⟨startNfa_length, zeroBeyond_startNfa, capInv_startNfa,
    by rw [startNfa_numStates], ?_, ?_, ?_, ?_, ?_⟩
  · intro j hj; omega
  · intro j₁ j₂ h1 h2; omega
  · intro j hj; omega
  · intro j hj; omega
  · intro k m h; exact absurd h (startNfa_no_eps k m)

/-- One branch of the `generate_combined_nfa` loop extends the wiring
invariant: the freshly allocated dispatch and accepting states become
`D i` and `A i`, the converted body supplies the entry and exit, and
the three ε-edges added are exactly the wiring edges of branch `i`. -/
theorem combinedInv_step (fuel : Nat) (nfa : Nfa) (i : Nat)
    (D A entry exB endB : Nat → Nat) (e : RegExp) (sn tn : Nat)
    (hwf : WfRegExp e)
    (hInv : CombinedInv i nfa D A entry exB endB)
    (hok : (convert fuel (add_end_state (add_new_state nfa).1 i).1 e).1.fuelOk
      = true)
    (h63 : (convert fuel (add_end_state (add_new_state nfa).1 i).1 e).1.numStates
      ≤ 63)
    (hsn : (convert fuel (add_end_state (add_new_state nfa).1 i).1 e).2.1
      = (sn : Int))
    (htn : (convert fuel (add_end_state (add_new_state nfa).1 i).1 e).2.2
      = (tn : Int)) :
    CombinedInv (i+1)
      (add_epsilon_transition
        (add_epsilon_transition
          (add_epsilon_transition
            (convert fuel (add_end_state (add_new_state nfa).1 i).1 e).1
            ((0 : Nat) : Int) (nfa.numStates : Int))
          (nfa.numStates : Int) (sn : Int))
        (tn : Int) ((nfa.numStates + 1 : Nat) : Int))
      (fun j => if j = i then nfa.numStates else D j)
      (fun j => if j = i then nfa.numStates + 1 else A j)
      (fun j => if j = i then sn else entry j)
      (fun j => if j = i then tn else exB j)
      (fun j => if j = i then
        (convert fuel (add_end_state (add_new_state nfa).1 i).1 e).1.numStates
        else endB j) := by
  obtain ⟨hL, hZ, hC, h1, hP, hO, hS, hW, hX⟩ := hInv
  set p1 := (add_new_state nfa).1 with hp1
  set q1 := (add_end_state p1 i).1 with hq1
  set R := (convert fuel q1 e).1 with hR
  have hp1n : p1.numStates = nfa.numStates + 1 := by
    rw [hp1, add_new_state_fst_numStates]
  have hp1len : p1.states.length = 64 := by
    rw [hp1, add_new_state_length]; exact hL
  have hq1n : q1.numStates = nfa.numStates + 2 := by
    rw [hq1, add_end_state_fst_numStates, hp1n]
  have hq1len : q1.states.length = 64 := by
    rw [hq1, add_end_state_length]; exact hp1len
  obtain ⟨hev, hout⟩ := convert_spec fuel e q1 hwf hok
  rw [← hR] at hev hout
  obtain ⟨sn', tn', hsn', htn', hb1, hb2, hb3, hb4⟩ := hout
  have hsneq : sn' = sn := Nat.cast_inj.mp (hsn'.symm.trans hsn)
  have htneq : tn' = tn := Nat.cast_inj.mp (htn'.symm.trans htn)
  rw [hsneq] at hb1 hb2
  rw [htneq] at hb3 hb4
  rw [hq1n] at hb1 hb3
  have hRn : nfa.numStates + 2 ≤ R.numStates := by
    have h' := hev.2.1
    rw [hq1n] at h'
    exact h'
  have hRlen : R.states.length = 64 := hev.1.trans hq1len
  have hfr0 : ∀ k, k < nfa.numStates + 2 → getSt R k = getSt q1 k := by
    intro k hk
    refine hev.2.2.1 k ?_
    rw [hq1n]
    omega
  have hfrq : ∀ k, k < nfa.numStates → getSt q1 k = getSt nfa k := by
    intro k hk
    rw [hq1, getSt_add_end_state_ne i (show k ≠ p1.numStates by omega),
      hp1, getSt_add_new_state_ne (show k ≠ nfa.numStates by omega)]
  have hfr : ∀ k, k < nfa.numStates → getSt R k = getSt nfa k := fun k hk =>
    (hfr0 k (by omega)).trans (hfrq k hk)
  have hiff : ∀ k m, k < nfa.numStates → (epsIn R k m ↔ epsIn nfa k m) := by
    intro k m hk
    rw [epsIn, epsIn, hfr k hk]
  have hq1D : getSt q1 nfa.numStates =
      { getSt nfa nfa.numStates with
        isEndState := false,
        epsilonTransitions := 0,
        transitions := List.replicate NUM_CHARS NO_STATE } := by
    rw [hq1, getSt_add_end_state_ne i (show nfa.numStates ≠ p1.numStates by omega),
      hp1, getSt_add_new_state_self (show nfa.numStates < nfa.states.length by
        rw [hL]; omega)]
  have hRD : getSt R nfa.numStates =
      { getSt nfa nfa.numStates with
        isEndState := false,
        epsilonTransitions := 0,
        transitions := List.replicate NUM_CHARS NO_STATE } :=
    (hfr0 nfa.numStates (by omega)).trans hq1D
  have hq1A := getSt_add_end_state_self i
    (show p1.numStates < p1.states.length by omega)
  rw [hp1n, ← hq1] at hq1A
  have hRA : getSt R (nfa.numStates + 1) =
      { getSt p1 (nfa.numStates + 1) with
        isEndState := true,
        outputValue := i,
        epsilonTransitions := 0,
        transitions := List.replicate NUM_CHARS NO_STATE } :=
    (hfr0 (nfa.numStates + 1) (by omega)).trans hq1A
  have hZq : ZeroBeyond q1 := by
    have ev0 : Evolves 0 nfa q1 := by
      rw [hq1]
      refine evolves_trans ?_ (evolves_add_end_state i (Nat.zero_le _))
      rw [hp1]
      exact evolves_add_new_state (Nat.zero_le _)
    exact ev0.2.2.2.1 hZ
  have hZR : ZeroBeyond R := hev.2.2.2.1 hZq
  have hbody : ∀ k m, nfa.numStates + 2 ≤ k → epsIn R k m →
      nfa.numStates + 2 ≤ m ∧ m < R.numStates := by
    intro k m hk h
    have hk' : q1.numStates ≤ k := by omega
    rcases hev.2.2.2.2 k m hk' h with h' | h'
    · exfalso
      rw [epsIn, hZq k hk'] at h'
      have h2 : is_in_bitset 0 m = true := h'
      rw [is_in_bitset_zero] at h2
      exact absurd h2 (by simp)
    · rw [hq1n] at h'
      exact h'
  have hRDeps : ∀ m, ¬ epsIn R nfa.numStates m := by
    intro m h
    rw [epsIn, hRD] at h
    have h2 : is_in_bitset 0 m = true := h
    rw [is_in_bitset_zero] at h2
    exact absurd h2 (by simp)
  have hRAeps : ∀ m, ¬ epsIn R (nfa.numStates + 1) m := by
    intro m h
    rw [epsIn, hRA] at h
    have h2 : is_in_bitset 0 m = true := h
    rw [is_in_bitset_zero] at h2
    exact absurd h2 (by simp)
  set w1 := add_epsilon_transition R ((0 : Nat) : Int) (nfa.numStates : Int)
    with hw1
  set w2 := add_epsilon_transition w1 (nfa.numStates : Int) (sn : Int) with hw2
  set w3 := add_epsilon_transition w2 (tn : Int)
    ((nfa.numStates + 1 : Nat) : Int) with hw3
  have hw1n : w1.numStates = R.numStates := by
    rw [hw1, add_epsilon_transition_numStates]
  have hw2n : w2.numStates = R.numStates := by
    rw [hw2, add_epsilon_transition_numStates, hw1n]
  have hw3n : w3.numStates = R.numStates := by
    rw [hw3, add_epsilon_transition_numStates, hw2n]
  have hw1len : w1.states.length = 64 := by
    rw [hw1, add_epsilon_transition_length]; exact hRlen
  have hw2len : w2.states.length = 64 := by
    rw [hw2, add_epsilon_transition_length]; exact hw1len
  have hw3len : w3.states.length = 64 := by
    rw [hw3, add_epsilon_transition_length]; exact hw2len
  have hgw3A : getSt w3 (nfa.numStates + 1) = getSt R (nfa.numStates + 1) := by
    rw [hw3, getSt_add_epsilon_transition_ne _
        (show nfa.numStates + 1 ≠ tn by omega),
      hw2, getSt_add_epsilon_transition_ne _
        (show nfa.numStates + 1 ≠ nfa.numStates by omega),
      hw1, getSt_add_epsilon_transition_ne _
        (show nfa.numStates + 1 ≠ 0 by omega)]
  have hgw1D : getSt w1 nfa.numStates = getSt R nfa.numStates := by
    rw [hw1, getSt_add_epsilon_transition_ne _
      (show nfa.numStates ≠ 0 by omega)]
  have hgw3Dful : getSt w3 nfa.numStates =
      { getSt w1 nfa.numStates with
        epsilonTransitions :=
          add_to_bitset (getSt w1 nfa.numStates).epsilonTransitions sn } := by
    rw [hw3, getSt_add_epsilon_transition_ne _
      (show nfa.numStates ≠ tn by omega), hw2]
    have h' := getSt_add_epsilon_transition_self nfa.numStates (sn : Int)
      (show nfa.numStates < w1.states.length by rw [hw1len]; omega)
    rw [Int.toNat_natCast] at h'
    exact h'
  have hw3Deps : (getSt w3 nfa.numStates).epsilonTransitions =
      add_to_bitset 0 sn := by
    rw [hgw3Dful]
    show add_to_bitset (getSt w1 nfa.numStates).epsilonTransitions sn = _
    rw [hgw1D, hRD]
  have hw3Dend : (getSt w3 nfa.numStates).isEndState = false := by
    rw [hgw3Dful]
    show (getSt w1 nfa.numStates).isEndState = false
    rw [hgw1D, hRD]
  have hw3Aend : (getSt w3 (nfa.numStates + 1)).isEndState = true := by
    rw [hgw3A, hRA]
  have hw3Aout : (getSt w3 (nfa.numStates + 1)).outputValue = i := by
    rw [hgw3A, hRA]
  have hw3Aeps : (getSt w3 (nfa.numStates + 1)).epsilonTransitions = 0 := by
    rw [hgw3A, hRA]
  have hgw30ful : getSt w3 0 =
      { getSt R 0 with
        epsilonTransitions :=
          add_to_bitset (getSt R 0).epsilonTransitions nfa.numStates } := by
    rw [hw3, getSt_add_epsilon_transition_ne _ (show (0:Nat) ≠ tn by omega),
      hw2, getSt_add_epsilon_transition_ne _
        (show (0:Nat) ≠ nfa.numStates by omega),
      hw1]
    have h' := getSt_add_epsilon_transition_self 0 (nfa.numStates : Int)
      (show (0:Nat) < R.states.length by rw [hRlen]; omega)
    rw [Int.toNat_natCast] at h'
    exact h'
  have hgR0 : getSt R 0 = getSt nfa 0 := hfr 0 (by omega)
  have hgw3old : ∀ k, 0 < k → k < nfa.numStates → getSt w3 k = getSt nfa k := by
    intro k hk0 hk
    rw [hw3, getSt_add_epsilon_transition_ne _ (show k ≠ tn by omega),
      hw2, getSt_add_epsilon_transition_ne _ (show k ≠ nfa.numStates by omega),
      hw1, getSt_add_epsilon_transition_ne _ (show k ≠ 0 by omega)]
    exact hfr k hk
  have h0elim : ∀ m, epsIn w3 0 m → m = nfa.numStates ∨ epsIn nfa 0 m := by
    intro m h
    rw [epsIn, hgw30ful] at h
    have h2 : is_in_bitset
        (add_to_bitset (getSt R 0).epsilonTransitions nfa.numStates) m = true := h
    rcases mem_add_to_bitset_elim h2 with h3 | h3
    · exact Or.inl h3
    · right
      rw [hgR0] at h3
      exact h3
  have hw3_0c : epsIn w3 0 nfa.numStates := by
    rw [epsIn, hgw30ful]
    show is_in_bitset
      (add_to_bitset (getSt R 0).epsilonTransitions nfa.numStates)
      nfa.numStates = true
    exact mem_add_to_bitset_self _ (by omega)
  have h0of : ∀ m, epsIn nfa 0 m → epsIn w3 0 m := by
    intro m h
    rw [epsIn, hgw30ful]
    show is_in_bitset
      (add_to_bitset (getSt R 0).epsilonTransitions nfa.numStates) m = true
    refine mem_add_to_bitset_of_mem _ ?_
    rw [hgR0]
    exact h
  have hw3old_iff : ∀ k m, 0 < k → k < nfa.numStates →
      (epsIn w3 k m ↔ epsIn nfa k m) := by
    intro k m hk0 hk
    rw [epsIn, epsIn, hgw3old k hk0 hk]
  have hDiff : ∀ m, epsIn w3 nfa.numStates m → m = sn := by
    intro m h
    rw [epsIn, hw3Deps] at h
    rcases mem_add_to_bitset_elim h with h3 | h3
    · exact h3
    · rw [is_in_bitset_zero] at h3
      exact absurd h3 (by simp)
  have hAnone : ∀ m, ¬ epsIn w3 (nfa.numStates + 1) m := by
    intro m h
    rw [epsIn, hw3Aeps, is_in_bitset_zero] at h
    exact absurd h (by simp)
  have hw3elim : ∀ k m, epsIn w3 k m →
      (k = tn ∧ m = nfa.numStates + 1) ∨ (k = nfa.numStates ∧ m = sn) ∨
      (k = 0 ∧ m = nfa.numStates) ∨ epsIn R k m := by
    intro k m h
    rw [hw3] at h
    rcases epsIn_add_epsilon_transition_elim h with h' | h'
    · exact Or.inl h'
    rw [hw2] at h'
    rcases epsIn_add_epsilon_transition_elim h' with h'' | h''
    · exact Or.inr (Or.inl h'')
    rw [hw1] at h''
    rcases epsIn_add_epsilon_transition_elim h'' with h3 | h3
    · exact Or.inr (Or.inr (Or.inl h3))
    · exact Or.inr (Or.inr (Or.inr h3))
  have hw2_cs : epsIn w2 nfa.numStates sn := by
    rw [hw2]
    exact epsIn_add_epsilon_transition_self nfa.numStates sn
      (show nfa.numStates < w1.states.length by rw [hw1len]; omega) (by omega)
  have hw3_cs : epsIn w3 nfa.numStates sn := by
    rw [hw3]
    exact epsIn_add_epsilon_transition_of _ _ hw2_cs
  have hw3_t : epsIn w3 tn (nfa.numStates + 1) := by
    rw [hw3]
    exact epsIn_add_epsilon_transition_self tn (nfa.numStates + 1)
      (show tn < w2.states.length by rw [hw2len]; omega) (by omega)
  have hw3_of_R : ∀ k m, epsIn R k m → epsIn w3 k m := by
    intro k m h
    rw [hw3]
    refine epsIn_add_epsilon_transition_of _ _ ?_
    rw [hw2]
    refine epsIn_add_epsilon_transition_of _ _ ?_
    rw [hw1]
    exact epsIn_add_epsilon_transition_of _ _ h
  have hw3_of_nfa : ∀ k m, k < nfa.numStates → epsIn nfa k m → epsIn w3 k m :=
    fun k m hk h => hw3_of_R k m ((hiff k m hk).mpr h)
  refine ⟨hw3len, ?_, ?_, ?_, ?_, ?_, ?_, ?_, ?_⟩
  · -- ZeroBeyond
    have e1 : Evolves 0 R w1 := by
      rw [hw1]
      exact evolves_add_epsilon_transition (Nat.zero_le _) (by omega)
        (Nat.zero_le _) (by omega)
    have e2 : Evolves 0 w1 w2 := by
      rw [hw2]
      exact evolves_add_epsilon_transition (Nat.zero_le _)
        (show nfa.numStates < w1.numStates by omega) (Nat.zero_le _)
        (show sn < w1.numStates by omega)
    have e3 : Evolves 0 w2 w3 := by
      rw [hw3]
      exact evolves_add_epsilon_transition (Nat.zero_le _)
        (show tn < w2.numStates by omega) (Nat.zero_le _)
        (show nfa.numStates + 1 < w2.numStates by omega)
    exact (evolves_trans e1 (evolves_trans e2 e3)).2.2.2.1 hZR
  · -- capInv
    have hCR : capInv R := by
      rw [hR]
      refine capInv_convert fuel q1 e ?_
      rw [hq1]
      refine capInv_add_end_state i ?_
      rw [hp1]
      exact capInv_add_new_state hC
    rw [hw3]
    refine capInv_add_epsilon_transition _ _ ?_
    rw [hw2]
    refine capInv_add_epsilon_transition _ _ ?_
    rw [hw1]
    exact capInv_add_epsilon_transition _ _ hCR
  · -- numStates positive
    omega
  · -- per-branch bounds
    intro j hj
    by_cases hji : j = i
    · subst hji
      simp only [if_pos]
      refine ⟨by omega, by trivial, by omega, by omega, by omega, by omega,
        by omega⟩
    · simp only [if_neg hji]
      obtain ⟨ha1, ha2, ha3, ha4, ha5, ha6, ha7⟩ := hP j (by omega)
      exact ⟨ha1, ha2, ha3, ha4, ha5, ha6, by omega⟩
  · -- slice ordering
    intro j₁ j₂ h12 hj2
    by_cases hj2i : j₂ = i
    · rw [hj2i]
      simp only [if_pos, if_neg (show ¬ j₁ = i by omega)]
      have := (hP j₁ (by omega)).2.2.2.2.2.2
      omega
    · simp only [if_neg hj2i, if_neg (show ¬ j₁ = i by omega)]
      exact hO j₁ j₂ h12 (by omega)
  · -- state records
    intro j hj
    by_cases hji : j = i
    · subst hji
      simp only [if_pos]
      exact ⟨hw3Aend, hw3Aout, hw3Aeps, hw3Dend, hw3Deps⟩
    · simp only [if_neg hji]
      obtain ⟨ha1, ha2, ha3, ha4, ha5, ha6, ha7⟩ := hP j (by omega)
      have hgA : getSt w3 (A j) = getSt nfa (A j) :=
        hgw3old _ (by omega) (by omega)
      have hgD : getSt w3 (D j) = getSt nfa (D j) :=
        hgw3old _ (by omega) (by omega)
      rw [hgA, hgD]
      exact hS j (by omega)
  · -- wiring edges
    intro j hj
    by_cases hji : j = i
    · subst hji
      simp only [if_pos]
      exact ⟨hw3_0c, hw3_cs, hw3_t⟩
    · simp only [if_neg hji]
      obtain ⟨ha1, ha2, ha3, ha4, ha5, ha6, ha7⟩ := hP j (by omega)
      obtain ⟨hwa, hwb, hwc⟩ := hW j (by omega)
      exact ⟨h0of _ hwa, hw3_of_nfa _ _ (by omega) hwb,
        hw3_of_nfa _ _ (by omega) hwc⟩
  · -- ε-edge characterization
    intro k m h
    rcases hw3elim k m h with ⟨hk, hm⟩ | ⟨hk, hm⟩ | ⟨hk, hm⟩ | hRkm
    · right; right; left
      refine ⟨i, by omega, ?_, ?_⟩
      · simp only [if_pos]
        exact hk
      · simp only [if_pos]
        exact hm
    · right; left
      refine ⟨i, by omega, ?_, ?_⟩
      · simp only [if_pos]
        exact hk
      · simp only [if_pos]
        exact hm
    · left
      refine ⟨hk, i, by omega, ?_⟩
      simp only [if_pos]
      exact hm
    · by_cases hklt : k < nfa.numStates
      · have h' := (hiff k m hklt).mp hRkm
        rcases hX k m h' with ⟨hk0, j, hji, hm⟩ | ⟨j, hji, hkj, hmj⟩ |
          ⟨j, hji, hkj, hmj⟩ | ⟨j, hji, hc1, hc2, hc3, hc4⟩
        · left
          refine ⟨hk0, j, by omega, ?_⟩
          simp only [if_neg (show ¬ j = i by omega)]
          exact hm
        · right; left
          refine ⟨j, by omega, ?_, ?_⟩ <;>
            simp only [if_neg (show ¬ j = i by omega)]
          · exact hkj
          · exact hmj
        · right; right; left
          refine ⟨j, by omega, ?_, ?_⟩ <;>
            simp only [if_neg (show ¬ j = i by omega)]
          · exact hkj
          · exact hmj
        · right; right; right
          refine ⟨j, by omega, ?_, ?_, ?_, ?_⟩ <;>
            simp only [if_neg (show ¬ j = i by omega)]
          · exact hc1
          · exact hc2
          · exact hc3
          · exact hc4
      · by_cases hk2 : k < nfa.numStates + 2
        · exfalso
          have hk' : k = nfa.numStates ∨ k = nfa.numStates + 1 := by omega
          rcases hk' with hk' | hk' <;> subst hk'
          · exact hRDeps m hRkm
          · exact hRAeps m hRkm
        · by_cases hkR : k < R.numStates
          · obtain ⟨hm1, hm2⟩ := hbody k m (by omega) hRkm
            right; right; right
            refine ⟨i, by omega, ?_, ?_, ?_, ?_⟩ <;> simp only [if_pos] <;>
              omega
          · exfalso
            rw [epsIn, hZR k (by omega)] at hRkm
            have h2 : is_in_bitset 0 m = true := hRkm
            rw [is_in_bitset_zero] at h2
            exact absurd h2 (by simp)

theorem combinedLoop_numStates_bound (rec : Nfa → RegExp → Nfa × Int × Int)
    (hrec : ∀ n x, n.numStates ≤ (rec n x).1.numStates) (s : Int)
    (es : List RegExp) :
    ∀ (nfa : Nfa) (i : Nat) (b : Nat),
      (combinedLoop rec s nfa i es).numStates ≤ b → nfa.numStates ≤ b :=
  fun nfa i b h =>
    Nat.le_trans (combinedLoop_numStates_mono rec hrec s es nfa i) h

/-- Running the `generate_combined_nfa` loop on well-formed expressions
extends the wiring invariant to all the branches it processes, provided
the finished NFA ran out of neither fuel nor capacity. -/
theorem combinedLoop_wired (fuel : Nat) (es : List RegExp) :
    ∀ (nfa : Nfa) (i : Nat)
      (D A entry exB endB : Nat → Nat),
      (∀ e ∈ es, WfRegExp e) →
      CombinedInv i nfa D A entry exB endB →
      (combinedLoop (fun n x => convert fuel n x) ((0 : Nat) : Int)
        nfa i es).fuelOk = true →
      (combinedLoop (fun n x => convert fuel n x) ((0 : Nat) : Int)
        nfa i es).numStates ≤ 63 →
      ∃ D' A' entry' exB' endB' : Nat → Nat,
        CombinedInv (i + es.length)
          (combinedLoop (fun n x => convert fuel n x) ((0 : Nat) : Int)
            nfa i es) D' A' entry' exB' endB' := by
  induction es with
  | nil =>
      intro nfa i D A entry exB endB hwf hInv hok h63
      exact ⟨D, A, entry, exB, endB, hInv⟩
  | cons e rest ih =>
      intro nfa i D A entry exB endB hwf hInv hok h63
      rw [combinedLoop_convert_cons_eq, add_new_state_snd, add_end_state_snd,
        add_new_state_fst_numStates] at hok h63 ⊢
      have hokr : (convert fuel (add_end_state (add_new_state nfa).1 i).1
          e).1.fuelOk = true := by
        have h' := combinedLoop_fuelOk_sticky _
          (fun n x => convert_fuelOk_sticky fuel x n) _ rest _ _ hok
        rw [add_epsilon_transition_fuelOk, add_epsilon_transition_fuelOk,
          add_epsilon_transition_fuelOk] at h'
        exact h'
      have h63r : (convert fuel (add_end_state (add_new_state nfa).1 i).1
          e).1.numStates ≤ 63 := by
        have h' := combinedLoop_numStates_bound _
          (fun n x => convert_numStates_mono fuel x n) _ rest _ _ _ h63
        rw [add_epsilon_transition_numStates, add_epsilon_transition_numStates,
          add_epsilon_transition_numStates] at h'
        exact h'
      obtain ⟨hev, hout⟩ := convert_spec fuel e
        (add_end_state (add_new_state nfa).1 i).1 (hwf e (by simp)) hokr
      obtain ⟨sn, tn, hsn, htn, hb1, hb2, hb3, hb4⟩ := hout
      rw [hsn, htn] at hok h63 ⊢
      have hstep := combinedInv_step fuel nfa i D A entry exB endB e sn tn
        (hwf e (by simp)) hInv hokr h63r hsn htn
      obtain ⟨D', A', entry', exB', endB', hfin⟩ :=
        ih _ (i+1) _ _ _ _ _ (fun x hx => hwf x (by simp [hx])) hstep hok h63
      refine ⟨D', A', entry', exB', endB', ?_⟩
      have hidx : i + (e :: rest).length = (i + 1) + rest.length := by
        rw [List.length_cons]
        omega
      rw [hidx]
      exact hfin

/-- Two branch slices that share a state are the same branch. -/
theorem combinedInv_mem_slice (n : Nat) (N : Nfa)
    (D A entry exB endB : Nat → Nat)
    (h : CombinedInv n N D A entry exB endB) :
    ∀ i j x, i < n → j < n → D i ≤ x → x < endB i → D j ≤ x → x < endB j →
      i = j := by
  intro i j x hi hj h1 h2 h3 h4
  by_contra hne
  have hp1 := h.2.2.2.2.1 i hi
  have hp2 := h.2.2.2.2.1 j hj
  rcases Nat.lt_trichotomy i j with h' | h' | h'
  · have := h.2.2.2.2.2.1 i j h' hj
    omega
  · exact hne h'
  · have := h.2.2.2.2.2.1 j i h' hi
    omega

/-- The exactness consequences of the loop invariant: positions,
distinctness, state records, the three wiring edges of every branch,
and the fact that they are the only ε-edges touching the dispatch and
accepting states. -/
theorem combinedInv_exact (n : Nat) (N : Nfa)
    (D A entry exB endB : Nat → Nat)
    (h : CombinedInv n N D A entry exB endB) :
    (∀ i, i < n → 1 ≤ D i ∧ A i = D i + 1 ∧ A i < N.numStates) ∧
    (∀ i j, i < n → j < n → i ≠ j →
      D i ≠ D j ∧ A i ≠ A j ∧ D i ≠ A j) ∧
    (∀ i, i < n → (getSt N (A i)).isEndState = true ∧
      (getSt N (A i)).outputValue = i ∧
      (getSt N (D i)).isEndState = false) ∧
    (∀ i, i < n → epsIn N 0 (D i) ∧ epsIn N (D i) (entry i) ∧
      epsIn N (exB i) (A i)) ∧
    (∀ m, epsIn N 0 m ↔ ∃ i, i < n ∧ m = D i) ∧
    (∀ i, i < n → ∀ m, epsIn N (D i) m → m = entry i) ∧
    (∀ i, i < n → ∀ m, ¬ epsIn N (A i) m) ∧
    (∀ i, i < n → ∀ k, epsIn N k (D i) → k = 0) ∧
    (∀ i, i < n → ∀ k, epsIn N k (A i) → k = exB i) := by
  obtain ⟨hL, hZ, hC, h1, hP, hO, hS, hW, hX⟩ := h
  have hslice := combinedInv_mem_slice n N D A entry exB endB
    ⟨hL, hZ, hC, h1, hP, hO, hS, hW, hX⟩
  refine ⟨?_, ?_, ?_, hW, ?_, ?_, ?_, ?_, ?_⟩
  · intro i hi
    have hp := hP i hi
    refine ⟨by omega, by omega, by omega⟩
  · intro i j hi hj hij
    have hp1 := hP i hi
    have hp2 := hP j hj
    rcases Nat.lt_or_gt_of_ne hij with hlt | hgt
    · have ho := hO i j hlt hj
      omega
    · have ho := hO j i hgt hi
      omega
  · intro i hi
    have hs := hS i hi
    exact ⟨hs.1, hs.2.1, hs.2.2.2.1⟩
  · intro m
    constructor
    · intro hm
      rcases hX 0 m hm with ⟨_, j, hj, hmD⟩ | ⟨j, hj, h0D, _⟩ |
        ⟨j, hj, h0x, _⟩ | ⟨j, hj, hc1, _, _, _⟩
      · exact ⟨j, hj, hmD⟩
      · exfalso
        have := hP j hj
        omega
      · exfalso
        have := hP j hj
        omega
      · exfalso
        have := hP j hj
        omega
    · rintro ⟨j, hj, hm⟩
      subst hm
      exact (hW j hj).1
  · intro i hi m hm
    rw [epsIn, (hS i hi).2.2.2.2] at hm
    rcases mem_add_to_bitset_elim hm with h' | h'
    · exact h'
    · rw [is_in_bitset_zero] at h'
      exact absurd h' (by simp)
  · intro i hi m hm
    rw [epsIn, (hS i hi).2.2.1, is_in_bitset_zero] at hm
    exact absurd hm (by simp)
  · intro i hi k hk
    have hp := hP i hi
    rcases hX k (D i) hk with ⟨hk0, _⟩ | ⟨j, hj, hkD, hDe⟩ |
      ⟨j, hj, hkx, hDA⟩ | ⟨j, hj, hc1, hc2, hc3, hc4⟩
    · exact hk0
    · exfalso
      have hp2 := hP j hj
      have hij := hslice i j (D i) hi hj (by omega) (by omega) (by omega)
        (by omega)
      subst hij
      omega
    · exfalso
      have hp2 := hP j hj
      have hij := hslice i j (D i) hi hj (by omega) (by omega) (by omega)
        (by omega)
      subst hij
      omega
    · exfalso
      have hp2 := hP j hj
      have hij := hslice i j (D i) hi hj (by omega) (by omega) (by omega)
        (by omega)
      subst hij
      omega
  · intro i hi k hk
    have hp := hP i hi
    rcases hX k (A i) hk with ⟨hk0, j, hj, hAD⟩ | ⟨j, hj, hkD, hAe⟩ |
      ⟨j, hj, hkx, hAA⟩ | ⟨j, hj, hc1, hc2, hc3, hc4⟩
    · exfalso
      have hp2 := hP j hj
      have hij := hslice i j (A i) hi hj (by omega) (by omega) (by omega)
        (by omega)
      subst hij
      omega
    · exfalso
      have hp2 := hP j hj
      have hij := hslice i j (A i) hi hj (by omega) (by omega) (by omega)
        (by omega)
      subst hij
      omega
    · have hp2 := hP j hj
      have hij := hslice i j (A i) hi hj (by omega) (by omega) (by omega)
        (by omega)
      subst hij
      omega
    · exfalso
      have hp2 := hP j hj
      have hij := hslice i j (A i) hi hj (by omega) (by omega) (by omega)
        (by omega)
      subst hij
      omega

/-- C4: for every list of well-formed ASTs converted within the fuel
and capacity bounds, `generate_combined_nfa` builds an NFA whose start
state is index 0, and for each branch `i` there are a distinct
dispatch state `D i` and accepting state `A i` with output value `i`
such that the only ε-edges wiring branch `i` are `0 → D i`,
`D i → entry i` (the body entry) and `exB i → A i` (from the body
exit). -/
theorem c4_combined_wiring (fuel : Nat) (es : List RegExp)
    (hwf : ∀ e ∈ es, WfRegExp e)
    (hok : (generate_combined_nfa fuel es).fuelOk = true)
    (hbad : (generate_combined_nfa fuel es).bad = false) :
    0 < (generate_combined_nfa fuel es).numStates ∧
    ∃ D A entry exB : Nat → Nat,
      (∀ i, i < es.length → 1 ≤ D i ∧ A i = D i + 1 ∧
        A i < (generate_combined_nfa fuel es).numStates) ∧
      (∀ i j, i < es.length → j < es.length → i ≠ j →
        D i ≠ D j ∧ A i ≠ A j ∧ D i ≠ A j) ∧
      (∀ i, i < es.length →
        (getSt (generate_combined_nfa fuel es) (A i)).isEndState = true ∧
        (getSt (generate_combined_nfa fuel es) (A i)).outputValue = i ∧
        (getSt (generate_combined_nfa fuel es) (D i)).isEndState = false) ∧
      (∀ i, i < es.length →
        epsIn (generate_combined_nfa fuel es) 0 (D i) ∧
        epsIn (generate_combined_nfa fuel es) (D i) (entry i) ∧
        epsIn (generate_combined_nfa fuel es) (exB i) (A i)) ∧
      (∀ m, epsIn (generate_combined_nfa fuel es) 0 m ↔
        ∃ i, i < es.length ∧ m = D i) ∧
      (∀ i, i < es.length → ∀ m,
        epsIn (generate_combined_nfa fuel es) (D i) m → m = entry i) ∧
      (∀ i, i < es.length → ∀ m,
        ¬ epsIn (generate_combined_nfa fuel es) (A i) m) ∧
      (∀ i, i < es.length → ∀ k,
        epsIn (generate_combined_nfa fuel es) k (D i) → k = 0) ∧
      (∀ i, i < es.length → ∀ k,
        epsIn (generate_combined_nfa fuel es) k (A i) → k = exB i) := by
  have hcap : capInv (generate_combined_nfa fuel es) := by
    rw [generate_combined_nfa_eq]
    exact capInv_combinedLoop _ (fun n x => capInv_convert fuel n x) _ es _ 0
      capInv_startNfa
  have h63 : (generate_combined_nfa fuel es).numStates ≤ 63 := by
    rw [capInv, hbad] at hcap
    have h3 := of_decide_eq_false hcap.symm
    have h4 : MAX_NUM_NFA_STATES = 64 := rfl
    omega
  rw [generate_combined_nfa_eq] at hok h63 ⊢
  obtain ⟨D, A, entry, exB, endB, hfin⟩ := combinedLoop_wired fuel es startNfa 0
    (fun _ => 0) (fun _ => 0) (fun _ => 0) (fun _ => 0) (fun _ => 0) hwf
    (combinedInv_startNfa (fun _ => 0)) hok h63
  rw [Nat.zero_add] at hfin
  obtain ⟨hx1, hx2, hx3, hx4, hx5, hx6, hx7, hx8, hx9⟩ :=
    combinedInv_exact es.length _ D A entry exB endB hfin
  refine ⟨?_, D, A, entry, exB, hx1, hx2, hx3, hx4, hx5, hx6, hx7, hx8, hx9⟩
  have := hfin.2.2.2.1
  omega

/-- Witness for C4 at the concrete input `["a"]`. -/
theorem c4_combined_wiring_witness :
    (generate_combined_nfa 8 [RegExp.string ['a']]).fuelOk = true ∧
    (generate_combined_nfa 8 [RegExp.string ['a']]).bad = false ∧
    (0 < (generate_combined_nfa 8 [RegExp.string ['a']]).numStates ∧
    ∃ D A entry exB : Nat → Nat,
      (∀ i, i < 1 → 1 ≤ D i ∧ A i = D i + 1 ∧
        A i < (generate_combined_nfa 8 [RegExp.string ['a']]).numStates) ∧
      (∀ i j, i < 1 → j < 1 → i ≠ j →
        D i ≠ D j ∧ A i ≠ A j ∧ D i ≠ A j) ∧
      (∀ i, i < 1 →
        (getSt (generate_combined_nfa 8 [RegExp.string ['a']])
          (A i)).isEndState = true ∧
        (getSt (generate_combined_nfa 8 [RegExp.string ['a']])
          (A i)).outputValue = i ∧
        (getSt (generate_combined_nfa 8 [RegExp.string ['a']])
          (D i)).isEndState = false) ∧
      (∀ i, i < 1 →
        epsIn (generate_combined_nfa 8 [RegExp.string ['a']]) 0 (D i) ∧
        epsIn (generate_combined_nfa 8 [RegExp.string ['a']]) (D i)
          (entry i) ∧
        epsIn (generate_combined_nfa 8 [RegExp.string ['a']]) (exB i)
          (A i)) ∧
      (∀ m, epsIn (generate_combined_nfa 8 [RegExp.string ['a']]) 0 m ↔
        ∃ i, i < 1 ∧ m = D i) ∧
      (∀ i, i < 1 → ∀ m,
        epsIn (generate_combined_nfa 8 [RegExp.string ['a']]) (D i) m →
          m = entry i) ∧
      (∀ i, i < 1 → ∀ m,
        ¬ epsIn (generate_combined_nfa 8 [RegExp.string ['a']]) (A i) m) ∧
      (∀ i, i < 1 → ∀ k,
        epsIn (generate_combined_nfa 8 [RegExp.string ['a']]) k (D i) →
          k = 0) ∧
      (∀ i, i < 1 → ∀ k,
        epsIn (generate_combined_nfa 8 [RegExp.string ['a']]) k (A i) →
          k = exB i)) :=
  ⟨by decide, by decide,
    c4_combined_wiring 8 [RegExp.string ['a']]
      (fun e he => by
        rw [List.mem_singleton] at he
        subst he
        exact WfRegExp.string ['a'] (by simp))
      (by decide) (by decide)⟩

/-! ## DFA states and `optimize_dfa` (`dfa.c`)

`DfaStateS`/`DfaS` from `dfa.h`: 256 character transitions per state
(`NO_STATE` = -1 meaning none), at most 64 states.  The C loops are
modelled as fuel-indexed recursions; the fuel adequate for every input
is computed at each call site and a sticky `ok` flag records whether
any loop ran out of fuel, so that claim C6 (termination) is the
statement that the flags are always `true`. -/

def MAX_NUM_DFA_STATES : Nat := 64

structure DfaState where
  isEndState : Bool
  outputValue : Nat
  transitions : List Int
deriving DecidableEq

def DfaState.zero : DfaState :=
  ⟨false, 0, List.replicate NUM_CHARS 0⟩

structure Dfa where
  numStates : Nat
  states : List DfaState
deriving DecidableEq

/-- The transition-comparison loop of `dfa_state_is_equal`. -/
def dfa_trans_eq_loop (s1 s2 : DfaState) : Nat → Nat → Bool
  | _, 0 => true
  | i, n+1 =>
      if s1.transitions.getD i NO_STATE != s2.transitions.getD i NO_STATE
      then false
      else dfa_trans_eq_loop s1 s2 (i+1) n

/-- `dfa_state_is_equal` from `dfa.c`. -/
def dfa_state_is_equal (s1 s2 : DfaState) : Bool :=
  if s1.isEndState != s2.isEndState || s1.outputValue != s2.outputValue
  then false
  else dfa_trans_eq_loop s1 s2 0 NUM_CHARS

/-- Write through a state pointer `&(dfa_p->states[i])`. -/
def updateDfaState (dfa : Dfa) (i : Nat) (f : DfaState → DfaState) : Dfa :=
  { dfa with states := dfa.states.set i (f (dfa.states.getD i DfaState.zero)) }

/-- Inner loop of `join_equal_dfa_states`: redirect one state's
transitions (`stateIdx2 → stateIdx1`, `lastStateIdx → stateIdx2`). -/
def joinCharLoop (s1 s2 last : Int) : List Int → Nat → Nat → List Int
  | ts, _, 0 => ts
  | ts, j, n+1 =>
      let v := ts.getD j NO_STATE
      let ts := if v == s2 then ts.set j s1
                else if v == last then ts.set j s2
                else ts
      joinCharLoop s1 s2 last ts (j+1) n

/-- Outer loop of `join_equal_dfa_states` over all current states. -/
def joinStateLoop (s1 s2 last : Int) : Dfa → Nat → Nat → Dfa
  | dfa, _, 0 => dfa
  | dfa, i, n+1 =>
      joinStateLoop s1 s2 last
        (updateDfaState dfa i fun st =>
          { st with
            transitions := joinCharLoop s1 s2 last st.transitions 0 NUM_CHARS })
        (i+1) n

/-- `join_equal_dfa_states` from `dfa.c`: redirect transitions, copy
the last state into slot `stateIdx2`, and drop the last state. -/
def join_equal_dfa_states (dfa : Dfa) (stateIdx1 stateIdx2 : Nat) : Dfa :=
  let lastStateIdx := dfa.numStates - 1
  let d1 := joinStateLoop (stateIdx1 : Int) (stateIdx2 : Int)
    (lastStateIdx : Int) dfa 0 dfa.numStates
  let d2 := { d1 with
    states := d1.states.set stateIdx2 (d1.states.getD lastStateIdx
      DfaState.zero) }
  { d2 with numStates := d2.numStates - 1 }

/-- The `j` loop of `optimize_dfa`; after a merge `j` is left in place
(the C code does `j--` and the `for` increments it back). -/
def jLoop : Nat → Dfa → Nat → Nat → Bool → Dfa × Bool × Bool
  | 0, dfa, _, _, changed => (dfa, changed, false)
  | fuel+1, dfa, i, j, changed =>
      if j < dfa.numStates then
        if dfa_state_is_equal (dfa.states.getD i DfaState.zero)
            (dfa.states.getD j DfaState.zero) then
          jLoop fuel (join_equal_dfa_states dfa i j) i j true
        else
          jLoop fuel dfa i (j+1) changed
      else (dfa, changed, true)

/-- The `i` loop of `optimize_dfa`. -/
def iLoop : Nat → Dfa → Nat → Bool → Dfa × Bool × Bool
  | 0, dfa, _, changed => (dfa, changed, false)
  | fuel+1, dfa, i, changed =>
      if i < dfa.numStates then
        let r := jLoop (dfa.numStates + 1) dfa i (i+1) changed
        let r2 := iLoop fuel r.1 (i+1) r.2.1
        (r2.1, r2.2.1, r.2.2 && r2.2.2)
      else (dfa, changed, true)

/-- One full pass of the `do`/`while` body, starting from
`hasChanged = false`. -/
def optimize_pass (dfa : Dfa) : Dfa × Bool × Bool :=
  iLoop (dfa.numStates + 1) dfa 0 false

/-- The `do`/`while (hasChanged)` loop of `optimize_dfa`. -/
def optimizeLoop : Nat → Dfa → Dfa × Bool
  | 0, dfa => (dfa, false)
  | fuel+1, dfa =>
      let r := optimize_pass dfa
      if r.2.1 then
        let r2 := optimizeLoop fuel r.1
        (r2.1, r.2.2 && r2.2)
      else (r.1, r.2.2)

/-- `optimize_dfa` from `dfa.c` (the Boolean reports that no loop ran
out of fuel; `numStates + 1` passes always suffice). -/
def optimize_dfa (dfa : Dfa) : Dfa × Bool :=
  optimizeLoop (dfa.numStates + 1) dfa

theorem joinStateLoop_numStates (s1 s2 last : Int) (n : Nat) :
    ∀ (dfa : Dfa) (i : Nat),
      (joinStateLoop s1 s2 last dfa i n).numStates = dfa.numStates := by
  induction n with
  | zero => intro dfa i; rfl
  | succ m ih =>
      intro dfa i
      show (joinStateLoop s1 s2 last _ (i+1) m).numStates = _
      rw [ih]
      rfl

theorem join_equal_dfa_states_numStates (dfa : Dfa) (i j : Nat) :
    (join_equal_dfa_states dfa i j).numStates = dfa.numStates - 1 := by
  show (joinStateLoop (i : Int) (j : Int) ((dfa.numStates - 1 : Nat) : Int)
    dfa 0 dfa.numStates).numStates - 1 = _
  rw [joinStateLoop_numStates]

theorem jLoop_succ_eq (fuel : Nat) (dfa : Dfa) (i j : Nat) (c : Bool) :
    jLoop (fuel+1) dfa i j c =
      if j < dfa.numStates then
        if dfa_state_is_equal (dfa.states.getD i DfaState.zero)
            (dfa.states.getD j DfaState.zero) then
          jLoop fuel (join_equal_dfa_states dfa i j) i j true
        else jLoop fuel dfa i (j+1) c
      else (dfa, c, true) := rfl

theorem iLoop_succ_eq (fuel : Nat) (dfa : Dfa) (i : Nat) (c : Bool) :
    iLoop (fuel+1) dfa i c =
      if i < dfa.numStates then
        ((iLoop fuel (jLoop (dfa.numStates + 1) dfa i (i+1) c).1 (i+1)
            (jLoop (dfa.numStates + 1) dfa i (i+1) c).2.1).1,
         (iLoop fuel (jLoop (dfa.numStates + 1) dfa i (i+1) c).1 (i+1)
            (jLoop (dfa.numStates + 1) dfa i (i+1) c).2.1).2.1,
         (jLoop (dfa.numStates + 1) dfa i (i+1) c).2.2 &&
           (iLoop fuel (jLoop (dfa.numStates + 1) dfa i (i+1) c).1 (i+1)
             (jLoop (dfa.numStates + 1) dfa i (i+1) c).2.1).2.2)
      else (dfa, c, true) := rfl

theorem optimizeLoop_succ_eq (fuel : Nat) (dfa : Dfa) :
    optimizeLoop (fuel+1) dfa =
      if (optimize_pass dfa).2.1 then
        ((optimizeLoop fuel (optimize_pass dfa).1).1,
         (optimize_pass dfa).2.2 &&
           (optimizeLoop fuel (optimize_pass dfa).1).2)
      else ((optimize_pass dfa).1, (optimize_pass dfa).2.2) := rfl

/-- Either the `j` loop performed no merge and returned its input, or
it merged at least once and the state count strictly decreased. -/
theorem jLoop_spec (fuel : Nat) :
    ∀ (dfa : Dfa) (i j : Nat) (c : Bool),
      ((jLoop fuel dfa i j c).1 = dfa ∧ (jLoop fuel dfa i j c).2.1 = c) ∨
      ((jLoop fuel dfa i j c).1.numStates < dfa.numStates ∧
        (jLoop fuel dfa i j c).2.1 = true) := by
  induction fuel with
  | zero => intro dfa i j c; exact Or.inl ⟨rfl, rfl⟩
  | succ fuel ih =>
      intro dfa i j c
      rw [jLoop_succ_eq]
      by_cases hj : j < dfa.numStates
      · rw [if_pos hj]
        by_cases heq : dfa_state_is_equal (dfa.states.getD i DfaState.zero)
            (dfa.states.getD j DfaState.zero) = true
        · rw [if_pos heq]
          rcases ih (join_equal_dfa_states dfa i j) i j true with ⟨h1, h2⟩ |
            ⟨h1, h2⟩
          · right
            rw [h1, h2, join_equal_dfa_states_numStates]
            exact ⟨by omega, rfl⟩
          · right
            rw [join_equal_dfa_states_numStates] at h1
            exact ⟨by omega, h2⟩
        · rw [if_neg heq]
          exact ih dfa i (j+1) c
      · rw [if_neg hj]
        exact Or.inl ⟨rfl, rfl⟩

/-- With `numStates - j` units of fuel to spare the `j` loop finishes. -/
theorem jLoop_ok (fuel : Nat) :
    ∀ (dfa : Dfa) (i j : Nat) (c : Bool),
      dfa.numStates + 1 ≤ fuel + j → 1 ≤ fuel →
      (jLoop fuel dfa i j c).2.2 = true := by
  induction fuel with
  | zero =>
      intro dfa i j c h h1
      omega
  | succ fuel ih =>
      intro dfa i j c h h1
      rw [jLoop_succ_eq]
      by_cases hj : j < dfa.numStates
      · rw [if_pos hj]
        by_cases heq : dfa_state_is_equal (dfa.states.getD i DfaState.zero)
            (dfa.states.getD j DfaState.zero) = true
        · rw [if_pos heq]
          refine ih _ i j true ?_ (by omega)
          rw [join_equal_dfa_states_numStates]
          omega
        · rw [if_neg heq]
          exact ih dfa i (j+1) c (by omega) (by omega)
      · rw [if_neg hj]

/-- Either the `i` loop performed no merge and returned its input, or
it merged at least once and the state count strictly decreased. -/
theorem iLoop_spec (fuel : Nat) :
    ∀ (dfa : Dfa) (i : Nat) (c : Bool),
      ((iLoop fuel dfa i c).1 = dfa ∧ (iLoop fuel dfa i c).2.1 = c) ∨
      ((iLoop fuel dfa i c).1.numStates < dfa.numStates ∧
        (iLoop fuel dfa i c).2.1 = true) := by
  induction fuel with
  | zero => intro dfa i c; exact Or.inl ⟨rfl, rfl⟩
  | succ fuel ih =>
      intro dfa i c
      rw [iLoop_succ_eq]
      by_cases hi : i < dfa.numStates
      · rw [if_pos hi]
        rcases jLoop_spec (dfa.numStates + 1) dfa i (i+1) c with ⟨h1, h2⟩ |
          ⟨h1, h2⟩
        · rw [h1, h2]
          rcases ih dfa (i+1) c with ⟨g1, g2⟩ | ⟨g1, g2⟩
          · left
            rw [g1, g2]
            exact ⟨rfl, rfl⟩
          · right
            rw [g2]
            exact ⟨g1, rfl⟩
        · rcases ih (jLoop (dfa.numStates + 1) dfa i (i+1) c).1 (i+1)
            (jLoop (dfa.numStates + 1) dfa i (i+1) c).2.1 with ⟨g1, g2⟩ |
            ⟨g1, g2⟩
          · right
            rw [g1, g2, h2]
            exact ⟨h1, rfl⟩
          · right
            rw [g2]
            refine ⟨?_, rfl⟩
            show (iLoop fuel (jLoop (dfa.numStates + 1) dfa i (i+1) c).1 (i+1)
              (jLoop (dfa.numStates + 1) dfa i (i+1) c).2.1).1.numStates <
              dfa.numStates
            omega
      · rw [if_neg hi]
        exact Or.inl ⟨rfl, rfl⟩

/-- With `numStates - i` units of fuel to spare the `i` loop finishes,
and so do all its inner `j` loops. -/
theorem iLoop_ok (fuel : Nat) :
    ∀ (dfa : Dfa) (i : Nat) (c : Bool),
      dfa.numStates + 1 ≤ fuel + i → 1 ≤ fuel →
      (iLoop fuel dfa i c).2.2 = true := by
  induction fuel with
  | zero =>
      intro dfa i c h h1
      omega
  | succ fuel ih =>
      intro dfa i c h h1
      rw [iLoop_succ_eq]
      by_cases hi : i < dfa.numStates
      · rw [if_pos hi]
        show (_ && _) = true
        rw [Bool.and_eq_true]
        constructor
        · exact jLoop_ok (dfa.numStates + 1) dfa i (i+1) c (by omega) (by omega)
        · refine ih _ (i+1) _ ?_ (by omega)
          rcases jLoop_spec (dfa.numStates + 1) dfa i (i+1) c with ⟨g1, _⟩ |
            ⟨g1, _⟩
          · rw [g1]; omega
          · omega
      · rw [if_neg hi]

/-- With `numStates + 1` passes to spare the outer `do`/`while`
finishes. -/
theorem optimizeLoop_ok (fuel : Nat) :
    ∀ (dfa : Dfa), dfa.numStates < fuel → (optimizeLoop fuel dfa).2 = true := by
  induction fuel with
  | zero =>
      intro dfa h
      omega
  | succ fuel ih =>
      intro dfa h
      rw [optimizeLoop_succ_eq]
      by_cases hch : (optimize_pass dfa).2.1 = true
      · rw [if_pos hch]
        show (_ && _) = true
        rw [Bool.and_eq_true]
        constructor
        · exact iLoop_ok (dfa.numStates + 1) dfa 0 false (by omega) (by omega)
        · refine ih _ ?_
          rcases iLoop_spec (dfa.numStates + 1) dfa 0 false with ⟨_, h2⟩ |
            ⟨h1, _⟩
          · have hch2 : (iLoop (dfa.numStates + 1) dfa 0 false).2.1 = true :=
              hch
            rw [hch2] at h2
            exact absurd h2.symm (by simp)
          · have h1b : (optimize_pass dfa).1.numStates < dfa.numStates := h1
            omega
      · rw [if_neg hch]
        exact iLoop_ok (dfa.numStates + 1) dfa 0 false (by omega) (by omega)

/-- A `j` loop run that reports no merge leaves the DFA unchanged and
certifies that state `i` equals none of the states from `j` on. -/
theorem jLoop_clean (fuel : Nat) :
    ∀ (dfa : Dfa) (i j : Nat),
      (jLoop fuel dfa i j false).2.1 = false →
      (jLoop fuel dfa i j false).2.2 = true →
      (jLoop fuel dfa i j false).1 = dfa ∧
      ∀ j', j ≤ j' → j' < dfa.numStates →
        dfa_state_is_equal (dfa.states.getD i DfaState.zero)
          (dfa.states.getD j' DfaState.zero) = false := by
  induction fuel with
  | zero =>
      intro dfa i j hch hok
      have h0 : (false : Bool) = true := hok
      exact absurd h0 (by simp)
  | succ fuel ih =>
      intro dfa i j hch hok
      rw [jLoop_succ_eq] at hch hok ⊢
      by_cases hj : j < dfa.numStates
      · rw [if_pos hj] at hch hok ⊢
        by_cases heq : dfa_state_is_equal (dfa.states.getD i DfaState.zero)
            (dfa.states.getD j DfaState.zero) = true
        · rw [if_pos heq] at hch
          rcases jLoop_spec fuel (join_equal_dfa_states dfa i j) i j true with
            ⟨_, h2⟩ | ⟨_, h2⟩ <;> rw [h2] at hch <;> exact absurd hch (by simp)
        · rw [if_neg heq] at hch hok ⊢
          obtain ⟨hd, hall⟩ := ih dfa i (j+1) hch hok
          refine ⟨hd, ?_⟩
          intro j' hjj hjn
          rcases Nat.eq_or_lt_of_le hjj with hje | hjl
          · rw [← hje]
            rcases Bool.eq_false_or_eq_true (dfa_state_is_equal
              (dfa.states.getD i DfaState.zero)
              (dfa.states.getD j DfaState.zero)) with hb | hb
            · exact absurd hb heq
            · exact hb
          · exact hall j' hjl hjn
      · rw [if_neg hj] at hch hok ⊢
        refine ⟨rfl, ?_⟩
        intro j' hjj hjn
        omega

/-- An `i` loop run that reports no merge leaves the DFA unchanged and
certifies that no two states from `i` on compare equal. -/
theorem iLoop_clean (fuel : Nat) :
    ∀ (dfa : Dfa) (i : Nat),
      (iLoop fuel dfa i false).2.1 = false →
      (iLoop fuel dfa i false).2.2 = true →
      (iLoop fuel dfa i false).1 = dfa ∧
      ∀ i' j', i ≤ i' → i' < j' → j' < dfa.numStates →
        dfa_state_is_equal (dfa.states.getD i' DfaState.zero)
          (dfa.states.getD j' DfaState.zero) = false := by
  induction fuel with
  | zero =>
      intro dfa i hch hok
      have h0 : (false : Bool) = true := hok
      exact absurd h0 (by simp)
  | succ fuel ih =>
      intro dfa i hch hok
      rw [iLoop_succ_eq] at hch hok ⊢
      by_cases hi : i < dfa.numStates
      · rw [if_pos hi] at hch hok ⊢
        have hch2 : (iLoop fuel (jLoop (dfa.numStates + 1) dfa i (i+1)
            false).1 (i+1)
            (jLoop (dfa.numStates + 1) dfa i (i+1) false).2.1).2.1 = false :=
          hch
        have hok2 : ((jLoop (dfa.numStates + 1) dfa i (i+1) false).2.2 &&
            (iLoop fuel (jLoop (dfa.numStates + 1) dfa i (i+1) false).1 (i+1)
              (jLoop (dfa.numStates + 1) dfa i (i+1) false).2.1).2.2) = true :=
          hok
        rw [Bool.and_eq_true] at hok2
        have hjc : (jLoop (dfa.numStates + 1) dfa i (i+1) false).2.1
            = false := by
          rcases jLoop_spec (dfa.numStates + 1) dfa i (i+1) false with
            ⟨_, h2⟩ | ⟨_, h2⟩
          · exact h2
          · exfalso
            rcases iLoop_spec fuel
              (jLoop (dfa.numStates + 1) dfa i (i+1) false).1 (i+1)
              (jLoop (dfa.numStates + 1) dfa i (i+1) false).2.1 with
              ⟨_, g2⟩ | ⟨_, g2⟩
            · rw [g2, h2] at hch2
              exact absurd hch2 (by simp)
            · rw [g2] at hch2
              exact absurd hch2 (by simp)
        obtain ⟨hjd, hjall⟩ :=
          jLoop_clean (dfa.numStates + 1) dfa i (i+1) hjc hok2.1
        rw [hjc, hjd] at hch2
        have hok3 := hok2.2
        rw [hjc, hjd] at hok3
        obtain ⟨hid, hiall⟩ := ih dfa (i+1) hch2 hok3
        constructor
        · show (iLoop fuel (jLoop (dfa.numStates + 1) dfa i (i+1) false).1
            (i+1) (jLoop (dfa.numStates + 1) dfa i (i+1) false).2.1).1 = dfa
          rw [hjc, hjd, hid]
        · intro i' j' hii hij hjn
          rcases Nat.eq_or_lt_of_le hii with hie | hil
          · rw [← hie]
            exact hjall j' (by omega) (by omega)
          · exact hiall i' j' (by omega) hij hjn
      · rw [if_neg hi] at hch hok ⊢
        refine ⟨rfl, ?_⟩
        intro i' j' hii hij hjn
        omega

/-- A finished `optimize_dfa` run leaves no two observationally equal
states: the exit condition is a full pass without a merge, and the
clean pass certifies every pair. -/
theorem optimizeLoop_clean (fuel : Nat) :
    ∀ (dfa : Dfa), (optimizeLoop fuel dfa).2 = true →
      ∀ i j, i < j → j < (optimizeLoop fuel dfa).1.numStates →
        dfa_state_is_equal
          ((optimizeLoop fuel dfa).1.states.getD i DfaState.zero)
          ((optimizeLoop fuel dfa).1.states.getD j DfaState.zero) = false := by
  induction fuel with
  | zero =>
      intro dfa hok
      have h0 : (false : Bool) = true := hok
      exact absurd h0 (by simp)
  | succ fuel ih =>
      intro dfa hok
      rw [optimizeLoop_succ_eq] at hok ⊢
      by_cases hch : (optimize_pass dfa).2.1 = true
      · rw [if_pos hch] at hok ⊢
        have hok2 : ((optimize_pass dfa).2.2 &&
            (optimizeLoop fuel (optimize_pass dfa).1).2) = true := hok
        rw [Bool.and_eq_true] at hok2
        intro i j hij hjn
        have hjn2 : j < (optimizeLoop fuel (optimize_pass dfa).1).1.numStates :=
          hjn
        exact ih (optimize_pass dfa).1 hok2.2 i j hij hjn2
      · rw [if_neg hch] at hok ⊢
        have hok2 : (optimize_pass dfa).2.2 = true := hok
        have hch2 : (iLoop (dfa.numStates + 1) dfa 0 false).2.1 = false := by
          rcases Bool.eq_false_or_eq_true ((optimize_pass dfa).2.1) with hb | hb
          · exact absurd hb hch
          · exact hb
        obtain ⟨hid, hall⟩ := iLoop_clean (dfa.numStates + 1) dfa 0 hch2 hok2
        intro i j hij hjn
        have hjn2 : j < (iLoop (dfa.numStates + 1) dfa 0 false).1.numStates :=
          hjn
        rw [hid] at hjn2
        have h' := hall i j (Nat.zero_le _) hij hjn2
        show dfa_state_is_equal
          ((iLoop (dfa.numStates + 1) dfa 0 false).1.states.getD i
            DfaState.zero)
          ((iLoop (dfa.numStates + 1) dfa 0 false).1.states.getD j
            DfaState.zero) = false
        rw [hid]
        exact h'

/-- C6: `optimize_dfa` terminates on every DFA: each merge strictly
decreases `numStates` (bounded below), so `numStates + 1` passes always
complete every loop (the fuel flag is `true` for every input), and the
outer pass loop exits right after the first full pass that performs no
merge. -/
theorem c6_optimize_dfa_terminates :
    (∀ (dfa : Dfa) (i j : Nat), j < dfa.numStates →
      (join_equal_dfa_states dfa i j).numStates < dfa.numStates) ∧
    (∀ dfa : Dfa, (optimize_dfa dfa).2 = true) ∧
    (∀ (dfa : Dfa) (fuel : Nat), (optimize_pass dfa).2.1 = false →
      optimizeLoop (fuel+1) dfa =
        ((optimize_pass dfa).1, (optimize_pass dfa).2.2)) := by
  refine ⟨?_, ?_, ?_⟩
  · intro dfa i j hj
    rw [join_equal_dfa_states_numStates]
    omega
  · intro dfa
    exact optimizeLoop_ok (dfa.numStates + 1) dfa (by omega)
  · intro dfa fuel hch
    rw [optimizeLoop_succ_eq, if_neg (by simp [hch])]

/-- Witness for C6 at concrete inputs: a two-state DFA (merged down to
one state) and a one-state DFA (clean first pass). -/
theorem c6_optimize_dfa_terminates_witness :
    (1 < (⟨2, List.replicate 64 DfaState.zero⟩ : Dfa).numStates ∧
      (join_equal_dfa_states ⟨2, List.replicate 64 DfaState.zero⟩ 0
        1).numStates <
        (⟨2, List.replicate 64 DfaState.zero⟩ : Dfa).numStates) ∧
    (optimize_dfa ⟨2, List.replicate 64 DfaState.zero⟩).2 = true ∧
    ((optimize_pass ⟨1, List.replicate 64 DfaState.zero⟩).2.1 = false ∧
      optimizeLoop 1 ⟨1, List.replicate 64 DfaState.zero⟩ =
        ((optimize_pass ⟨1, List.replicate 64 DfaState.zero⟩).1,
         (optimize_pass ⟨1, List.replicate 64 DfaState.zero⟩).2.2)) :=
  ⟨⟨by decide, c6_optimize_dfa_terminates.1 ⟨2, List.replicate 64
      DfaState.zero⟩ 0 1 (by decide)⟩,
   c6_optimize_dfa_terminates.2.1 ⟨2, List.replicate 64 DfaState.zero⟩,
   by decide,
   c6_optimize_dfa_terminates.2.2 ⟨1, List.replicate 64 DfaState.zero⟩ 0
     (by decide)⟩

/-! ## NFA-to-DFA conversion (`dfa.c`, claim C1)

`create_dfa_states` allocates one DFA state per reachable seed NFA
state, keyed by the seed's ε-closure; the member loop folds the
accepting flags (asserting that no two members return different
output values) and the character loop resolves transitions, recursing
into unseen seeds.  Assertion failures are sticky Boolean flags, the
unbounded C recursion is fuel-indexed (65 units suffice for any run
that stays within the 64-state capacity), and `convert_to_dfa` returns
`none` when any assert would have fired. -/

theorem listGetD_set_ne {α : Type} (l : List α) (i k : Nat) (x d : α)
    (h : k ≠ i) : (l.set i x).getD k d = l.getD k d := by
  simp [List.getD_eq_getElem?_getD, List.getElem?_set_ne (by omega : i ≠ k)]

theorem listGetD_set_self_of_lt {α : Type} (l : List α) (i : Nat) (x d : α)
    (h : i < l.length) : (l.set i x).getD i d = x := by
  simp [List.getD_eq_getElem?_getD, List.getElem?_set_self', h]

theorem listGetD_ge_length {α : Type} (l : List α) (i : Nat) (d : α)
    (h : l.length ≤ i) : l.getD i d = d := by
  simp [List.getD_eq_getElem?_getD, List.getElem?_eq_none h]

/-- Modelled from the spec: `epsilonClosure(nfa, s)` is the smallest
set of NFA states containing `s` that is closed under following
ε-transitions, computed by iterating a worklist until no new member is
added; with at most 64 states, 64 sweeps over all states reach the
fixpoint.  One sweep: union every member's ε-set into the set. -/
def epsSweep (nfa : Nfa) : Nat → Nat → Nat → Nat
  | ps, _, 0 => ps
  | ps, k, n+1 =>
      epsSweep nfa
        (if is_in_bitset ps k then ps ||| (getSt nfa k).epsilonTransitions
         else ps) (k+1) n

/-- Modelled from the spec: the worklist iteration of
`epsilonClosure`, run for 64 rounds. -/
def epsIterate (nfa : Nfa) : Nat → Nat → Nat
  | ps, 0 => ps
  | ps, n+1 =>
      if epsSweep nfa ps 0 MAX_NUM_NFA_STATES == ps then ps
      else epsIterate nfa (epsSweep nfa ps 0 MAX_NUM_NFA_STATES) n

/-- Modelled from the spec: `epsilonClosure(nfa, s)` — start from
`{s}` and iterate sweeps to the fixpoint. -/
def epsilon_closure (nfa : Nfa) (s : Nat) : Nat :=
  epsIterate nfa (add_to_bitset 0 s) MAX_NUM_NFA_STATES

/-- The mutable state of `convert_to_dfa`: the DFA being built, the
`powerSets` and `nfaToDfaMap` arrays, one sticky flag per assertion,
and the fuel flag of the model. -/
structure ConvState where
  dfa : Dfa
  powerSets : List Nat
  nfaToDfaMap : List Int
  outConflict : Bool
  transConflict : Bool
  capBad : Bool
  fuelOk : Bool
deriving DecidableEq

def initConvState : ConvState :=
  ⟨⟨0, List.replicate MAX_NUM_DFA_STATES DfaState.zero⟩,
   List.replicate MAX_NUM_DFA_STATES 0,
   List.replicate MAX_NUM_NFA_STATES NO_STATE,
   false, false, false, true⟩

/-- `if (nfaToDfaMap_p[nfaTransition] == NO_STATE) create_dfa_states(...)`. -/
def dfaCharResolve (rec : ConvState → Nat → ConvState) (st : ConvState)
    (t : Nat) : ConvState :=
  if st.nfaToDfaMap.getD t NO_STATE == NO_STATE then rec st t else st

/-- The tail of one character iteration: the transition-conflict
assert (over the previously read `currDfaTransition`) and the
conditional transition write. -/
def dfaCharApply (newIdx j : Nat) (cur : Int) (st : ConvState) (t : Nat) :
    ConvState :=
  if st.nfaToDfaMap.getD t NO_STATE != NO_STATE then
    { st with
      transConflict := st.transConflict ||
        (cur != NO_STATE && st.nfaToDfaMap.getD t NO_STATE != NO_STATE &&
          cur != st.nfaToDfaMap.getD t NO_STATE),
      dfa := updateDfaState st.dfa newIdx (fun s =>
        { s with transitions := s.transitions.set j (st.nfaToDfaMap.getD t NO_STATE) }) }
  else
    { st with
      transConflict := st.transConflict ||
        (cur != NO_STATE && st.nfaToDfaMap.getD t NO_STATE != NO_STATE &&
          cur != st.nfaToDfaMap.getD t NO_STATE) }

/-- One iteration of the character loop of `create_dfa_states`:
`currDfaTransition` is read before the possible recursive creation. -/
def dfaCharStep (rec : ConvState → Nat → ConvState) (nfa : Nfa)
    (newIdx i : Nat) (st : ConvState) (j : Nat) : ConvState :=
  if (getSt nfa i).transitions.getD j NO_STATE != NO_STATE then
    dfaCharApply newIdx j
      ((st.dfa.states.getD newIdx DfaState.zero).transitions.getD j NO_STATE)
      (dfaCharResolve rec st ((getSt nfa i).transitions.getD j NO_STATE).toNat)
      ((getSt nfa i).transitions.getD j NO_STATE).toNat
  else st

/-- The character loop (`for j in 0..NUM_CHARS`). -/
def dfaCharLoop (rec : ConvState → Nat → ConvState) (nfa : Nfa)
    (newIdx i : Nat) : ConvState → Nat → Nat → ConvState
  | st, _, 0 => st
  | st, j, n+1 =>
      dfaCharLoop rec nfa newIdx i (dfaCharStep rec nfa newIdx i st j) (j+1) n

/-- One accepting-member iteration of the member loop: the
output-conflict assert over the accumulated accepting flag and output
value of the new DFA state, then the accepting update. -/
def dfaMemberStep (nfa : Nfa) (newIdx i : Nat) (st : ConvState) : ConvState :=
  if (getSt nfa i).isEndState then
    { st with
      outConflict := st.outConflict ||
        ((st.dfa.states.getD newIdx DfaState.zero).isEndState &&
          decide ((st.dfa.states.getD newIdx DfaState.zero).outputValue ≠
            (getSt nfa i).outputValue)),
      dfa := updateDfaState st.dfa newIdx (fun s =>
        { s with isEndState := true,
                 outputValue := (getSt nfa i).outputValue }) }
  else st

/-- The member loop (`for i in 0..MAX_NUM_NFA_STATES`, skipping
non-members of the power set). -/
def dfaMemberLoop (rec : ConvState → Nat → ConvState) (nfa : Nfa)
    (newIdx : Nat) : ConvState → Nat → Nat → ConvState
  | st, _, 0 => st
  | st, i, n+1 =>
      if is_in_bitset (st.powerSets.getD newIdx 0) i then
        dfaMemberLoop rec nfa newIdx
          (dfaCharLoop rec nfa newIdx i (dfaMemberStep nfa newIdx i st) 0
            NUM_CHARS)
          (i+1) n
      else dfaMemberLoop rec nfa newIdx st (i+1) n

/-- The head of `create_dfa_states`: allocate the next DFA slot (the
post-increment capacity assert becomes the sticky `capBad`), clear the
new state, record the seed's ε-closure and the seed-to-DFA mapping. -/
def createSetup (nfa : Nfa) (st : ConvState) (seed : Nat) : ConvState :=
  { st with
    dfa := updateDfaState { st.dfa with numStates := st.dfa.numStates + 1 }
      st.dfa.numStates
      (fun _ => ⟨false, 0, List.replicate NUM_CHARS NO_STATE⟩),
    capBad := st.capBad || decide (MAX_NUM_DFA_STATES ≤ st.dfa.numStates + 1),
    powerSets := st.powerSets.set st.dfa.numStates (epsilon_closure nfa seed),
    nfaToDfaMap := st.nfaToDfaMap.set seed ((st.dfa.numStates : Nat) : Int) }

/-- `create_dfa_states` from `dfa.c`, fuel-indexed. -/
def create_dfa_states : Nat → Nfa → ConvState → Nat → ConvState
  | 0, _, st, _ => { st with fuelOk := false }
  | fuel+1, nfa, st, seed =>
      dfaMemberLoop (fun s n => create_dfa_states fuel nfa s n) nfa
        st.dfa.numStates (createSetup nfa st seed) 0 MAX_NUM_NFA_STATES

/-- `convert_to_dfa` from `dfa.c`: build the states from seed 0, then
optimize; an assert that would have aborted the C program (or
exhausted fuel) yields `none`. -/
def convert_to_dfa (nfa : Nfa) : Option Dfa :=
  if (create_dfa_states (MAX_NUM_DFA_STATES + 1) nfa initConvState 0).outConflict ||
      (create_dfa_states (MAX_NUM_DFA_STATES + 1) nfa initConvState 0).transConflict ||
      (create_dfa_states (MAX_NUM_DFA_STATES + 1) nfa initConvState 0).capBad ||
      !(create_dfa_states (MAX_NUM_DFA_STATES + 1) nfa initConvState 0).fuelOk ||
      !(optimize_dfa (create_dfa_states (MAX_NUM_DFA_STATES + 1) nfa
          initConvState 0).dfa).2
  then none
  else some (optimize_dfa (create_dfa_states (MAX_NUM_DFA_STATES + 1) nfa
    initConvState 0).dfa).1

/-- The power set `ps` holds two accepting NFA states with different
output values. -/
def PsConflict (nfa : Nfa) (ps : Nat) : Prop :=
  ∃ a b, a < MAX_NUM_NFA_STATES ∧ b < MAX_NUM_NFA_STATES ∧
    is_in_bitset ps a = true ∧ is_in_bitset ps b = true ∧
    (getSt nfa a).isEndState = true ∧ (getSt nfa b).isEndState = true ∧
    (getSt nfa a).outputValue ≠ (getSt nfa b).outputValue

/-- Some DFA state created between the two snapshots has a conflicting
power set. -/
def NewConf (nfa : Nfa) (st st' : ConvState) : Prop :=
  ∃ k, st.dfa.numStates ≤ k ∧ k < st'.dfa.numStates ∧
    PsConflict nfa (st'.powerSets.getD k 0)

/-- The member scan from index `i` with accumulated accepting state
`(accEnd, accVal)` will trip the output-conflict assert. -/
def ScanConf (nfa : Nfa) (ps : Nat) (i : Nat) (accEnd : Bool)
    (accVal : Nat) : Prop :=
  (accEnd = true ∧ ∃ b, i ≤ b ∧ b < MAX_NUM_NFA_STATES ∧
    is_in_bitset ps b = true ∧ (getSt nfa b).isEndState = true ∧
    (getSt nfa b).outputValue ≠ accVal) ∨
  (∃ a b, i ≤ a ∧ a < MAX_NUM_NFA_STATES ∧ i ≤ b ∧ b < MAX_NUM_NFA_STATES ∧
    is_in_bitset ps a = true ∧ is_in_bitset ps b = true ∧
    (getSt nfa a).isEndState = true ∧ (getSt nfa b).isEndState = true ∧
    (getSt nfa a).outputValue ≠ (getSt nfa b).outputValue)

def ConvBasic (st : ConvState) : Prop :=
  st.dfa.states.length = 64 ∧ st.powerSets.length = 64

/-- Contract of a recursive `create_dfa_states` call: shapes are kept,
the state count grows, the data of already-created states is
untouched, and the output-conflict flag changes exactly by the
conflicts of the newly created states. -/
def RecOk (nfa : Nfa) (f : ConvState → Nat → ConvState) : Prop :=
  ∀ st seed, ConvBasic st →
    ConvBasic (f st seed) ∧
    st.dfa.numStates ≤ (f st seed).dfa.numStates ∧
    (∀ k, k < st.dfa.numStates →
      (f st seed).powerSets.getD k 0 = st.powerSets.getD k 0) ∧
    (∀ k, k < st.dfa.numStates →
      (f st seed).dfa.states.getD k DfaState.zero =
        st.dfa.states.getD k DfaState.zero) ∧
    ((f st seed).outConflict = true ↔
      st.outConflict = true ∨ NewConf nfa st (f st seed))

theorem updateDfaState_numStates (dfa : Dfa) (i : Nat) (f : DfaState → DfaState) :
    (updateDfaState dfa i f).numStates = dfa.numStates := rfl

theorem updateDfaState_length (dfa : Dfa) (i : Nat) (f : DfaState → DfaState) :
    (updateDfaState dfa i f).states.length = dfa.states.length :=
  List.length_set ..

theorem dfaStates_update_ne {dfa : Dfa} {idx k : Nat} (f : DfaState → DfaState)
    (h : k ≠ idx) :
    (updateDfaState dfa idx f).states.getD k DfaState.zero =
      dfa.states.getD k DfaState.zero :=
  listGetD_set_ne _ _ _ _ _ h

theorem dfaStates_update_self {dfa : Dfa} {idx : Nat} (f : DfaState → DfaState)
    (h : idx < dfa.states.length) :
    (updateDfaState dfa idx f).states.getD idx DfaState.zero =
      f (dfa.states.getD idx DfaState.zero) :=
  listGetD_set_self_of_lt _ _ _ _ h

theorem dfaStates_update_oob {dfa : Dfa} {idx : Nat} (f : DfaState → DfaState)
    (h : dfa.states.length ≤ idx) :
    (updateDfaState dfa idx f).states.getD idx DfaState.zero =
      dfa.states.getD idx DfaState.zero := by
  have h1 : dfa.states[idx]? = none := List.getElem?_eq_none h
  unfold updateDfaState
  simp [List.getD_eq_getElem?_getD, List.getElem?_set_self', h1]

theorem newConf_self (nfa : Nfa) (a : ConvState) : ¬ NewConf nfa a a := by
  rintro ⟨k, h1, h2, _⟩
  omega

theorem newConf_trans_iff (nfa : Nfa) (a b c : ConvState)
    (hab : a.dfa.numStates ≤ b.dfa.numStates)
    (hbc : b.dfa.numStates ≤ c.dfa.numStates)
    (hfr : ∀ k, k < b.dfa.numStates →
      c.powerSets.getD k 0 = b.powerSets.getD k 0) :
    NewConf nfa a c ↔ NewConf nfa a b ∨ NewConf nfa b c := by
  constructor
  · rintro ⟨k, h1, h2, h3⟩
    rcases Nat.lt_or_ge k b.dfa.numStates with hk | hk
    · left
      refine ⟨k, h1, hk, ?_⟩
      rw [← hfr k hk]
      exact h3
    · right
      exact ⟨k, hk, h2, h3⟩
  · rintro (⟨k, h1, h2, h3⟩ | ⟨k, h1, h2, h3⟩)
    · refine ⟨k, h1, by omega, ?_⟩
      rw [hfr k h2]
      exact h3
    · exact ⟨k, by omega, h2, h3⟩

/-- Facts relating two conversion snapshots along one step that may
only create new states and write the new DFA state `newIdx`'s
transitions. -/
def StepFacts (nfa : Nfa) (newIdx : Nat) (st st' : ConvState) : Prop :=
  ConvBasic st → newIdx < st.dfa.numStates →
    ConvBasic st' ∧
    st.dfa.numStates ≤ st'.dfa.numStates ∧
    (∀ k, k < st.dfa.numStates →
      st'.powerSets.getD k 0 = st.powerSets.getD k 0) ∧
    (∀ k, k < st.dfa.numStates → k ≠ newIdx →
      st'.dfa.states.getD k DfaState.zero =
        st.dfa.states.getD k DfaState.zero) ∧
    (st'.dfa.states.getD newIdx DfaState.zero).isEndState =
      (st.dfa.states.getD newIdx DfaState.zero).isEndState ∧
    (st'.dfa.states.getD newIdx DfaState.zero).outputValue =
      (st.dfa.states.getD newIdx DfaState.zero).outputValue ∧
    (st'.outConflict = true ↔ st.outConflict = true ∨ NewConf nfa st st')

theorem stepFacts_refl (nfa : Nfa) (newIdx : Nat) (st : ConvState) :
    StepFacts nfa newIdx st st := by
  intro hb hn
  refine ⟨hb, Nat.le_refl _, fun k _ => rfl, fun k _ _ => rfl, rfl, rfl, ?_⟩
  constructor
  · exact Or.inl
  · rintro (h | h)
    · exact h
    · exact absurd h (newConf_self nfa st)

theorem stepFacts_trans {nfa : Nfa} {newIdx : Nat} {a b c : ConvState}
    (h1 : StepFacts nfa newIdx a b) (h2 : StepFacts nfa newIdx b c) :
    StepFacts nfa newIdx a c := by
  intro hb hn
  obtain ⟨b1, b2, b3, b4, b5, b6, b7⟩ := h1 hb hn
  obtain ⟨c1, c2, c3, c4, c5, c6, c7⟩ := h2 b1 (by omega)
  refine ⟨c1, by omega, fun k hk => (c3 k (by omega)).trans (b3 k hk),
    fun k hk hne => (c4 k (by omega) hne).trans (b4 k hk hne),
    c5.trans b5, c6.trans b6, ?_⟩
  rw [c7, b7, newConf_trans_iff nfa a b c b2 c2 (fun k hk => c3 k hk)]
  tauto

theorem dfaCharApply_facts (nfa : Nfa) (newIdx j : Nat) (cur : Int)
    (st : ConvState) (t : Nat) :
    StepFacts nfa newIdx st (dfaCharApply newIdx j cur st t) := by
  intro hb hn
  unfold dfaCharApply
  by_cases hm : (st.nfaToDfaMap.getD t NO_STATE != NO_STATE) = true
  · rw [if_pos hm]
    have hkey : ∀ g : DfaState → DfaState,
        (∀ s, (g s).isEndState = s.isEndState) →
        (∀ s, (g s).outputValue = s.outputValue) →
        ((updateDfaState st.dfa newIdx g).states.getD newIdx
            DfaState.zero).isEndState =
          (st.dfa.states.getD newIdx DfaState.zero).isEndState ∧
        ((updateDfaState st.dfa newIdx g).states.getD newIdx
            DfaState.zero).outputValue =
          (st.dfa.states.getD newIdx DfaState.zero).outputValue := by
      intro g hg1 hg2
      rcases Nat.lt_or_ge newIdx st.dfa.states.length with hlen | hlen
      · rw [dfaStates_update_self _ hlen, hg1, hg2]
        exact ⟨rfl, rfl⟩
      · rw [dfaStates_update_oob _ hlen]
        exact ⟨rfl, rfl⟩
    refine ⟨⟨?_, hb.2⟩, Nat.le_refl _, fun k _ => rfl, fun k _ hne => ?_,
      (hkey (fun s => { s with transitions := s.transitions.set j (st.nfaToDfaMap.getD t NO_STATE) }) (fun s => rfl) (fun s => rfl)).1,
      (hkey (fun s => { s with transitions := s.transitions.set j (st.nfaToDfaMap.getD t NO_STATE) }) (fun s => rfl) (fun s => rfl)).2, ?_⟩
    · show (updateDfaState st.dfa newIdx _).states.length = 64
      rw [updateDfaState_length]
      exact hb.1
    · exact dfaStates_update_ne _ hne
    · constructor
      · exact Or.inl
      · rintro (h | h)
        · exact h
        · obtain ⟨k, h1, h2, _⟩ := h
          have h2b : k < st.dfa.numStates := h2
          omega
  · rw [if_neg hm]
    refine ⟨hb, Nat.le_refl _, fun k _ => rfl, fun k _ _ => rfl, rfl, rfl, ?_⟩
    constructor
    · exact Or.inl
    · rintro (h | h)
      · exact h
      · obtain ⟨k, h1, h2, _⟩ := h
        have h2b : k < st.dfa.numStates := h2
        omega

theorem dfaCharResolve_facts (rec : ConvState → Nat → ConvState) (nfa : Nfa)
    (newIdx : Nat) (hrec : RecOk nfa rec) (st : ConvState) (t : Nat) :
    StepFacts nfa newIdx st (dfaCharResolve rec st t) := by
  intro hb hn
  unfold dfaCharResolve
  by_cases hm : (st.nfaToDfaMap.getD t NO_STATE == NO_STATE) = true
  · rw [if_pos hm]
    obtain ⟨b1, b2, b3, b4, b5⟩ := hrec st t hb
    exact ⟨b1, b2, b3, fun k hk _ => b4 k hk, by rw [b4 newIdx hn],
      by rw [b4 newIdx hn], b5⟩
  · rw [if_neg hm]
    exact stepFacts_refl nfa newIdx st hb hn

theorem dfaCharStep_facts (rec : ConvState → Nat → ConvState) (nfa : Nfa)
    (newIdx i : Nat) (hrec : RecOk nfa rec) (st : ConvState) (j : Nat) :
    StepFacts nfa newIdx st (dfaCharStep rec nfa newIdx i st j) := by
  unfold dfaCharStep
  by_cases hc : ((getSt nfa i).transitions.getD j NO_STATE != NO_STATE) = true
  · rw [if_pos hc]
    exact stepFacts_trans
      (dfaCharResolve_facts rec nfa newIdx hrec st
        ((getSt nfa i).transitions.getD j NO_STATE).toNat)
      (dfaCharApply_facts nfa newIdx j
        ((st.dfa.states.getD newIdx DfaState.zero).transitions.getD j
          NO_STATE) _ _)
  · rw [if_neg hc]
    exact stepFacts_refl nfa newIdx st

theorem dfaCharLoop_facts (rec : ConvState → Nat → ConvState) (nfa : Nfa)
    (newIdx i : Nat) (hrec : RecOk nfa rec) (n : Nat) :
    ∀ (st : ConvState) (j : Nat),
      StepFacts nfa newIdx st (dfaCharLoop rec nfa newIdx i st j n) := by
  induction n with
  | zero => intro st j; exact stepFacts_refl nfa newIdx st
  | succ m ih =>
      intro st j
      exact stepFacts_trans (dfaCharStep_facts rec nfa newIdx i hrec st j)
        (ih _ (j+1))

theorem mem_ne_of_not_mem {ps b i : Nat} (hb : is_in_bitset ps b = true)
    (hi : is_in_bitset ps i = false) : b ≠ i := by
  intro h
  rw [h, hi] at hb
  exact absurd hb (by simp)

theorem end_ne_of_not_end {nfa : Nfa} {b i : Nat}
    (hb : (getSt nfa b).isEndState = true)
    (hi : (getSt nfa i).isEndState = false) : b ≠ i := by
  intro h
  rw [h, hi] at hb
  exact absurd hb (by simp)

theorem scanConf_last (nfa : Nfa) (ps : Nat) (e : Bool) (v : Nat) :
    ¬ ScanConf nfa ps MAX_NUM_NFA_STATES e v := by
  have hM : MAX_NUM_NFA_STATES = 64 := rfl
  rintro (⟨_, b, h1, h2, _⟩ | ⟨a, b, h1, h2, _⟩) <;> omega

theorem scanConf_skip (nfa : Nfa) (ps : Nat) (i : Nat) (e : Bool) (v : Nat)
    (h : is_in_bitset ps i = false) :
    ScanConf nfa ps i e v ↔ ScanConf nfa ps (i+1) e v := by
  constructor
  · rintro (⟨he, b, h1, h2, h3, h4, h5⟩ |
      ⟨a, b, ha1, ha2, hb1, hb2, ha3, hb3, ha4, hb4, hab⟩)
    · have hbi := mem_ne_of_not_mem h3 h
      exact Or.inl ⟨he, b, by omega, h2, h3, h4, h5⟩
    · have hai := mem_ne_of_not_mem ha3 h
      have hbi := mem_ne_of_not_mem hb3 h
      exact Or.inr ⟨a, b, by omega, ha2, by omega, hb2, ha3, hb3, ha4, hb4,
        hab⟩
  · rintro (⟨he, b, h1, h2, h3, h4, h5⟩ |
      ⟨a, b, ha1, ha2, hb1, hb2, ha3, hb3, ha4, hb4, hab⟩)
    · exact Or.inl ⟨he, b, by omega, h2, h3, h4, h5⟩
    · exact Or.inr ⟨a, b, by omega, ha2, by omega, hb2, ha3, hb3, ha4, hb4,
        hab⟩

theorem scanConf_skip_end (nfa : Nfa) (ps : Nat) (i : Nat) (e : Bool) (v : Nat)
    (h : (getSt nfa i).isEndState = false) :
    ScanConf nfa ps i e v ↔ ScanConf nfa ps (i+1) e v := by
  constructor
  · rintro (⟨he, b, h1, h2, h3, h4, h5⟩ |
      ⟨a, b, ha1, ha2, hb1, hb2, ha3, hb3, ha4, hb4, hab⟩)
    · have hbi := end_ne_of_not_end h4 h
      exact Or.inl ⟨he, b, by omega, h2, h3, h4, h5⟩
    · have hai := end_ne_of_not_end ha4 h
      have hbi := end_ne_of_not_end hb4 h
      exact Or.inr ⟨a, b, by omega, ha2, by omega, hb2, ha3, hb3, ha4, hb4,
        hab⟩
  · rintro (⟨he, b, h1, h2, h3, h4, h5⟩ |
      ⟨a, b, ha1, ha2, hb1, hb2, ha3, hb3, ha4, hb4, hab⟩)
    · exact Or.inl ⟨he, b, by omega, h2, h3, h4, h5⟩
    · exact Or.inr ⟨a, b, by omega, ha2, by omega, hb2, ha3, hb3, ha4, hb4,
        hab⟩

theorem scanConf_step (nfa : Nfa) (ps : Nat) (i : Nat) (e : Bool) (v : Nat)
    (hm : is_in_bitset ps i = true) (he : (getSt nfa i).isEndState = true)
    (hi : i < MAX_NUM_NFA_STATES) :
    ScanConf nfa ps i e v ↔
      (e = true ∧ v ≠ (getSt nfa i).outputValue) ∨
      ScanConf nfa ps (i+1) true ((getSt nfa i).outputValue) := by
  constructor
  · rintro (⟨he1, b, h1, h2, h3, h4, h5⟩ |
      ⟨a, b, ha1, ha2, hb1, hb2, ha3, hb3, ha4, hb4, hab⟩)
    · by_cases hbi : b = i
      · subst hbi
        exact Or.inl ⟨he1, Ne.symm h5⟩
      · by_cases hvi : v = (getSt nfa i).outputValue
        · refine Or.inr (Or.inl ⟨rfl, b, by omega, h2, h3, h4, ?_⟩)
          rw [← hvi]
          exact h5
        · exact Or.inl ⟨he1, hvi⟩
    · by_cases hai : a = i
      · subst hai
        have hbi : b ≠ a := fun hbe => hab (by rw [hbe])
        exact Or.inr (Or.inl ⟨rfl, b, by omega, hb2, hb3, hb4, Ne.symm hab⟩)
      · by_cases hbi : b = i
        · subst hbi
          exact Or.inr (Or.inl ⟨rfl, a, by omega, ha2, ha3, ha4, hab⟩)
        · exact Or.inr (Or.inr ⟨a, b, by omega, ha2, by omega, hb2, ha3, hb3,
            ha4, hb4, hab⟩)
  · rintro (⟨he1, hv⟩ | h')
    · exact Or.inl ⟨he1, i, Nat.le_refl _, hi, hm, he, Ne.symm hv⟩
    · rcases h' with ⟨_, b, h1, h2, h3, h4, h5⟩ |
        ⟨a, b, ha1, ha2, hb1, hb2, ha3, hb3, ha4, hb4, hab⟩
      · exact Or.inr ⟨i, b, Nat.le_refl _, hi, by omega, h2, hm, h3, he, h4,
          Ne.symm h5⟩
      · exact Or.inr ⟨a, b, by omega, ha2, by omega, hb2, ha3, hb3, ha4, hb4,
          hab⟩

theorem scanConf_false_acc (nfa : Nfa) (ps : Nat) (v : Nat) :
    ScanConf nfa ps 0 false v ↔ PsConflict nfa ps := by
  constructor
  · rintro (⟨he, _⟩ | ⟨a, b, _, ha2, _, hb2, ha3, hb3, ha4, hb4, hab⟩)
    · exact absurd he (by simp)
    · exact ⟨a, b, ha2, hb2, ha3, hb3, ha4, hb4, hab⟩
  · rintro ⟨a, b, ha2, hb2, ha3, hb3, ha4, hb4, hab⟩
    exact Or.inr ⟨a, b, Nat.zero_le _, ha2, Nat.zero_le _, hb2, ha3, hb3,
      ha4, hb4, hab⟩

theorem newConf_congr_left {nfa : Nfa} {a a' c : ConvState}
    (h : a.dfa.numStates = a'.dfa.numStates) :
    NewConf nfa a c ↔ NewConf nfa a' c := by
  unfold NewConf
  rw [h]

theorem bool_eq_false_of_ne_true {b : Bool} (h : ¬ b = true) : b = false := by
  cases b
  · rfl
  · exact absurd rfl h

theorem dfaMemberLoop_succ_eq (rec : ConvState → Nat → ConvState) (nfa : Nfa)
    (newIdx : Nat) (st : ConvState) (i m : Nat) :
    dfaMemberLoop rec nfa newIdx st i (m+1) =
      if is_in_bitset (st.powerSets.getD newIdx 0) i then
        dfaMemberLoop rec nfa newIdx
          (dfaCharLoop rec nfa newIdx i (dfaMemberStep nfa newIdx i st) 0
            NUM_CHARS) (i+1) m
      else dfaMemberLoop rec nfa newIdx st (i+1) m := rfl

theorem dfaMemberStep_end_eq (nfa : Nfa) (newIdx i : Nat) (st : ConvState)
    (he : (getSt nfa i).isEndState = true) :
    dfaMemberStep nfa newIdx i st =
      { st with
        outConflict := st.outConflict ||
          ((st.dfa.states.getD newIdx DfaState.zero).isEndState &&
            decide ((st.dfa.states.getD newIdx DfaState.zero).outputValue ≠
              (getSt nfa i).outputValue)),
        dfa := updateDfaState st.dfa newIdx (fun s =>
          { s with isEndState := true,
                   outputValue := (getSt nfa i).outputValue }) } := by
  unfold dfaMemberStep
  rw [if_pos he]

theorem dfaMemberStep_skip_eq (nfa : Nfa) (newIdx i : Nat) (st : ConvState)
    (he : ¬ (getSt nfa i).isEndState = true) :
    dfaMemberStep nfa newIdx i st = st := by
  unfold dfaMemberStep
  rw [if_neg he]

set_option maxHeartbeats 1000000 in
/-- The member loop of `create_dfa_states`: shapes kept, state count
monotone, already-created states untouched, and the conflict flag
changes exactly by the scan's detection plus the conflicts of the
states created by nested recursion. -/
theorem dfaMemberLoop_spec (rec : ConvState → Nat → ConvState) (nfa : Nfa)
    (newIdx : Nat) (hrec : RecOk nfa rec) (n : Nat) :
    ∀ (st : ConvState) (i : Nat), i + n = MAX_NUM_NFA_STATES →
      ConvBasic st → newIdx < st.dfa.numStates →
      ConvBasic (dfaMemberLoop rec nfa newIdx st i n) ∧
      st.dfa.numStates ≤ (dfaMemberLoop rec nfa newIdx st i n).dfa.numStates ∧
      (∀ k, k < st.dfa.numStates →
        (dfaMemberLoop rec nfa newIdx st i n).powerSets.getD k 0 =
          st.powerSets.getD k 0) ∧
      (∀ k, k < st.dfa.numStates → k ≠ newIdx →
        (dfaMemberLoop rec nfa newIdx st i n).dfa.states.getD k DfaState.zero
          = st.dfa.states.getD k DfaState.zero) ∧
      ((dfaMemberLoop rec nfa newIdx st i n).outConflict = true ↔
        st.outConflict = true ∨
        ScanConf nfa (st.powerSets.getD newIdx 0) i
          (st.dfa.states.getD newIdx DfaState.zero).isEndState
          (st.dfa.states.getD newIdx DfaState.zero).outputValue ∨
        NewConf nfa st (dfaMemberLoop rec nfa newIdx st i n)) := by
  induction n with
  | zero =>
      intro st i hi hb hn
      refine ⟨hb, Nat.le_refl _, fun k _ => rfl, fun k _ _ => rfl, ?_⟩
      have hi64 : i = MAX_NUM_NFA_STATES := by omega
      constructor
      · exact Or.inl
      · rintro (h | h | h)
        · exact h
        · rw [hi64] at h
          exact absurd h (scanConf_last nfa _ _ _)
        · exact absurd h (newConf_self nfa st)
  | succ m ih =>
      intro st i hi hb hn
      rw [dfaMemberLoop_succ_eq]
      by_cases hmem : is_in_bitset (st.powerSets.getD newIdx 0) i = true
      · rw [if_pos hmem]
        have h64 : newIdx < 64 := by
          by_contra hge
          rw [listGetD_ge_length _ _ _ (by rw [hb.2]; omega)] at hmem
          rw [is_in_bitset_zero] at hmem
          exact absurd hmem (by simp)
        by_cases hend : (getSt nfa i).isEndState = true
        · have hML := dfaMemberStep_end_eq nfa newIdx i st hend
          have hMps : (dfaMemberStep nfa newIdx i st).powerSets =
              st.powerSets := by rw [hML]
          have hMn : (dfaMemberStep nfa newIdx i st).dfa.numStates =
              st.dfa.numStates := by
            rw [hML]
            rfl
          have hMb : ConvBasic (dfaMemberStep nfa newIdx i st) := by
            constructor
            · rw [hML]
              show (updateDfaState st.dfa newIdx _).states.length = 64
              rw [updateDfaState_length]
              exact hb.1
            · rw [hML]
              exact hb.2
          have hMacc : (dfaMemberStep nfa newIdx i
              st).dfa.states.getD newIdx DfaState.zero =
              { st.dfa.states.getD newIdx DfaState.zero with
                isEndState := true,
                outputValue := (getSt nfa i).outputValue } := by
            rw [hML]
            show (updateDfaState st.dfa newIdx _).states.getD newIdx
              DfaState.zero = _
            rw [dfaStates_update_self _ (by rw [hb.1]; omega)]
          have hMaccE : ((dfaMemberStep nfa newIdx i
              st).dfa.states.getD newIdx DfaState.zero).isEndState = true := by
            rw [hMacc]
          have hMaccV : ((dfaMemberStep nfa newIdx i
              st).dfa.states.getD newIdx DfaState.zero).outputValue =
              (getSt nfa i).outputValue := by
            rw [hMacc]
          have hMout : (dfaMemberStep nfa newIdx i st).outConflict =
              (st.outConflict ||
                ((st.dfa.states.getD newIdx DfaState.zero).isEndState &&
                  decide ((st.dfa.states.getD newIdx
                    DfaState.zero).outputValue ≠
                    (getSt nfa i).outputValue))) := by
            rw [hML]
          have hMst : ∀ k, k ≠ newIdx →
              (dfaMemberStep nfa newIdx i st).dfa.states.getD k DfaState.zero
                = st.dfa.states.getD k DfaState.zero := by
            intro k hk
            rw [hML]
            exact dfaStates_update_ne _ hk
          obtain ⟨c1, c2, c3, c4, c5, c6, c7⟩ :=
            dfaCharLoop_facts rec nfa newIdx i hrec NUM_CHARS
              (dfaMemberStep nfa newIdx i st) 0 hMb (by omega)
          obtain ⟨f1, f2, f3, f4, f5⟩ :=
            ih (dfaCharLoop rec nfa newIdx i (dfaMemberStep nfa newIdx i st)
              0 NUM_CHARS) (i+1) (by omega) c1 (by omega)
          refine ⟨f1, by omega, ?_, ?_, ?_⟩
          · intro k hk
            rw [f3 k (by omega), c3 k (by omega), hMps]
          · intro k hk hkn
            rw [f4 k (by omega) hkn, c4 k (by omega) hkn, hMst k hkn]
          · rw [f5, c7, hMout, c3 newIdx (by omega), hMps, c5, hMaccE, c6,
              hMaccV,
              newConf_congr_left hMn,
              newConf_trans_iff nfa st
                (dfaCharLoop rec nfa newIdx i (dfaMemberStep nfa newIdx i st)
                  0 NUM_CHARS)
                (dfaMemberLoop rec nfa newIdx
                  (dfaCharLoop rec nfa newIdx i
                    (dfaMemberStep nfa newIdx i st) 0 NUM_CHARS) (i+1) m)
                (by omega) f2 (fun k hk => f3 k hk),
              scanConf_step nfa (st.powerSets.getD newIdx 0) i _ _ hmem hend
                (by have hM : MAX_NUM_NFA_STATES = 64 := rfl; omega),
              Bool.or_eq_true, Bool.and_eq_true, decide_eq_true_iff]
            constructor
            · rintro (((h | h) | h) | (h | h))
              · exact Or.inl h
              · exact Or.inr (Or.inl (Or.inl h))
              · exact Or.inr (Or.inr (Or.inl h))
              · exact Or.inr (Or.inl (Or.inr h))
              · exact Or.inr (Or.inr (Or.inr h))
            · rintro (h | ((h | h) | (h | h)))
              · exact Or.inl (Or.inl (Or.inl h))
              · exact Or.inl (Or.inl (Or.inr h))
              · exact Or.inr (Or.inl h)
              · exact Or.inl (Or.inr h)
              · exact Or.inr (Or.inr h)
        · have hML := dfaMemberStep_skip_eq nfa newIdx i st hend
          rw [hML]
          obtain ⟨c1, c2, c3, c4, c5, c6, c7⟩ :=
            dfaCharLoop_facts rec nfa newIdx i hrec NUM_CHARS st 0 hb hn
          obtain ⟨f1, f2, f3, f4, f5⟩ :=
            ih (dfaCharLoop rec nfa newIdx i st 0 NUM_CHARS) (i+1) (by omega)
              c1 (by omega)
          refine ⟨f1, by omega, ?_, ?_, ?_⟩
          · intro k hk
            rw [f3 k (by omega), c3 k (by omega)]
          · intro k hk hkn
            rw [f4 k (by omega) hkn, c4 k (by omega) hkn]
          · rw [f5, c7, c3 newIdx (by omega), c5, c6,
              newConf_trans_iff nfa st
                (dfaCharLoop rec nfa newIdx i st 0 NUM_CHARS)
                (dfaMemberLoop rec nfa newIdx
                  (dfaCharLoop rec nfa newIdx i st 0 NUM_CHARS) (i+1) m)
                c2 f2 (fun k hk => f3 k hk),
              scanConf_skip_end nfa (st.powerSets.getD newIdx 0) i _ _
                (bool_eq_false_of_ne_true hend)]
            constructor
            · rintro ((h | h) | (h | h))
              · exact Or.inl h
              · exact Or.inr (Or.inr (Or.inl h))
              · exact Or.inr (Or.inl h)
              · exact Or.inr (Or.inr (Or.inr h))
            · rintro (h | (h | (h | h)))
              · exact Or.inl (Or.inl h)
              · exact Or.inr (Or.inl h)
              · exact Or.inl (Or.inr h)
              · exact Or.inr (Or.inr h)
      · rw [if_neg hmem]
        obtain ⟨f1, f2, f3, f4, f5⟩ := ih st (i+1) (by omega) hb hn
        refine ⟨f1, f2, f3, f4, ?_⟩
        rw [f5, scanConf_skip nfa (st.powerSets.getD newIdx 0) i _ _
          (bool_eq_false_of_ne_true hmem)]

/-- The body of `create_dfa_states` (one allocation plus the member
scan), unfolded once. -/
theorem create_dfa_states_succ_eq (fuel : Nat) (nfa : Nfa) (st : ConvState)
    (seed : Nat) :
    create_dfa_states (fuel+1) nfa st seed =
      dfaMemberLoop (fun s n => create_dfa_states fuel nfa s n) nfa
        st.dfa.numStates (createSetup nfa st seed) 0 MAX_NUM_NFA_STATES := rfl

set_option maxHeartbeats 1000000 in
/-- The contract of `create_dfa_states`: shapes kept, state count
monotone, already-created states untouched, and the output-conflict
flag set exactly when some newly created state received a conflicting
power set. -/
theorem create_spec_aux (nfa : Nfa) (fuel : Nat) :
    ∀ (st : ConvState) (seed : Nat), ConvBasic st →
      ConvBasic (create_dfa_states fuel nfa st seed) ∧
      st.dfa.numStates ≤ (create_dfa_states fuel nfa st seed).dfa.numStates ∧
      (∀ k, k < st.dfa.numStates →
        (create_dfa_states fuel nfa st seed).powerSets.getD k 0 =
          st.powerSets.getD k 0) ∧
      (∀ k, k < st.dfa.numStates →
        (create_dfa_states fuel nfa st seed).dfa.states.getD k DfaState.zero =
          st.dfa.states.getD k DfaState.zero) ∧
      ((create_dfa_states fuel nfa st seed).outConflict = true ↔
        st.outConflict = true ∨
          NewConf nfa st (create_dfa_states fuel nfa st seed)) := by
  induction fuel with
  | zero =>
      intro st seed hb
      refine ⟨hb, Nat.le_refl _, fun k _ => rfl, fun k _ => rfl, ?_⟩
      constructor
      · exact Or.inl
      · rintro (h | h)
        · exact h
        · obtain ⟨k, h1, h2, _⟩ := h
          have h2b : k < st.dfa.numStates := h2
          omega
  | succ fuel ih =>
      intro st seed hb
      rw [create_dfa_states_succ_eq]
      have hS_n : (createSetup nfa st seed).dfa.numStates =
          st.dfa.numStates + 1 := rfl
      have hS_out : (createSetup nfa st seed).outConflict =
          st.outConflict := rfl
      have hS_b : ConvBasic (createSetup nfa st seed) := by
        constructor
        · show (updateDfaState
            { st.dfa with numStates := st.dfa.numStates + 1 }
            st.dfa.numStates _).states.length = 64
          rw [updateDfaState_length]
          exact hb.1
        · show (st.powerSets.set st.dfa.numStates
            (epsilon_closure nfa seed)).length = 64
          rw [List.length_set]
          exact hb.2
      have hS_ps : ∀ k, k < st.dfa.numStates →
          (createSetup nfa st seed).powerSets.getD k 0 =
            st.powerSets.getD k 0 :=
        fun k hk => listGetD_set_ne _ _ _ _ _ (by omega)
      have hS_st : ∀ k, k < st.dfa.numStates →
          (createSetup nfa st seed).dfa.states.getD k DfaState.zero =
            st.dfa.states.getD k DfaState.zero :=
        fun k hk => dfaStates_update_ne _ (by omega)
      have hS_accE : ((createSetup nfa st
          seed).dfa.states.getD st.dfa.numStates DfaState.zero).isEndState =
          false := by
        show ((updateDfaState { st.dfa with numStates := st.dfa.numStates + 1 }
          st.dfa.numStates
          (fun _ => ⟨false, 0, List.replicate NUM_CHARS NO_STATE⟩)).states.getD
          st.dfa.numStates DfaState.zero).isEndState = false
        rcases Nat.lt_or_ge st.dfa.numStates st.dfa.states.length with
          hlen | hlen
        · rw [dfaStates_update_self _ (show st.dfa.numStates <
            ({ st.dfa with numStates := st.dfa.numStates + 1 } :
              Dfa).states.length from hlen)]
        · rw [dfaStates_update_oob _ (show
            ({ st.dfa with numStates := st.dfa.numStates + 1 } :
              Dfa).states.length ≤ st.dfa.numStates from hlen)]
          show (st.dfa.states.getD st.dfa.numStates DfaState.zero).isEndState
            = false
          rw [listGetD_ge_length _ _ _ hlen]
          rfl
      obtain ⟨m1, m2, m3, m4, m5⟩ :=
        dfaMemberLoop_spec (fun s n => create_dfa_states fuel nfa s n) nfa
          st.dfa.numStates (fun s n hbs => ih s n hbs) MAX_NUM_NFA_STATES
          (createSetup nfa st seed) 0 rfl hS_b (by omega)
      refine ⟨m1, by omega, ?_, ?_, ?_⟩
      · intro k hk
        rw [m3 k (by omega), hS_ps k hk]
      · intro k hk
        rw [m4 k (by omega) (by omega), hS_st k hk]
      · have hsplit : NewConf nfa st
            (dfaMemberLoop (fun s n => create_dfa_states fuel nfa s n) nfa
              st.dfa.numStates (createSetup nfa st seed) 0
              MAX_NUM_NFA_STATES) ↔
            PsConflict nfa
              ((createSetup nfa st seed).powerSets.getD st.dfa.numStates 0) ∨
            NewConf nfa (createSetup nfa st seed)
              (dfaMemberLoop (fun s n => create_dfa_states fuel nfa s n) nfa
                st.dfa.numStates (createSetup nfa st seed) 0
                MAX_NUM_NFA_STATES) := by
          constructor
          · rintro ⟨k, h1, h2, h3⟩
            rcases Nat.eq_or_lt_of_le h1 with he | hl
            · left
              rw [← he] at h3
              rw [m3 st.dfa.numStates (by omega)] at h3
              exact h3
            · right
              exact ⟨k, by omega, h2, h3⟩
          · rintro (h | ⟨k, h1, h2, h3⟩)
            · refine ⟨st.dfa.numStates, Nat.le_refl _, by omega, ?_⟩
              rw [m3 st.dfa.numStates (by omega)]
              exact h
            · refine ⟨k, ?_, h2, h3⟩
              have h1b : st.dfa.numStates + 1 ≤ k := by
                rw [hS_n] at h1
                exact h1
              omega
        rw [m5, hS_out, hS_accE, scanConf_false_acc, hsplit]

/-- An NFA whose start state ε-reaches two accepting states with
different output values. -/
def nfaC1 : Nfa :=
  ⟨3, [⟨false, 0, List.replicate NUM_CHARS NO_STATE, 6⟩,
       ⟨true, 0, List.replicate NUM_CHARS NO_STATE, 0⟩,
       ⟨true, 1, List.replicate NUM_CHARS NO_STATE, 0⟩], false, true⟩

/-- C1: the subset construction of `convert_to_dfa` raises the
output-conflict error exactly when some created DFA state's power set
holds two accepting NFA states with different output values, and when
the error is raised no DFA is returned. -/
theorem c1_output_conflict (nfa : Nfa) :
    ((create_dfa_states (MAX_NUM_DFA_STATES + 1) nfa
        initConvState 0).outConflict = true ↔
      ∃ k, k < (create_dfa_states (MAX_NUM_DFA_STATES + 1) nfa
          initConvState 0).dfa.numStates ∧
        PsConflict nfa ((create_dfa_states (MAX_NUM_DFA_STATES + 1) nfa
          initConvState 0).powerSets.getD k 0)) ∧
    ((create_dfa_states (MAX_NUM_DFA_STATES + 1) nfa
        initConvState 0).outConflict = true → convert_to_dfa nfa = none) := by
  obtain ⟨m1, m2, m3, m4, m5⟩ :=
    create_spec_aux nfa (MAX_NUM_DFA_STATES + 1) initConvState 0
      ⟨by simp [initConvState, MAX_NUM_DFA_STATES],
       by simp [initConvState, MAX_NUM_DFA_STATES]⟩
  constructor
  · constructor
    · intro h
      rcases m5.mp h with h0 | ⟨k, hk0, hk, hc⟩
      · exact absurd h0 Bool.false_ne_true
      · exact ⟨k, hk, hc⟩
    · rintro ⟨k, hk, hc⟩
      exact m5.mpr (Or.inr ⟨k, Nat.zero_le k, hk, hc⟩)
  · intro h
    simp [convert_to_dfa, h]

set_option maxRecDepth 4000 in
/-- The ε-closure of the start state of `nfaC1` is `{0, 1, 2}`. -/
theorem epsilon_closure_nfaC1 : epsilon_closure nfaC1 0 = 7 := by decide

set_option maxRecDepth 4000 in
/-- C1 at `nfaC1`: the conflict is detected and the conversion
returns no DFA. -/
theorem c1_output_conflict_witness : convert_to_dfa nfaC1 = none := by
  have hb3 : ConvBasic (createSetup nfaC1 initConvState 0) :=
    ⟨by decide, by decide⟩
  obtain ⟨w1, w2, w3, w4, w5⟩ :=
    dfaMemberLoop_spec (fun s n => create_dfa_states MAX_NUM_DFA_STATES nfaC1 s n)
      nfaC1 initConvState.dfa.numStates
      (fun s n hbs => create_spec_aux nfaC1 MAX_NUM_DFA_STATES s n hbs)
      MAX_NUM_NFA_STATES (createSetup nfaC1 initConvState 0) 0 rfl hb3
      (by decide)
  have hps : (createSetup nfaC1 initConvState 0).powerSets.getD
      initConvState.dfa.numStates 0 = 7 := by
    have h1 : (createSetup nfaC1 initConvState 0).powerSets =
        initConvState.powerSets.set initConvState.dfa.numStates
          (epsilon_closure nfaC1 0) := rfl
    rw [h1, listGetD_set_self_of_lt _ _ _ _ (by decide)]
    exact epsilon_closure_nfaC1
  have hout : (create_dfa_states (MAX_NUM_DFA_STATES + 1) nfaC1
      initConvState 0).outConflict = true := by
    rw [create_dfa_states_succ_eq]
    refine w5.mpr (Or.inr (Or.inl ?_))
    refine Or.inr ⟨1, 2, by omega, by decide, by omega, by decide,
      ?_, ?_, by decide, by decide, by decide⟩
    · rw [hps]
      decide
    · rw [hps]
      decide
  exact (c1_output_conflict nfaC1).2 hout

/-- C5: in a DFA returned by `convert_to_dfa`, no two distinct states
are observationally equal: any two states with indices `i < j <
numStates` differ in the accepting flag, the output value, or at
least one transition target (`dfa_state_is_equal` is `false`). -/
theorem c5_no_equal_states (nfa : Nfa) (d : Dfa)
    (h : convert_to_dfa nfa = some d) :
    ∀ i j, i < j → j < d.numStates →
      dfa_state_is_equal (d.states.getD i DfaState.zero)
        (d.states.getD j DfaState.zero) = false := by
  set M := create_dfa_states (MAX_NUM_DFA_STATES + 1) nfa initConvState 0
    with hM
  unfold convert_to_dfa at h
  rw [← hM] at h
  by_cases hc : (M.outConflict || M.transConflict || M.capBad ||
      !M.fuelOk || !(optimize_dfa M.dfa).2) = true
  · rw [if_pos hc] at h
    exact absurd h (by simp)
  · rw [if_neg hc] at h
    injection h with h2
    subst h2
    have hok : (optimize_dfa M.dfa).2 = true := by
      rcases Bool.eq_false_or_eq_true (optimize_dfa M.dfa).2 with ht | hf
      · exact ht
      · exact absurd (by rw [hf]; simp) hc
    intro i j hij hjn
    have hok2 : (optimizeLoop (M.dfa.numStates + 1) M.dfa).2 = true := hok
    have hjn2 : j < (optimizeLoop (M.dfa.numStates + 1) M.dfa).1.numStates :=
      hjn
    exact optimizeLoop_clean (M.dfa.numStates + 1) M.dfa hok2 i j hij hjn2

/-- An NFA with a non-accepting start state that steps on one
character to an accepting state. -/
def nfaW : Nfa :=
  ⟨2, [⟨false, 0, (List.replicate NUM_CHARS NO_STATE).set 97 1, 0⟩,
       ⟨true, 5, List.replicate NUM_CHARS NO_STATE, 0⟩], false, true⟩

/-- The DFA `convert_to_dfa` produces from `nfaW`. -/
def c5dW : Dfa := (convert_to_dfa nfaW).getD ⟨0, []⟩

set_option maxRecDepth 20000 in
/-- C5 at `nfaW`: its two DFA states are observationally different. -/
theorem c5_no_equal_states_witness :
    dfa_state_is_equal (c5dW.states.getD 0 DfaState.zero)
      (c5dW.states.getD 1 DfaState.zero) = false :=
  c5_no_equal_states nfaW c5dW (by decide) 0 1 (by decide) (by decide)

end Lexer
